import Mathlib

/-!
# PBS Pro status engine and host aggregation: a verification development

Shallow embedding of

* `src/server/req_stat.c` (status requests for jobs, queues, nodes, reservations and
  resources),
* `src/lib/Libifl/pbsD_stathost.c` (aggregation of vnodes into hosts),
* `src/lib/Libdb/db_postgres_impl.c` with `src/lib/Libdb/db_postgres_node.c` (the
  dispatch table of the object store, its transactions and the asynchronous
  connection),
* `src/lib/Libifl/enc_RunJob.c` (encoding of a run request), and
* `src/lib/Libcmds/ck_job_name.c` (validation of a job name),

followed by the theorems that settle the claims made about them.

Conventions of the embedding

* C strings are `String`; a `NULL` string is `none : Option String`.
* Linked lists (`pbs_list_head`, `struct attrl *`, `struct batch_status *`) are `List`.
* `malloc`, `realloc` and `strdup` succeed unless a function takes an explicit
  allocation flag.
* Functions of the repository that are not among the sources (`status_job`,
  `find_job`, ...) are fields of the structures `Server` and `Database` or parameters
  of the embedded function, so every theorem holds for all their possible behaviours.
* Counters (`qu_numjobs`, `qu_njstate`, `conn_trx_nest`) are mathematical integers;
  values computed from the text of a request or of a status reply are machine
  integers, reduced modulo `2^32` or `2^64`.
-/

namespace PbsPro

/-! ## Part 1. `req_stat.c`: data model -/

/-- Error codes of `pbs_error.h` used by `req_stat.c`.  The header is not among the
sources; its codes are distinct non-zero integers and `PBSE_NONE` is `0`, which is
what an enumeration expresses.  Any further code is `other n`. -/
inductive PbsError where
  | PBSE_NONE
  | PBSE_UNKJOBID
  | PBSE_NOATTR
  | PBSE_IVALREQ
  | PBSE_PERM
  | PBSE_SYSTEM
  | PBSE_UNKQUE
  | PBSE_JOBHISTNOTSET
  | PBSE_HISTJOBID
  | PBSE_NONODES
  | PBSE_UNKNODE
  | PBSE_UNKNODEATR
  | PBSE_UNKRESVID
  | PBSE_UNKRESC
  | other (code : Nat)
  deriving DecidableEq, Repr

open PbsError

/-- The C test `rc && (rc != PBSE_PERM)`. -/
def rc_is_error (rc : PbsError) : Bool :=
  decide (rc ≠ PBSE_NONE) && decide (rc ≠ PBSE_PERM)

/-- Job states (`JOB_STATE_*` of `job.h`). -/
inductive JobState where
  | JOB_STATE_TRANSIT
  | JOB_STATE_QUEUED
  | JOB_STATE_HELD
  | JOB_STATE_WAITING
  | JOB_STATE_RUNNING
  | JOB_STATE_EXITING
  | JOB_STATE_EXPIRED
  | JOB_STATE_BEGUN
  | JOB_STATE_MOVED
  | JOB_STATE_FINISHED
  deriving DecidableEq, Repr

open JobState

/-- The fields of `job` read by the status code.  `svflg_SubJob` and `svflg_ArrayJob`
are the tests `ji_qs.ji_svrflags & JOB_SVFLG_SubJob` and `... & JOB_SVFLG_ArrayJob`;
`ji_ajtrk` is `none` for a `NULL` tracking table and otherwise holds `tkm_ct`. -/
structure job where
  ji_jobid : String
  ji_state : JobState
  svflg_SubJob : Bool
  svflg_ArrayJob : Bool
  ji_ajtrk : Option Int
  deriving DecidableEq, Repr

/-- One entry of the status reply (`struct brp_status`): object type, object name and
the encoded attribute names and values. -/
structure brp_status where
  brp_objtype : Nat
  brp_objname : String
  brp_attr : List (String × String)
  deriving DecidableEq, Repr

/-- The fields of `struct batch_request` read by the status code. -/
structure batch_request where
  rq_extend : Option String
  rq_id : String
  rq_perm : Nat
  rq_attr : List String
  deriving DecidableEq, Repr

/-- The fields of `attribute` that the status code writes: the flags, and the value
as a `long` or as a string. -/
structure pbs_attribute where
  at_flags : Nat
  at_long : Int
  at_str : String
  deriving DecidableEq, Repr

/-- The fields of `pbs_queue` used by the status code: the name, the jobs, the job
count `qu_numjobs`, the array `qu_njstate` of the counts per job state, and the
attributes `qu_attr[QA_ATR_TotalJobs]` and `qu_attr[QA_ATR_JobsByState]` (whose string
is the buffer `qu_jobstbuf`).  The counts are `int` in the source and are mathematical
integers here: the counts of a running server stay far below the limits of `int`. -/
structure pbs_queue where
  qu_name : String
  qu_jobs : List job
  qu_numjobs : Int
  qu_njstate : JobState → Int
  qu_attr_TotalJobs : pbs_attribute
  qu_attr_JobsByState : pbs_attribute

/-- Result of `is_job_array` (`IS_ARRAY_*`). -/
inductive IsArray where
  | IS_ARRAY_NO
  | IS_ARRAY_ArrayJob
  | IS_ARRAY_Single
  | IS_ARRAY_Range
  deriving DecidableEq, Repr

open IsArray

/-- Result of `parse_subjob_index`: `-1` (`error`), `1` (`done`, no more ranges) or `0`
with the bounds `x`, `y`, the step `z` and the rest `pc` of the range string. -/
inductive SubjobIndex where
  | error
  | done
  | range (x y z : Int) (pc : String)
  deriving DecidableEq, Repr

/-- What the handler does with the request at the end: `reply_send` with the status
list built so far, `req_reject` with a code, or `reply_badattr` with a code. -/
inductive BatchReply where
  | reply_send (brp_status : List brp_status)
  | req_reject (code : PbsError)
  | reply_badattr (code : PbsError)
  deriving DecidableEq, Repr

/-- The server state and the functions of the repository that `req_stat.c` calls and
that are not among the sources.  A status function returns its code and the entries
it appended to the reply list. -/
structure Server where
  svr_history_enable : Int
  svr_alljobs : List job
  find_queuebyname : String → Option pbs_queue
  is_job_array : String → IsArray
  find_job : String → Option job
  find_arrayparent : String → Option job
  svr_chk_histjob : job → PbsError
  get_index_from_jid : String → Option String
  subjob_index_to_offset : job → Option String → Int
  numindex_to_offset : job → Int → Int
  parse_subjob_index : String → SubjobIndex
  status_job : job → batch_request → PbsError × List brp_status
  status_subjob : job → batch_request → Int → PbsError × List brp_status

/-- A C `int` after an arithmetic operation: the value modulo `2^32`, in
`[-2^31, 2^31)`. -/
def wrap_int (v : Int) : Int := Int.bmod v (2 ^ 32)

/-- The loop `for (indx = 0; indx < tkm_ct; ++indx)` of `do_stat_of_a_job`, entered with
`n` iterations left at offset `indx`; `rc` is the code of the previous call. -/
def stat_all_subjobs (srv : Server) (preq : batch_request) (pjob : job) :
    Nat → Int → PbsError → List brp_status → PbsError × List brp_status
  | 0, _, rc, reply => (rc, reply)
  | n + 1, indx, _, reply =>
    let r := srv.status_subjob pjob preq indx
    if rc_is_error r.1 then (r.1, reply ++ r.2)
    else stat_all_subjobs srv preq pjob n (indx + 1) r.1 (reply ++ r.2)

/-- Embedding of `do_stat_of_a_job` (`req_stat.c`, lines 142-178). -/
def do_stat_of_a_job (srv : Server) (preq : batch_request) (reply : List brp_status)
    (pjob : job) (dohistjobs dosubjobs : Bool) : PbsError × List brp_status :=
  if !dohistjobs &&
      (pjob.ji_state == JOB_STATE_FINISHED || pjob.ji_state == JOB_STATE_MOVED) then
    (PBSE_NONE, reply)
  else if !pjob.svflg_SubJob then
    let r := srv.status_job pjob preq
    let reply1 := reply ++ r.2
    let r2 : PbsError × List brp_status :=
      match pjob.ji_ajtrk with
      | some tkm_ct =>
        if dosubjobs && pjob.svflg_ArrayJob &&
            (decide (r.1 = PBSE_NONE) || decide (r.1 ≠ PBSE_PERM)) then
          stat_all_subjobs srv preq pjob tkm_ct.toNat 0 r.1 reply1
        else (r.1, reply1)
      | none => (r.1, reply1)
    if rc_is_error r2.1 then (r2.1, r2.2) else (PBSE_NONE, r2.2)
  else (PBSE_NONE, reply)

/-! ## `stat_a_jobidname` -/

/-- The inner loop `while (x <= y)` of the range branch of `stat_a_jobidname`.  The
result is `none` when the fuel runs out, otherwise the code of an early `return`
(or `none` when the loop ends normally) and the reply list. -/
def stat_subjob_range (srv : Server) (preq : batch_request) (pjob : job) (y z : Int) :
    Nat → Int → List brp_status → Option (Option PbsError × List brp_status)
  | 0, _, _ => none
  | fuel + 1, x, reply =>
    if x ≤ y then
      let indx := srv.numindex_to_offset pjob x
      if indx < 0 then
        stat_subjob_range srv preq pjob y z fuel (wrap_int (x + z)) reply
      else
        let r := srv.status_subjob pjob preq indx
        if rc_is_error r.1 then some (some r.1, reply ++ r.2)
        else stat_subjob_range srv preq pjob y z fuel (wrap_int (x + z)) (reply ++ r.2)
    else some (none, reply)

/-- The outer loop `while (1)` of the range branch: one range of the index string
per iteration. -/
def stat_subjob_ranges (srv : Server) (preq : batch_request) (pjob : job) :
    Nat → String → List brp_status → Option (PbsError × List brp_status)
  | 0, _, _ => none
  | fuel + 1, range, reply =>
    match srv.parse_subjob_index range with
    | SubjobIndex.error => some (PBSE_IVALREQ, reply)
    | SubjobIndex.done => some (PBSE_NONE, reply)
    | SubjobIndex.range x y z pc =>
      match stat_subjob_range srv preq pjob y z fuel x reply with
      | none => none
      | some (some rc, reply1) => some (rc, reply1)
      | some (none, reply1) => stat_subjob_ranges srv preq pjob fuel pc reply1

/-- Embedding of `stat_a_jobidname` (`req_stat.c`, lines 197-267).  `none` means that
the fuel given to the loops of the range branch ran out. -/
def stat_a_jobidname (srv : Server) (fuel : Nat) (preq : batch_request)
    (reply : List brp_status) (name : String) (dohistjobs dosubjobs : Bool) :
    Option (PbsError × List brp_status) :=
  match srv.is_job_array name with
  | IS_ARRAY_Single =>
    match srv.find_arrayparent name with
    | none => some (PBSE_UNKJOBID, reply)
    | some pjob =>
      if !dohistjobs && decide (srv.svr_chk_histjob pjob ≠ PBSE_NONE) then
        some (srv.svr_chk_histjob pjob, reply)
      else
        let indx := srv.subjob_index_to_offset pjob (srv.get_index_from_jid name)
        if indx ≠ -1 then
          let r := srv.status_subjob pjob preq indx
          some (r.1, reply ++ r.2)
        else some (PBSE_UNKJOBID, reply)
  | IS_ARRAY_Range =>
    match srv.get_index_from_jid name with
    | none => some (PBSE_IVALREQ, reply)
    | some range =>
      match srv.find_arrayparent name with
      | none => some (PBSE_UNKJOBID, reply)
      | some pjob =>
        if !dohistjobs && decide (srv.svr_chk_histjob pjob ≠ PBSE_NONE) then
          some (srv.svr_chk_histjob pjob, reply)
        else stat_subjob_ranges srv preq pjob fuel range reply
  | _ =>
    match srv.find_job name with
    | none => some (PBSE_UNKJOBID, reply)
    | some pjob =>
      if !dohistjobs && decide (srv.svr_chk_histjob pjob ≠ PBSE_NONE) then
        some (srv.svr_chk_histjob pjob, reply)
      else some (do_stat_of_a_job srv preq reply pjob dohistjobs dosubjobs)

/-! ## `req_stat_job` -/

/-- Worker of `jobid_tokens`: `cur` holds the characters of the element being read,
last first. -/
def jobid_tokens_from : List Char → List Char → List String
  | cur, [] => [String.mk cur.reverse]
  | cur, c :: cs =>
    if c = ',' then
      String.mk cur.reverse :: (if cs.isEmpty then [] else jobid_tokens_from [] cs)
    else jobid_tokens_from (c :: cur) cs

/-- Modelled from the spec: `parse_comma_string_r` is not among the sources.  The
spec calls the target "a comma-separated list of job identifiers"; `jobid_tokens s`
is the sequence of strings the successive calls return for `s`: the pieces between
the commas, and nothing once the end of the string is reached. -/
def jobid_tokens (s : String) : List String :=
  if s.data.isEmpty then [] else jobid_tokens_from [] s.data

/-- The loop `while ((name = parse_comma_string_r(&pnxtjid)) != NULL)` of
`req_stat_job`: the state is `rc`, `at_least_one_success` and the reply list. -/
def stat_jobid_list (srv : Server) (fuel : Nat) (preq : batch_request)
    (dohistjobs dosubjobs : Bool) :
    List String → PbsError × Bool × List brp_status →
      Option (PbsError × Bool × List brp_status)
  | [], st => some st
  | name :: rest, st =>
    match stat_a_jobidname srv fuel preq st.2.2 name dohistjobs dosubjobs with
    | none => none
    | some r =>
      stat_jobid_list srv fuel preq dohistjobs dosubjobs rest
        (r.1, (if r.1 = PBSE_NONE then true else st.2.1), r.2)

/-- The loops `while (pjob && (rc == PBSE_NONE))` over the jobs of a queue or of the
server. -/
def stat_job_scan (srv : Server) (preq : batch_request) (dohistjobs dosubjobs : Bool) :
    List job → PbsError → List brp_status → PbsError × List brp_status
  | [], rc, reply => (rc, reply)
  | pjob :: rest, rc, reply =>
    if rc = PBSE_NONE then
      let r := do_stat_of_a_job srv preq reply pjob dohistjobs dosubjobs
      stat_job_scan srv preq dohistjobs dosubjobs rest r.1 r.2
    else (rc, reply)

/-- The character `*name`: the first character, or NUL for the empty string. -/
def first_char (s : String) : Char :=
  match s.data with
  | [] => Char.ofNat 0
  | c :: _ => c

/-- The end of `req_stat_job` for a queue or server scan (lines 393-396). -/
def finish_scan (r : PbsError × List brp_status) : BatchReply :=
  if rc_is_error r.1 then BatchReply.req_reject r.1 else BatchReply.reply_send r.2

/-- The part of `req_stat_job` after the extend flags are read (lines 318-397). -/
def req_stat_job_target (srv : Server) (fuel : Nat) (preq : batch_request)
    (dohistjobs dosubjobs : Bool) : Option BatchReply :=
  let name := preq.rq_id
  if (first_char name).isDigit then
    match stat_jobid_list srv fuel preq dohistjobs dosubjobs (jobid_tokens name)
        (PBSE_NONE, false, []) with
    | none => none
    | some st =>
      if st.2.1 then some (BatchReply.reply_send st.2.2)
      else some (BatchReply.req_reject st.1)
  else if (first_char name).isAlpha then
    match srv.find_queuebyname name with
    | some pque =>
      some (finish_scan (stat_job_scan srv preq dohistjobs dosubjobs pque.qu_jobs PBSE_NONE []))
    | none => some (BatchReply.req_reject PBSE_UNKQUE)
  else if first_char name = Char.ofNat 0 ∨ first_char name = '@' then
    some (finish_scan (stat_job_scan srv preq dohistjobs dosubjobs srv.svr_alljobs PBSE_NONE []))
  else some (BatchReply.req_reject PBSE_IVALREQ)

/-- The test `strchr(s, c) != NULL` for a character `c` other than NUL. -/
def strchr_found (s : String) (c : Char) : Bool := s.data.contains c

/-- The flag `dohistjobs` computed at lines 309-315, when the request is not
rejected there. -/
def extend_dohistjobs (preq : batch_request) : Bool :=
  match preq.rq_extend with
  | none => false
  | some ext => strchr_found ext 'x'

/-- The flag `dosubjobs` computed at lines 306-308. -/
def extend_dosubjobs (preq : batch_request) : Bool :=
  match preq.rq_extend with
  | none => false
  | some ext => strchr_found ext 't'

/-- Embedding of `req_stat_job` (`req_stat.c`, lines 287-397).  `none` means that the
fuel given to the loops of a subjob range ran out. -/
def req_stat_job (srv : Server) (fuel : Nat) (preq : batch_request) : Option BatchReply :=
  match preq.rq_extend with
  | none => req_stat_job_target srv fuel preq false false
  | some ext =>
    if strchr_found ext 'x' then
      if srv.svr_history_enable = 0 then some (BatchReply.req_reject PBSE_JOBHISTNOTSET)
      else req_stat_job_target srv fuel preq true (extend_dosubjobs preq)
    else req_stat_job_target srv fuel preq false (extend_dosubjobs preq)

/-! ## `status_node` -/

/-- Constants used by `status_node` whose headers (`pbs_nodes.h`, `attribute.h`,
`pbs_ifl.h`) are not among the sources: the node state bits, the read-access mask,
the attribute flags, the object type and the initial value of `old_nd_state`.  They
are parameters of the embedding. -/
structure node_constants where
  INUSE_DOWN : Nat
  INUSE_DELETED : Nat
  INUSE_JOB : Nat
  INUSE_JOBEXCL : Nat
  INUSE_UNKNOWN : Nat
  INUSE_PROV : Nat
  INUSE_WAIT_PROV : Nat
  INUSE_RESVEXCL : Nat
  VNODE_UNAVAILABLE : Nat
  ATR_DFLAG_RDACC : Nat
  ATR_VFLAG_MODIFY : Nat
  ATR_VFLAG_MODCACHE : Nat
  MGR_OBJ_NODE : Nat
  deriving DecidableEq, Repr

/-- The fields of `struct pbsnode` that `status_node` touches.  `nd_state` is the
`unsigned long` state bitmask; `state_at_long` and `state_at_flags` are
`nd_attr[ND_ATR_state].at_val.at_long` (held as its 64-bit two's-complement pattern)
and `nd_attr[ND_ATR_state].at_flags`; `nd_other_attr` stands for the other
attributes, which `status_node` only hands to the encoder. -/
structure pbsnode where
  nd_name : String
  nd_state : Nat
  state_at_long : Nat
  state_at_flags : Nat
  nd_other_attr : List (String × String)
  deriving DecidableEq, Repr

/-- The operand `INUSE_DOWN | INUSE_UNKNOWN | INUSE_JOB | INUSE_JOBEXCL |
INUSE_RESVEXCL` of lines 653-654. -/
def prov_mask (K : node_constants) : Nat :=
  K.INUSE_DOWN ||| K.INUSE_UNKNOWN ||| K.INUSE_JOB ||| K.INUSE_JOBEXCL ||| K.INUSE_RESVEXCL

/-- The 64-bit pattern of `~m` for a non-negative `int` expression `m`, after its
conversion to `long`. -/
def lnot64 (m : Nat) : Nat := 2 ^ 64 - 1 - m

/-- Embedding of `status_node` (`req_stat.c`, lines 624-689).  `status_nodeattrib` is
the attribute encoder (not among the sources; it reads the node and returns its code
and the encoded attributes); `malloc_ok` says whether the allocation of the status
entry succeeds.  The result is the return code, the node after the call and the
status list. -/
def status_node (K : node_constants)
    (status_nodeattrib : pbsnode → batch_request → PbsError × List (String × String))
    (malloc_ok : Bool) (pnode : pbsnode) (preq : batch_request)
    (pstathd : List brp_status) : PbsError × pbsnode × List brp_status :=
  if pnode.nd_state &&& K.INUSE_DELETED ≠ 0 then (PBSE_NONE, pnode, pstathd)
  else if preq.rq_perm &&& K.ATR_DFLAG_RDACC = 0 then (PBSE_PERM, pnode, pstathd)
  else
    -- sync state attribute with nd_state
    let n1 : pbsnode :=
      if pnode.nd_state ≠ pnode.state_at_long then
        { pnode with
          state_at_long := pnode.nd_state
          state_at_flags :=
            pnode.state_at_flags ||| (K.ATR_VFLAG_MODIFY ||| K.ATR_VFLAG_MODCACHE) }
      else pnode
    -- mask out the DOWN/UNKNOWN flags while prov is on
    let masking : Bool := decide (n1.state_at_long &&& (K.INUSE_PROV ||| K.INUSE_WAIT_PROV) ≠ 0)
    let old_nd_state : Nat := if masking then n1.state_at_long else K.VNODE_UNAVAILABLE
    let n2 : pbsnode :=
      if masking then { n1 with state_at_long := n1.state_at_long &&& lnot64 (prov_mask K) }
      else n1
    if !malloc_ok then (PBSE_SYSTEM, n2, pstathd)
    else
      let r := status_nodeattrib n2 preq
      let pstat : brp_status :=
        { brp_objtype := K.MGR_OBJ_NODE, brp_objname := pnode.nd_name, brp_attr := r.2 }
      -- reverting back the state
      let n3 : pbsnode :=
        if n2.state_at_long &&& K.INUSE_PROV ≠ 0 then { n2 with state_at_long := old_nd_state }
        else n2
      (r.1, n3, pstathd ++ [pstat])

/-! ## Part 2. `pbsD_stathost.c`: data model and string functions -/

/-- One element of an attribute list (`struct attrl`); a `NULL` resource is the empty
string. -/
structure attrl where
  name : String
  resource : String
  value : String
  deriving DecidableEq, Repr

/-- One element of a status list (`struct batch_status`). -/
structure batch_status where
  name : String
  attribs : List attrl
  text : Option String
  deriving DecidableEq, Repr

/-- Entry of the table of hosts (`struct host_list`).  `hl_node` points to the only
vnode of the host, given by its position in the status list, and is `none` (`NULL`)
once the host has several vnodes. -/
structure host_list where
  hl_name : String
  hl_node : Option Nat
  deriving DecidableEq, Repr

/-- Entry of the table of resources (`struct consumable`). -/
structure consumable where
  cons_resource : String
  cons_avail_str : Option String
  cons_avail_sum : Int
  cons_assn_sum : Int
  cons_k : Bool
  cons_consum : Bool
  cons_set : Bool
  deriving DecidableEq, Repr

/-- Modelled from the spec: the header `pbs_ifl.h` is not among the sources; the spec
names the attributes `resources_available` and `resources_assigned`. -/
def ATTR_rescavail : String := "resources_available"

/-- See `ATTR_rescavail`. -/
def ATTR_rescassn : String := "resources_assigned"

/-- Modelled from the spec: the attribute of a vnode that lists its jobs
(`ATTR_NODE_jobs` of `pbs_ifl.h`, not among the sources). -/
def ATTR_NODE_jobs : String := "jobs"

/-- Modelled from the spec: the names in the table `attr_names` of the default build
(lines 531-561), in table order, with the strings that the macros of `pbs_ifl.h` (not
among the sources) stand for. -/
def attr_names : List String :=
  ["Mom", "Port", "pbs_version", "ntype", "state", "pcpus", "Priority", ATTR_NODE_jobs,
   "max_running", "max_user_run", "max_group_run", "no_tasks", "pnames", "resv", "queue",
   "comment", "resv_enable", "no_multinode_jobs", "sharing", "provision_enable",
   "current_aoe", "license", "license_info", "topology_info", "vnode_pool"]

/-- The test `strcasecmp(a, b) == 0`. -/
def strcasecmp_eq (a b : String) : Bool :=
  a.data.map Char.toLower == b.data.map Char.toLower

/-- The letters that mark a value as a size. -/
def size_letters : List Char := "kKmMgGtTpPbBwW".data

/-- The test `strpbrk(s, "kKmMgGtTpPbBwW") != NULL`. -/
def strpbrk_size (s : List Char) : Bool := s.any (fun c => size_letters.contains c)

/-- The C function `isspace` in the C locale. -/
def c_isspace (c : Char) : Bool := c == ' ' || (9 ≤ c.toNat && c.toNat ≤ 13)

/-- The C function `isdigit`. -/
def c_isdigit (c : Char) : Bool := 48 ≤ c.toNat && c.toNat ≤ 57

/-- The digits read by `strtol`: the value read so far and the rest of the string. -/
def strtol_digits : List Char → Nat → Nat × List Char
  | [], acc => (acc, [])
  | c :: cs, acc =>
    if c_isdigit c then strtol_digits cs (acc * 10 + (c.toNat - 48)) else (acc, c :: cs)

/-- Largest `long` (64 bits). -/
def LONG_MAX : Int := 9223372036854775807

/-- Smallest `long` (64 bits). -/
def LONG_MIN : Int := -9223372036854775808

/-- The C function `strtol(s, &pc, 10)` for a 64-bit `long`: white space, an optional
sign and decimal digits; the value is clamped to the range of `long`; without digits
the value is 0 and `pc` is `s`. -/
def strtol (s : List Char) : Int × List Char :=
  let t := s.dropWhile c_isspace
  let negative : Bool := t.head? == some '-'
  let u : List Char :=
    match t with
    | c :: r => if c == '-' || c == '+' then r else t
    | [] => t
  match u with
  | [] => (0, s)
  | c :: _ =>
    if c_isdigit c then
      let r := strtol_digits u 0
      let v : Int := if negative then -(r.1 : Int) else (r.1 : Int)
      ((if v > LONG_MAX then LONG_MAX else if v < LONG_MIN then LONG_MIN else v), r.2)
    else (0, s)

/-- A `long long` after an arithmetic operation: the value modulo `2^64`, in
`[-2^63, 2^63)`. -/
def wrap_ll (v : Int) : Int := Int.bmod v (2 ^ 64)

/-- The output of `sprintf("%lld", v)`. -/
def fmt_lld (v : Int) : String := toString v

/-- Embedding of `get_resource_value` (lines 75-85). -/
def get_resource_value (attrn rname : String) : List attrl → Option String
  | [] => none
  | pal :: next =>
    if strcasecmp_eq pal.name attrn && strcasecmp_eq pal.resource rname then some pal.value
    else get_resource_value attrn rname next

/-! ## `add_consumable_entry` and `build_host_list` -/

/-- Lines 125-158 of `add_consumable_entry`: the search for the resource, the new
entry when it is not found, and the update of `cons_consum` and `cons_k` of the entry
found or added. -/
def add_consumable_at (patl : attrl) (consum_flag : Bool) : List consumable → List consumable
  | [] =>
    [{ cons_resource := patl.resource, cons_avail_str := none, cons_avail_sum := 0,
       cons_assn_sum := 0, cons_k := strpbrk_size patl.value.data,
       cons_consum := consum_flag, cons_set := false }]
  | c :: rest =>
    if strcasecmp_eq patl.resource c.cons_resource then
      { c with
        cons_consum := c.cons_consum || consum_flag
        cons_k := if strpbrk_size patl.value.data then true else c.cons_k } :: rest
    else c :: add_consumable_at patl consum_flag rest

/-- Embedding of `add_consumable_entry` (lines 109-159). -/
def add_consumable_entry (patl : attrl) (consum_flag : Bool) (consum : List consumable) :
    List consumable :=
  if strchr_found patl.value '@' then consum else add_consumable_at patl consum_flag consum

/-- Lines 196-216 of `build_host_list`: the host value `hostn` of the vnode at
position `node` is looked up; a new host points to the vnode, a known host loses its
pointer. -/
def host_list_add (hostn : String) (node : Nat) : List host_list → List host_list
  | [] => [{ hl_name := hostn, hl_node := some node }]
  | h :: rest =>
    if strcasecmp_eq hostn h.hl_name then { h with hl_node := none } :: rest
    else h :: host_list_add hostn node rest

/-- Lines 221-228 of `build_host_list`: the resources of one vnode. -/
def node_consumables (attribs : List attrl) (consum : List consumable) : List consumable :=
  attribs.foldl
    (fun acc patl =>
      if patl.name = ATTR_rescavail then add_consumable_entry patl false acc
      else if patl.name = ATTR_rescassn then add_consumable_entry patl true acc
      else acc)
    consum

/-- The loop `while (pbst)` of `build_host_list`, entered at the vnode of position
`node`. -/
def build_host_list_from :
    Nat → List batch_status → List host_list × List consumable →
      List host_list × List consumable
  | _, [], st => st
  | node, pbst :: next, st =>
    let hl :=
      match get_resource_value ATTR_rescavail "host" pbst.attribs with
      | some hostn => host_list_add hostn node st.1
      | none => st.1
    build_host_list_from (node + 1) next (hl, node_consumables pbst.attribs st.2)

/-- Embedding of `build_host_list` (lines 172-234), called with empty tables. -/
def build_host_list (pbst : List batch_status) : List host_list × List consumable :=
  build_host_list_from 0 pbst ([], [])

/-! ## `sum_a_resource` and `sum_resources` -/

/-- The character `*pc`. -/
def head_char (s : List Char) : Char :=
  match s with
  | [] => Char.ofNat 0
  | c :: _ => c

/-- Lines 292-301 of `sum_a_resource`: the amount adjusted by the unit letter `c`. -/
def adjust_amount (amt : Int) (c : Char) : Int :=
  if c = 'm' ∨ c = 'M' then wrap_ll (amt * 2 ^ 10)
  else if c = 'g' ∨ c = 'G' then wrap_ll (amt * 2 ^ 20)
  else if c = 't' ∨ c = 'T' then wrap_ll (amt * 2 ^ 30)
  else if c = 'p' ∨ c = 'P' then wrap_ll (amt * 2 ^ 30)
  else if c ≠ 'k' ∧ c ≠ 'K' then amt >>> 10
  else amt

/-- Embedding of `sum_a_resource` (lines 250-317); `value` is `none` for `NULL`. -/
def sum_a_resource (psum : consumable) (avail : Bool) (value : Option String)
    (various : String) : consumable :=
  match value with
  | none => psum
  | some value =>
    if !psum.cons_consum then
      if !avail then psum
      else
        match psum.cons_avail_str with
        | none => { psum with cons_avail_str := some value, cons_set := true }
        | some str =>
          if !strcasecmp_eq str value then
            { psum with cons_avail_str := some various, cons_set := true }
          else { psum with cons_set := true }
    else if strchr_found value '@' then psum
    else
      let r := strtol value.data
      let sized : Bool := strpbrk_size r.2
      let amt : Int := if sized then adjust_amount r.1 (head_char r.2) else r.1
      let p1 : consumable :=
        if sized && !psum.cons_k then
          { psum with
            cons_avail_sum := wrap_ll (psum.cons_avail_sum * 2 ^ 10)
            cons_assn_sum := wrap_ll (psum.cons_assn_sum * 2 ^ 10)
            cons_k := true }
        else psum
      if avail then
        { p1 with cons_avail_sum := wrap_ll (p1.cons_avail_sum + amt), cons_set := true }
      else { p1 with cons_assn_sum := wrap_ll (p1.cons_assn_sum + amt), cons_set := true }

/-- Lines 353-357 of `sum_resources`: both values of one resource on one vnode. -/
def sum_node (attribs : List attrl) (various : String) (c : consumable) : consumable :=
  sum_a_resource
    (sum_a_resource c true (get_resource_value ATTR_rescavail c.cons_resource attribs) various)
    false (get_resource_value ATTR_rescassn c.cons_resource attribs) various

/-- Lines 338-345 of `sum_resources`: the sums are cleared (not `cons_k`, `cons_consum`
or `cons_set`). -/
def clear_sums (c : consumable) : consumable :=
  { c with cons_avail_str := none, cons_avail_sum := 0, cons_assn_sum := 0 }

/-- The test `curhn && strcasecmp(curhn, hostn) == 0` on a vnode. -/
def on_host (hostn : String) (pbs : batch_status) : Bool :=
  match get_resource_value ATTR_rescavail "host" pbs.attribs with
  | some curhn => strcasecmp_eq curhn hostn
  | none => false

/-- Embedding of `sum_resources` (lines 325-363). -/
def sum_resources (pbs : List batch_status) (hostn : String) (consum : List consumable)
    (various : String) : List consumable :=
  pbs.foldl
    (fun acc node => if on_host hostn node then acc.map (sum_node node.attribs various) else acc)
    (consum.map clear_sums)

/-! ## `build_collective` (default build), `build_return_status`, `__pbs_stathost` -/

/-- Rules 2, 3 and 4 of `build_collective` (lines 611-640): the new value of a table
entry whose name is the name of the attribute `cupatl`. -/
def collect_value (various : String) (cupatl : attrl) (an_value : Option String) :
    Option String :=
  match an_value with
  | none => some cupatl.value
  | some v =>
    if cupatl.name = ATTR_NODE_jobs then some (v ++ ", " ++ cupatl.value)
    else if v ≠ various ∧ v ≠ cupatl.value then some various
    else some v

/-- Lines 604-642 of `build_collective`: one attribute of a vnode of the host. -/
def collect_attr (various : String) (tbl : List (String × Option String)) (cupatl : attrl) :
    List (String × Option String) :=
  if cupatl.name = ATTR_rescavail ∨ cupatl.name = ATTR_rescassn then tbl
  else tbl.map (fun e => if e.1 = cupatl.name then (e.1, collect_value various cupatl e.2) else e)

/-- Lines 593-646 of `build_collective`: the table `attr_names` after all the vnodes
of the host have been read. -/
def collect_table (pbs : List batch_status) (hostn : String) (various : String) :
    List (String × Option String) :=
  pbs.foldl
    (fun tbl node =>
      if on_host hostn node then node.attribs.foldl (collect_attr various) tbl else tbl)
    (attr_names.map (fun n => (n, none)))

/-- Lines 652-676: the entries made from the table. -/
def table_entries (tbl : List (String × Option String)) : List attrl :=
  tbl.filterMap (fun e => e.2.map (fun v => { name := e.1, resource := "", value := v }))

/-- The text of a sum: `%lld`, followed by `kb` when `cons_k` is set. -/
def sum_text (sum : Int) (k : Bool) : String :=
  if k then fmt_lld sum ++ "kb" else fmt_lld sum

/-- Lines 682-726: the `resources_available` entries. -/
def avail_entries (consum : List consumable) : List attrl :=
  consum.filterMap (fun c =>
    if !c.cons_set then none
    else
      let dup : Option String :=
        if c.cons_consum then some (sum_text c.cons_avail_sum c.cons_k) else c.cons_avail_str
      dup.map (fun v => { name := ATTR_rescavail, resource := c.cons_resource, value := v }))

/-- Lines 729-766: the `resources_assigned` entries. -/
def assn_entries (consum : List consumable) : List attrl :=
  consum.filterMap (fun c =>
    if c.cons_set && c.cons_consum then
      some { name := ATTR_rescassn, resource := c.cons_resource,
             value := sum_text c.cons_assn_sum c.cons_k }
    else none)

/-- Embedding of `build_collective` (default build, lines 576-772): the attribute
list of the new entry. -/
def build_collective (pbs : List batch_status) (hostn : String) (consum : List consumable)
    (various : String) : List attrl :=
  table_entries (collect_table pbs hostn various) ++ avail_entries consum ++
    assn_entries consum

/-- The state threaded through `__pbs_stathost`: the status list of the vnodes, the
table of resources, the list being returned and `pbs_errno` (when set). -/
structure stathost_state where
  bstatus : List batch_status
  consum : List consumable
  curlist : List batch_status
  pbs_errno : Option PbsError
  deriving DecidableEq, Repr

/-- Embedding of `build_return_status` (lines 780-864). -/
def build_return_status (st : stathost_state) (hname : String) (phost_list : List host_list)
    (various : String) : stathost_state :=
  match phost_list.find? (fun h => strcasecmp_eq hname h.hl_name) with
  | none => { st with pbs_errno := some PBSE_UNKNODE }
  | some h =>
    match h.hl_node with
    | some node =>
      match st.bstatus.get? node with
      | some pbs =>
        { st with
          bstatus := st.bstatus.set node { pbs with attribs := [] }
          curlist := st.curlist ++ [{ name := pbs.name, attribs := pbs.attribs, text := pbs.text }] }
      | none => st
    | none =>
      let consum := sum_resources st.bstatus hname st.consum various
      { st with
        consum := consum
        curlist := st.curlist ++
          [{ name := hname, attribs := build_collective st.bstatus hname consum various,
             text := none }] }

/-- Embedding of `__pbs_stathost` (lines 886-968) after `pbs_statvnode` has returned
the status list `bstatus` of all vnodes: the list returned and `pbs_errno`. -/
def __pbs_stathost (bstatus : List batch_status) (hid : Option String) :
    List batch_status × Option PbsError :=
  if bstatus.isEmpty then ([], none)
  else
    let various := "<various>"
    let tables := build_host_list bstatus
    let st0 : stathost_state :=
      { bstatus := bstatus, consum := tables.2, curlist := [], pbs_errno := none }
    let st :=
      if hid = none ∨ hid = some "" then
        tables.1.foldl (fun st h => build_return_status st h.hl_name tables.1 various) st0
      else build_return_status st0 (hid.getD "") tables.1 various
    (st.curlist, st.pbs_errno)


/-! ## Part 3. `req_stat.c`: queue, node, reservation and resource requests -/

/-- Constants of `attribute.h` and `pbs_ifl.h` (not among the sources) used by the
status functions of queues, reservations and resources: the access masks, the
attribute flags and the object types.  They are parameters of the embedding. -/
structure status_constants where
  ATR_DFLAG_RDACC : Nat
  ATR_DFLAG_USRD : Nat
  ATR_DFLAG_MGRD : Nat
  ATR_DFLAG_OPRD : Nat
  ATR_VFLAG_SET : Nat
  ATR_VFLAG_MODCACHE : Nat
  MGR_OBJ_QUEUE : Nat
  MGR_OBJ_RESV : Nat
  MGR_OBJ_RSC : Nat
  deriving DecidableEq, Repr

/-- The job states in the order of their numbers, `0` to `PBS_NUMJOBSTATE - 1`: the
order of the table `statename` of `update_state_ct`. -/
def job_states : List JobState :=
  [JOB_STATE_TRANSIT, JOB_STATE_QUEUED, JOB_STATE_HELD, JOB_STATE_WAITING,
   JOB_STATE_RUNNING, JOB_STATE_EXITING, JOB_STATE_EXPIRED, JOB_STATE_BEGUN,
   JOB_STATE_MOVED, JOB_STATE_FINISHED]

/-- The table `statename` of `update_state_ct`. -/
def statename : JobState → String
  | JOB_STATE_TRANSIT => "Transit"
  | JOB_STATE_QUEUED => "Queued"
  | JOB_STATE_HELD => "Held"
  | JOB_STATE_WAITING => "Waiting"
  | JOB_STATE_RUNNING => "Running"
  | JOB_STATE_EXITING => "Exiting"
  | JOB_STATE_EXPIRED => "Expired"
  | JOB_STATE_BEGUN => "Begun"
  | JOB_STATE_MOVED => "Moved"
  | JOB_STATE_FINISHED => "Finished"

/-- Embedding of `update_state_ct` (`req_stat.c`, lines 820-839): the attribute after
the call; its string is the buffer `buf`. -/
def update_state_ct (C : status_constants) (pattr : pbs_attribute)
    (ct_array : JobState → Int) : pbs_attribute :=
  let buf : String :=
    job_states.foldl
      (fun buf index =>
        if index = JOB_STATE_EXPIRED ∨ index = JOB_STATE_MOVED ∨ index = JOB_STATE_FINISHED then
          buf
        else buf ++ statename index ++ ":" ++ toString (ct_array index) ++ " ")
      ""
  { pattr with
    at_str := buf
    at_flags := pattr.at_flags ||| (C.ATR_VFLAG_SET ||| C.ATR_VFLAG_MODCACHE) }

/-- Embedding of `status_que` (`req_stat.c`, lines 481-523).  `svr_chk_history_conf` is
the result of the function of that name and `status_attrib` the attribute encoder
(neither is among the sources; the encoder reads the queue and returns whether it
failed, and the encoded attributes); `malloc_ok` says whether the allocation of the
status entry succeeds.  The result is the return code, the queue after the call and
the status list. -/
def status_que (C : status_constants) (svr_chk_history_conf : Bool)
    (status_attrib : pbs_queue → batch_request → Bool × List (String × String))
    (malloc_ok : Bool) (pque : pbs_queue) (preq : batch_request)
    (pstathd : List brp_status) : PbsError × pbs_queue × List brp_status :=
  if preq.rq_perm &&& C.ATR_DFLAG_RDACC = 0 then (PBSE_PERM, pque, pstathd)
  else
    -- update count and state counts
    let at_long : Int :=
      if !svr_chk_history_conf then pque.qu_numjobs
      else
        pque.qu_numjobs -
          (pque.qu_njstate JOB_STATE_MOVED + pque.qu_njstate JOB_STATE_FINISHED)
    let q1 : pbs_queue :=
      { pque with
        qu_attr_TotalJobs :=
          { pque.qu_attr_TotalJobs with
            at_long := at_long
            at_flags :=
              pque.qu_attr_TotalJobs.at_flags ||| (C.ATR_VFLAG_SET ||| C.ATR_VFLAG_MODCACHE) } }
    let q2 : pbs_queue :=
      { q1 with qu_attr_JobsByState := update_state_ct C q1.qu_attr_JobsByState q1.qu_njstate }
    if !malloc_ok then (PBSE_SYSTEM, q2, pstathd)
    else
      let r := status_attrib q2 preq
      let pstat : brp_status :=
        { brp_objtype := C.MGR_OBJ_QUEUE, brp_objname := pque.qu_name, brp_attr := r.2 }
      if r.1 then (PBSE_NOATTR, q2, pstathd ++ [pstat]) else (PBSE_NONE, q2, pstathd ++ [pstat])

/-- The test `(*name == '\0') || (*name == '@')` of the status requests. -/
def all_objects (name : String) : Bool :=
  first_char name == Char.ofNat 0 || first_char name == '@'

/-- The loop `while (pque)` of `req_stat_que` over the queues of the server. -/
def stat_queues (C : status_constants) (svr_chk_history_conf : Bool)
    (status_attrib : pbs_queue → batch_request → Bool × List (String × String))
    (malloc_ok : Bool) (preq : batch_request) :
    List pbs_queue → PbsError → List brp_status → PbsError × List brp_status
  | [], rc, reply => (rc, reply)
  | pque :: rest, _, reply =>
    let r := status_que C svr_chk_history_conf status_attrib malloc_ok pque preq reply
    if r.1 ≠ PBSE_NONE then
      if r.1 = PBSE_PERM then
        stat_queues C svr_chk_history_conf status_attrib malloc_ok preq rest PBSE_NONE r.2.2
      else (r.1, r.2.2)
    else stat_queues C svr_chk_history_conf status_attrib malloc_ok preq rest r.1 r.2.2

/-- Embedding of `req_stat_que` (`req_stat.c`, lines 410-467, default build).
`svr_queues` is the list of the queues of the server and `find_queuebyname` the lookup
of a queue (not among the sources).  The changes that `status_que` makes to the
attributes of the queues are not part of the result. -/
def req_stat_que (C : status_constants) (svr_chk_history_conf : Bool)
    (status_attrib : pbs_queue → batch_request → Bool × List (String × String))
    (malloc_ok : Bool) (svr_queues : List pbs_queue)
    (find_queuebyname : String → Option pbs_queue) (preq : batch_request) : BatchReply :=
  let name := preq.rq_id
  let finish (r : PbsError × List brp_status) : BatchReply :=
    if r.1 ≠ PBSE_NONE then BatchReply.req_reject r.1 else BatchReply.reply_send r.2
  if all_objects name then
    finish (stat_queues C svr_chk_history_conf status_attrib malloc_ok preq svr_queues
      PBSE_NONE [])
  else
    match find_queuebyname name with
    | none => BatchReply.req_reject PBSE_UNKQUE
    | some pque =>
      let r := status_que C svr_chk_history_conf status_attrib malloc_ok pque preq []
      finish (r.1, r.2.2)

/-- The loop `for (i = 0; i < svr_totnodes; i++)` of `req_stat_node`, entered with the
nodes still to visit. -/
def stat_nodes (K : node_constants)
    (status_nodeattrib : pbsnode → batch_request → PbsError × List (String × String))
    (malloc_ok : Bool) (preq : batch_request) :
    List pbsnode → PbsError → List brp_status → PbsError × List brp_status
  | [], rc, reply => (rc, reply)
  | pnode :: rest, _, reply =>
    let r := status_node K status_nodeattrib malloc_ok pnode preq reply
    if r.1 ≠ PBSE_NONE then (r.1, r.2.2)
    else stat_nodes K status_nodeattrib malloc_ok preq rest r.1 r.2.2

/-- Embedding of `req_stat_node` (`req_stat.c`, lines 541-607).  `pbsndlist` is the
array of the nodes (`none` when it is `NULL`), `svr_totnodes` their number and
`find_nodebyname` the lookup of a node (not among the sources).  The changes that
`status_node` makes to the nodes are not part of the result. -/
def req_stat_node (K : node_constants)
    (status_nodeattrib : pbsnode → batch_request → PbsError × List (String × String))
    (malloc_ok : Bool) (pbsndlist : Option (List pbsnode)) (svr_totnodes : Int)
    (find_nodebyname : String → Option pbsnode) (preq : batch_request) : BatchReply :=
  let finish (r : PbsError × List brp_status) : BatchReply :=
    if r.1 = PBSE_NONE then BatchReply.reply_send r.2
    else if r.1 ≠ PBSE_UNKNODEATR then BatchReply.req_reject r.1
    else BatchReply.reply_badattr r.1
  match pbsndlist with
  | none => BatchReply.req_reject PBSE_NONODES
  | some nodes =>
    if svr_totnodes ≤ 0 then BatchReply.req_reject PBSE_NONODES
    else
      let name := preq.rq_id
      if all_objects name then
        finish (stat_nodes K status_nodeattrib malloc_ok preq (nodes.take svr_totnodes.toNat)
          PBSE_NONE [])
      else
        match find_nodebyname name with
        | none => BatchReply.req_reject PBSE_UNKNODE
        | some pnode =>
          let r := status_node K status_nodeattrib malloc_ok pnode preq []
          finish (r.1, r.2.2)

/-- The fields of `resc_resv` used by `status_resv`: the identifier `ri_qs.ri_resvID`
and the attributes, which are only handed to the encoder. -/
structure resc_resv where
  ri_resvID : String
  ri_wattr : List (String × String)
  deriving DecidableEq, Repr

/-- Embedding of `status_resv` (`req_stat.c`, lines 941-975); `status_attrib` and
`malloc_ok` are as in `status_que`. -/
def status_resv (C : status_constants)
    (status_attrib : resc_resv → batch_request → Bool × List (String × String))
    (malloc_ok : Bool) (presv : resc_resv) (preq : batch_request)
    (pstathd : List brp_status) : PbsError × List brp_status :=
  if preq.rq_perm &&& C.ATR_DFLAG_RDACC = 0 then (PBSE_PERM, pstathd)
  else if !malloc_ok then (PBSE_SYSTEM, pstathd)
  else
    let r := status_attrib presv preq
    let pstat : brp_status :=
      { brp_objtype := C.MGR_OBJ_RESV, brp_objname := presv.ri_resvID, brp_attr := r.2 }
    if r.1 = false then (PBSE_NONE, pstathd ++ [pstat]) else (PBSE_NOATTR, pstathd ++ [pstat])

/-- The loop `while (presv)` of `req_stat_resv` over the reservations of the server. -/
def stat_resvs (C : status_constants)
    (status_attrib : resc_resv → batch_request → Bool × List (String × String))
    (malloc_ok : Bool) (preq : batch_request) :
    List resc_resv → PbsError → List brp_status → PbsError × List brp_status
  | [], rc, reply => (rc, reply)
  | presv :: rest, _, reply =>
    let r := status_resv C status_attrib malloc_ok presv preq reply
    let rc : PbsError := if r.1 = PBSE_PERM then PBSE_NONE else r.1
    if rc ≠ PBSE_NONE then (rc, r.2)
    else stat_resvs C status_attrib malloc_ok preq rest rc r.2

/-- Embedding of `req_stat_resv` (`req_stat.c`, lines 874-927).  `svr_allresvs` is the
list of the reservations of the server and `find_resv` the lookup of a reservation
(not among the sources). -/
def req_stat_resv (C : status_constants)
    (status_attrib : resc_resv → batch_request → Bool × List (String × String))
    (malloc_ok : Bool) (svr_allresvs : List resc_resv)
    (find_resv : String → Option resc_resv) (preq : batch_request) : BatchReply :=
  let name := preq.rq_id
  let finish (r : PbsError × List brp_status) : BatchReply :=
    if r.1 = PBSE_NONE then BatchReply.reply_send r.2 else BatchReply.req_reject r.1
  if all_objects name then
    finish (stat_resvs C status_attrib malloc_ok preq svr_allresvs PBSE_NONE [])
  else
    match find_resv name with
    | none => BatchReply.req_reject PBSE_UNKRESVID
    | some presv => finish (status_resv C status_attrib malloc_ok presv preq [])

/-- The fields of `struct resource_def` used by `status_resc`. -/
structure resource_def where
  rs_name : String
  rs_type : Int
  rs_flags : Nat
  deriving DecidableEq, Repr

/-- Embedding of `status_resc` (`req_stat.c`, lines 998-1050).  `encode_resc prd private`
stands for the two encoder calls of the branch chosen by `private` (and, in the
other branch, the lookup of the type name): the encoders are not among the sources;
the result is `none` when one of these calls fails and otherwise the attributes
encoded. -/
def status_resc (C : status_constants)
    (encode_resc : resource_def → Bool → Option (List (String × String)))
    (malloc_ok : Bool) (prd : resource_def) (preq : batch_request)
    (pstathd : List brp_status) (private_req : Bool) : PbsError × List brp_status :=
  if prd.rs_flags &&& C.ATR_DFLAG_USRD = 0 ∧
      preq.rq_perm &&& (C.ATR_DFLAG_MGRD ||| C.ATR_DFLAG_OPRD) = 0 then
    (PBSE_PERM, pstathd)
  else if !malloc_ok then (PBSE_SYSTEM, pstathd)
  else
    match encode_resc prd private_req with
    | none => (PBSE_SYSTEM, pstathd)
    | some brp_attr =>
      (PBSE_NONE,
        pstathd ++
          [{ brp_objtype := C.MGR_OBJ_RSC, brp_objname := prd.rs_name, brp_attr := brp_attr }])

/-- The loop `while (i--)` of `req_stat_resc` over the resource definitions;
`RESOURCE_UNKNOWN` is the name of the unknown resource (a macro of a header that is
not among the sources). -/
def stat_rescs (C : status_constants)
    (encode_resc : resource_def → Bool → Option (List (String × String)))
    (malloc_ok : Bool) (RESOURCE_UNKNOWN : String) (preq : batch_request)
    (private_req : Bool) :
    List resource_def → PbsError → List brp_status → PbsError × List brp_status
  | [], rc, reply => (rc, reply)
  | prd :: rest, rc, reply =>
    if !private_req && prd.rs_name == RESOURCE_UNKNOWN then
      stat_rescs C encode_resc malloc_ok RESOURCE_UNKNOWN preq private_req rest rc reply
    else
      let r := status_resc C encode_resc malloc_ok prd preq reply private_req
      let rc1 : PbsError := if r.1 = PBSE_PERM then PBSE_NONE else r.1
      stat_rescs C encode_resc malloc_ok RESOURCE_UNKNOWN preq private_req rest rc1 r.2

/-- Embedding of `req_stat_resc` (`req_stat.c`, lines 1078-1135) for a request that is
not `NULL`.  `svr_resc_def` is the list of the `svr_resc_size` resource definitions
and `find_resc_def` the lookup of one (not among the sources). -/
def req_stat_resc (C : status_constants)
    (encode_resc : resource_def → Bool → Option (List (String × String)))
    (malloc_ok : Bool) (RESOURCE_UNKNOWN : String) (svr_resc_def : List resource_def)
    (find_resc_def : String → Option resource_def) (preq : batch_request) : BatchReply :=
  let name := preq.rq_id
  let finish (r : PbsError × List brp_status) : BatchReply :=
    if r.1 ≠ PBSE_NONE then BatchReply.req_reject r.1 else BatchReply.reply_send r.2
  let private_req : Bool :=
    match preq.rq_extend with
    | none => false
    | some ext => strchr_found ext 'p'
  if all_objects name then
    finish (stat_rescs C encode_resc malloc_ok RESOURCE_UNKNOWN preq private_req svr_resc_def
      PBSE_NONE [])
  else
    match find_resc_def name with
    | none => BatchReply.req_reject PBSE_UNKRESC
    | some prd => finish (status_resc C encode_resc malloc_ok prd preq [] private_req)

/-! ## Part 4. `db_postgres_impl.c` and `db_postgres_node.c`: the object store -/

/-- The object kinds (`PBS_DB_*` of `pbs_db.h`), in the order of the rows of
`db_fn_arr`. -/
inductive pbs_db_obj_type where
  | PBS_DB_JOB
  | PBS_DB_RESV
  | PBS_DB_SVR
  | PBS_DB_NODE
  | PBS_DB_QUE
  | PBS_DB_ATTR
  | PBS_DB_JOBSCR
  | PBS_DB_SCHED
  | PBS_DB_SUBJOB
  | PBS_DB_MOMINFO_TIME
  deriving DecidableEq, Repr

open pbs_db_obj_type

/-- The wrapper `pbs_db_obj_info_t`: the kind of the object.  The data of the object
are only handed to the database, which is a parameter of the embedding. -/
structure pbs_db_obj_info_t where
  pbs_db_obj_type : pbs_db_obj_type
  deriving DecidableEq, Repr

/-- The cursor state `pg_query_state_t`: the number of rows and the current row. -/
structure pg_query_state_t where
  count : Int
  row : Int
  deriving DecidableEq, Repr

/-- The database and the functions of the repository that the object store calls and
that are not among the sources.  `PQexec sql` says whether the command `sql` ends
with `PGRES_COMMAND_OK`; `pg_db_cmd stmt n` is the result of executing the prepared
statement `stmt` with `n` parameters; `handler`, `find_handler` and `next_handler`
give the results of the handlers named in `db_fn_arr` that are not embedded. -/
structure Database where
  PQexec : String → Bool
  pg_db_cmd : String → Nat → Int
  handler : String → pbs_db_obj_info_t → Int
  find_handler : String → pg_query_state_t → pbs_db_obj_info_t → Int × pg_query_state_t
  next_handler : String → pg_query_state_t → pbs_db_obj_info_t → Int

/-- Embedding of `pg_db_insert_node` (`db_postgres_node.c`, lines 268-286); the
statement is named by its macro. -/
def pg_db_insert_node (db : Database) (_obj : pbs_db_obj_info_t) : Int :=
  if db.pg_db_cmd "STMT_INSERT_NODE" 7 ≠ 0 then -1 else 0

/-- Embedding of `pg_db_update_node` (`db_postgres_node.c`, line 314). -/
def pg_db_update_node (db : Database) (_obj : pbs_db_obj_info_t) : Int :=
  db.pg_db_cmd "STMT_UPDATE_NODE" 7

/-- Embedding of `pg_db_delete_node` (`db_postgres_node.c`, line 425). -/
def pg_db_delete_node (db : Database) (_obj : pbs_db_obj_info_t) : Int :=
  db.pg_db_cmd "STMT_DELETE_NODE" 1

/-- Embedding of `pg_db_insert_mominfo_tm` (`db_postgres_node.c`, lines 447-450). -/
def pg_db_insert_mominfo_tm (db : Database) (_obj : pbs_db_obj_info_t) : Int :=
  if db.pg_db_cmd "STMT_INSERT_MOMINFO_TIME" 2 ≠ 0 then -1 else 0

/-- Embedding of `pg_db_update_mominfo_tm` (`db_postgres_node.c`, line 474). -/
def pg_db_update_mominfo_tm (db : Database) (_obj : pbs_db_obj_info_t) : Int :=
  db.pg_db_cmd "STMT_UPDATE_MOMINFO_TIME" 2

/-- One row of `db_fn_arr` (`pg_db_fn_t`); `none` is a `NULL` function pointer. -/
structure pg_db_fn_t where
  pg_db_insert_obj : Option (pbs_db_obj_info_t → Int)
  pg_db_update_obj : Option (pbs_db_obj_info_t → Int)
  pg_db_delete_obj : Option (pbs_db_obj_info_t → Int)
  pg_db_load_obj : Option (pbs_db_obj_info_t → Int)
  pg_db_find_obj : Option (pg_query_state_t → pbs_db_obj_info_t → Int × pg_query_state_t)
  pg_db_next_obj : Option (pg_query_state_t → pbs_db_obj_info_t → Int)

/-- Embedding of the table `db_fn_arr` (`db_postgres_impl.c`, lines 59-141). -/
def db_fn_arr (db : Database) : pbs_db_obj_type → pg_db_fn_t
  | PBS_DB_JOB =>
    { pg_db_insert_obj := some (db.handler "pg_db_insert_job")
      pg_db_update_obj := some (db.handler "pg_db_update_job")
      pg_db_delete_obj := some (db.handler "pg_db_delete_job")
      pg_db_load_obj := some (db.handler "pg_db_load_job")
      pg_db_find_obj := some (db.find_handler "pg_db_find_job")
      pg_db_next_obj := some (db.next_handler "pg_db_next_job") }
  | PBS_DB_RESV =>
    { pg_db_insert_obj := some (db.handler "pg_db_insert_resv")
      pg_db_update_obj := some (db.handler "pg_db_update_resv")
      pg_db_delete_obj := some (db.handler "pg_db_delete_resv")
      pg_db_load_obj := some (db.handler "pg_db_load_resv")
      pg_db_find_obj := some (db.find_handler "pg_db_find_resv")
      pg_db_next_obj := some (db.next_handler "pg_db_next_resv") }
  | PBS_DB_SVR =>
    { pg_db_insert_obj := some (db.handler "pg_db_insert_svr")
      pg_db_update_obj := some (db.handler "pg_db_update_svr")
      pg_db_delete_obj := none
      pg_db_load_obj := some (db.handler "pg_db_load_svr")
      pg_db_find_obj := none
      pg_db_next_obj := none }
  | PBS_DB_NODE =>
    { pg_db_insert_obj := some (pg_db_insert_node db)
      pg_db_update_obj := some (pg_db_update_node db)
      pg_db_delete_obj := some (pg_db_delete_node db)
      pg_db_load_obj := some (db.handler "pg_db_load_node")
      pg_db_find_obj := some (db.find_handler "pg_db_find_node")
      pg_db_next_obj := some (db.next_handler "pg_db_next_node") }
  | PBS_DB_QUE =>
    { pg_db_insert_obj := some (db.handler "pg_db_insert_que")
      pg_db_update_obj := some (db.handler "pg_db_update_que")
      pg_db_delete_obj := some (db.handler "pg_db_delete_que")
      pg_db_load_obj := some (db.handler "pg_db_load_que")
      pg_db_find_obj := some (db.find_handler "pg_db_find_que")
      pg_db_next_obj := some (db.next_handler "pg_db_next_que") }
  | PBS_DB_ATTR =>
    { pg_db_insert_obj := some (db.handler "pg_db_insert_attr")
      pg_db_update_obj := some (db.handler "pg_db_update_attr")
      pg_db_delete_obj := some (db.handler "pg_db_delete_attr")
      pg_db_load_obj := some (db.handler "pg_db_load_attr")
      pg_db_find_obj := some (db.find_handler "pg_db_find_attr")
      pg_db_next_obj := some (db.next_handler "pg_db_next_attr") }
  | PBS_DB_JOBSCR =>
    { pg_db_insert_obj := some (db.handler "pg_db_insert_jobscr")
      pg_db_update_obj := none
      pg_db_delete_obj := none
      pg_db_load_obj := some (db.handler "pg_db_load_jobscr")
      pg_db_find_obj := none
      pg_db_next_obj := none }
  | PBS_DB_SCHED =>
    { pg_db_insert_obj := some (db.handler "pg_db_insert_sched")
      pg_db_update_obj := some (db.handler "pg_db_update_sched")
      pg_db_delete_obj := none
      pg_db_load_obj := some (db.handler "pg_db_load_sched")
      pg_db_find_obj := none
      pg_db_next_obj := none }
  | PBS_DB_SUBJOB =>
    { pg_db_insert_obj := some (db.handler "pg_db_insert_subjob")
      pg_db_update_obj := some (db.handler "pg_db_update_subjob")
      pg_db_delete_obj := none
      pg_db_load_obj := none
      pg_db_find_obj := some (db.find_handler "pg_db_find_subjob")
      pg_db_next_obj := some (db.next_handler "pg_db_next_subjob") }
  | PBS_DB_MOMINFO_TIME =>
    { pg_db_insert_obj := some (pg_db_insert_mominfo_tm db)
      pg_db_update_obj := some (pg_db_update_mominfo_tm db)
      pg_db_delete_obj := none
      pg_db_load_obj := some (db.handler "pg_db_load_mominfo_tm")
      pg_db_find_obj := none
      pg_db_next_obj := none }

/-- Embedding of `pbs_db_insert_obj` (lines 285-289).  The result is `none` when the
call goes through a `NULL` function pointer. -/
def pbs_db_insert_obj (db : Database) (obj : pbs_db_obj_info_t) : Option Int :=
  (db_fn_arr db obj.pbs_db_obj_type).pg_db_insert_obj.map (fun f => f obj)

/-- Embedding of `pbs_db_update_obj` (lines 304-308). -/
def pbs_db_update_obj (db : Database) (obj : pbs_db_obj_info_t) : Option Int :=
  (db_fn_arr db obj.pbs_db_obj_type).pg_db_update_obj.map (fun f => f obj)

/-- Embedding of `pbs_db_delete_obj` (lines 323-327). -/
def pbs_db_delete_obj (db : Database) (obj : pbs_db_obj_info_t) : Option Int :=
  (db_fn_arr db obj.pbs_db_obj_type).pg_db_delete_obj.map (fun f => f obj)

/-- Embedding of `pbs_db_load_obj` (lines 344-348). -/
def pbs_db_load_obj (db : Database) (obj : pbs_db_obj_info_t) : Option Int :=
  (db_fn_arr db obj.pbs_db_obj_type).pg_db_load_obj.map (fun f => f obj)

/-- Embedding of `pg_initialize_state` (lines 154-164) when the allocation
succeeds. -/
def pg_initialize_state : pg_query_state_t := { count := -1, row := -1 }

/-- Embedding of `pbs_db_cursor_init` (lines 201-218) when the allocation of the
state succeeds.  The outer `none` is a call through a `NULL` function pointer; the
inner value is the cursor returned, `none` for `NULL`. -/
def pbs_db_cursor_init (db : Database) (obj : pbs_db_obj_info_t) :
    Option (Option pg_query_state_t) :=
  (db_fn_arr db obj.pbs_db_obj_type).pg_db_find_obj.map
    (fun f =>
      let r := f pg_initialize_state obj
      if r.1 = -1 then none else some r.2)

/-- Embedding of `pbs_db_cursor_next` (lines 238-250): the return value and the
cursor state after the call; `none` is a call through a `NULL` function pointer. -/
def pbs_db_cursor_next (db : Database) (state : pg_query_state_t) (obj : pbs_db_obj_info_t) :
    Option (Int × pg_query_state_t) :=
  if state.row < state.count then
    (db_fn_arr db obj.pbs_db_obj_type).pg_db_next_obj.map
      (fun f => (f state obj, { state with row := state.row + 1 }))
  else some (1, state)

/-- The fields of the connection `pbs_db_conn_t` used by the transaction functions:
the nesting depth and the rollback flag.  Both are `int` in the source; the depth is
a mathematical integer here, since a run would need `2^31` nested transactions to
reach the limit of `int`. -/
structure pbs_db_conn_t where
  conn_trx_nest : Int
  conn_trx_rollback : Int
  deriving DecidableEq, Repr

/-- The result of a transaction call: the return value, the connection after the call
and the commands sent to the database, in order. -/
structure trx_result where
  rc : Int
  conn : pbs_db_conn_t
  sent : List String
  deriving DecidableEq, Repr

/-- Embedding of `pbs_db_begin_trx` (`db_postgres_impl.c`, lines 432-463). -/
def pbs_db_begin_trx (db : Database) (conn : pbs_db_conn_t) (_isolation_level : Int)
    (async : Int) : trx_result :=
  if conn.conn_trx_nest = 0 then
    if !db.PQexec "BEGIN" then { rc := -1, conn := conn, sent := ["BEGIN"] }
    else if async = 1 then
      if !db.PQexec "SET LOCAL synchronous_commit TO OFF" then
        { rc := -1, conn := conn, sent := ["BEGIN", "SET LOCAL synchronous_commit TO OFF"] }
      else
        { rc := 0
          conn := { conn_trx_nest := conn.conn_trx_nest + 1, conn_trx_rollback := 0 }
          sent := ["BEGIN", "SET LOCAL synchronous_commit TO OFF"] }
    else
      { rc := 0
        conn := { conn_trx_nest := conn.conn_trx_nest + 1, conn_trx_rollback := 0 }
        sent := ["BEGIN"] }
  else { rc := 0, conn := { conn with conn_trx_nest := conn.conn_trx_nest + 1 }, sent := [] }

/-- Embedding of `pbs_db_end_trx` (`db_postgres_impl.c`, lines 483-516).
`PBS_DB_ROLLBACK` is the value of the macro of that name (`pbs_db.h` is not among the
sources). -/
def pbs_db_end_trx (db : Database) (PBS_DB_ROLLBACK : Int) (conn : pbs_db_conn_t)
    (commit : Int) : trx_result :=
  if conn.conn_trx_nest = 0 then { rc := 0, conn := conn, sent := [] }
  else
    let rc : Int := if conn.conn_trx_rollback = 1 then -2 else 0
    if conn.conn_trx_nest = 1 then
      let str : String :=
        if commit = PBS_DB_ROLLBACK ∨ conn.conn_trx_rollback = 1 then "ROLLBACK" else "END"
      if !db.PQexec str then
        { rc := -1, conn := { conn with conn_trx_nest := conn.conn_trx_nest - 1 }, sent := [str] }
      else
        { rc := rc
          conn := { conn_trx_nest := conn.conn_trx_nest - 1, conn_trx_rollback := 0 }
          sent := [str] }
    else
      let flag : Int := if commit = PBS_DB_ROLLBACK then 1 else conn.conn_trx_rollback
      { rc := rc
        conn := { conn_trx_nest := conn.conn_trx_nest - 1, conn_trx_rollback := flag }
        sent := [] }

/-! ## `pbs_db_connect_async` -/

/-- The connection states `PBS_DB_CONNECT_STATE_*`. -/
inductive conn_state where
  | PBS_DB_CONNECT_STATE_NOT_CONNECTED
  | PBS_DB_CONNECT_STATE_CONNECTING
  | PBS_DB_CONNECT_STATE_CONNECTED
  | PBS_DB_CONNECT_STATE_FAILED
  deriving DecidableEq, Repr

open conn_state

/-- The polling states of libpq (`PostgresPollingStatusType`) held in
`conn_internal_state`. -/
inductive polling_status where
  | PGRES_POLLING_FAILED
  | PGRES_POLLING_READING
  | PGRES_POLLING_WRITING
  | PGRES_POLLING_OK
  | PGRES_POLLING_ACTIVE
  deriving DecidableEq, Repr

open polling_status

/-- The fields of `pbs_db_conn_t` used by the connect functions (the transaction
fields are those of `pbs_db_conn_t` above). -/
structure pbs_db_link where
  conn_state : conn_state
  conn_internal_state : polling_status
  conn_connect_time : Int
  conn_db_err : String
  deriving DecidableEq, Repr

/-- The result codes of `pbs_db.h` (not among the sources) used by the connect
functions.  They are parameters of the embedding. -/
structure db_codes where
  PBS_DB_SUCCESS : Int
  PBS_DB_CONNREFUSED : Int
  PBS_DB_AUTH_FAILED : Int
  PBS_DB_STILL_STARTING : Int
  PBS_DB_CONNFAILED : Int
  deriving DecidableEq, Repr

/-- What libpq and the system answer during one call of `pbs_db_connect_async`:
whether `PQstatus` is `CONNECTION_BAD`, and the error text that `pg_set_error` then
stores, at each of the three calls of `is_conn_error` (after `PQconnectStart`, in
the connecting case, and after a failed poll); the results of `PQsocket`, `select`
and `PQconnectPoll`; and the clock `time(0)` when the connection is started and at
the timeout test. -/
structure connect_env where
  start_bad : Bool
  start_err : String
  check_bad : Bool
  check_err : String
  poll_bad : Bool
  poll_err : String
  PQsocket : Int
  select : Int
  PQconnectPoll : polling_status
  time_start : Int
  time_now : Int
  deriving DecidableEq, Repr

/-- After this number of seconds the connection is retried. -/
def PBS_DB_CONN_RETRY_TIME : Int := 30

/-- The test `strstr(hay, needle) != NULL`. -/
def strstr_found (hay needle : String) : Bool :=
  hay.data.tails.any (fun t => needle.data.isPrefixOf t)

/-- Embedding of `is_conn_error` (`db_postgres_impl.c`, lines 586-603): whether there
is a connection error, the value of `*failcode` after the call and the connection
after the call.  `bad` says whether `PQstatus` is `CONNECTION_BAD` and `err` is the
text that `pg_set_error` stores. -/
def is_conn_error (K : db_codes) (bad : Bool) (err : String) (conn : pbs_db_link)
    (failcode : Int) : Bool × Int × pbs_db_link :=
  if bad then
    let conn1 := { conn with conn_db_err := err }
    let code : Int :=
      if strstr_found conn1.conn_db_err "Connection refused" ||
          strstr_found conn1.conn_db_err "No such file or directory" then
        K.PBS_DB_CONNREFUSED
      else if strstr_found conn1.conn_db_err "authentication" then K.PBS_DB_AUTH_FAILED
      else if strstr_found conn1.conn_db_err "database system is starting up" then
        K.PBS_DB_STILL_STARTING
      else K.PBS_DB_CONNFAILED
    (true, code, conn1)
  else (false, failcode, conn)

/-- The case `PBS_DB_CONNECT_STATE_CONNECTING` of `pbs_db_connect_async` (lines
756-806), entered with the value of `failcode`. -/
def connect_async_connecting (K : db_codes) (env : connect_env) (conn : pbs_db_link)
    (failcode : Int) : Int × pbs_db_link :=
  let e := is_conn_error K env.check_bad env.check_err conn failcode
  if e.1 then (e.2.1, { e.2.2 with conn_state := PBS_DB_CONNECT_STATE_FAILED })
  else if env.PQsocket = -1 then
    (e.2.1, { e.2.2 with conn_state := PBS_DB_CONNECT_STATE_FAILED })
  else
    match e.2.2.conn_internal_state with
    | PGRES_POLLING_ACTIVE => (e.2.1, e.2.2)
    | PGRES_POLLING_WRITING =>
      if env.select = 1 then
        (e.2.1, { e.2.2 with conn_internal_state := env.PQconnectPoll })
      else if env.select = -1 ∨
          env.time_now - e.2.2.conn_connect_time > PBS_DB_CONN_RETRY_TIME then
        (1, { e.2.2 with conn_state := PBS_DB_CONNECT_STATE_FAILED })
      else (e.2.1, e.2.2)
    | PGRES_POLLING_READING =>
      if env.select = 1 then
        (e.2.1, { e.2.2 with conn_internal_state := env.PQconnectPoll })
      else if env.select = -1 ∨
          env.time_now - e.2.2.conn_connect_time > PBS_DB_CONN_RETRY_TIME then
        (1, { e.2.2 with conn_state := PBS_DB_CONNECT_STATE_FAILED })
      else (e.2.1, e.2.2)
    | PGRES_POLLING_OK => (e.2.1, { e.2.2 with conn_state := PBS_DB_CONNECT_STATE_CONNECTED })
    | PGRES_POLLING_FAILED =>
      let p := is_conn_error K env.poll_bad env.poll_err e.2.2 e.2.1
      (p.2.1, { p.2.2 with conn_state := PBS_DB_CONNECT_STATE_FAILED })

/-- Embedding of `pbs_db_connect_async` (`db_postgres_impl.c`, lines 729-809): the
value returned and the connection after the call. -/
def pbs_db_connect_async (K : db_codes) (env : connect_env) (conn : pbs_db_link) :
    Int × pbs_db_link :=
  let failcode : Int := K.PBS_DB_SUCCESS
  match conn.conn_state with
  | PBS_DB_CONNECT_STATE_NOT_CONNECTED =>
    let e := is_conn_error K env.start_bad env.start_err conn failcode
    if e.1 then (e.2.1, { e.2.2 with conn_state := PBS_DB_CONNECT_STATE_FAILED })
    else
      connect_async_connecting K env
        { e.2.2 with
          conn_connect_time := env.time_start
          conn_state := PBS_DB_CONNECT_STATE_CONNECTING
          conn_internal_state := PGRES_POLLING_WRITING }
        e.2.1
  | PBS_DB_CONNECT_STATE_CONNECTING => connect_async_connecting K env conn failcode
  | _ => (failcode, conn)

/-! ## Part 5. `enc_RunJob.c` -/

/-- An item handed to a DIS stream writer. -/
inductive dis_item where
  | dis_string (s : String)
  | dis_ulong (n : Nat)
  deriving DecidableEq, Repr

/-- The DIS stream writers `diswst` and `diswul` (not among the sources): the code
each returns for an item, given the items handed to the writers before it. -/
structure dis_writers where
  diswst : List dis_item → String → Int
  diswul : List dis_item → Nat → Int

/-- Embedding of `encode_DIS_Run` (`enc_RunJob.c`, lines 77-88): the value returned
and the items handed to the writers, in order.  In each of the three assignments
`rc = f(...) != 0` the comparison is evaluated first, so `rc` receives its truth
value. -/
def encode_DIS_Run (W : dis_writers) (id dest : String) (arg : Nat) : Int × List dis_item :=
  let rc1 : Int := if W.diswst [] id ≠ 0 then 1 else 0
  if rc1 ≠ 0 then (rc1, [dis_item.dis_string id])
  else
    let rc2 : Int := if W.diswst [dis_item.dis_string id] dest ≠ 0 then 1 else 0
    if rc2 ≠ 0 then (rc2, [dis_item.dis_string id, dis_item.dis_string dest])
    else
      let rc3 : Int :=
        if W.diswul [dis_item.dis_string id, dis_item.dis_string dest] arg ≠ 0 then 1 else 0
      if rc3 ≠ 0 then
        (rc3, [dis_item.dis_string id, dis_item.dis_string dest, dis_item.dis_ulong arg])
      else (0, [dis_item.dis_string id, dis_item.dis_string dest, dis_item.dis_ulong arg])

/-! ## Part 6. `ck_job_name.c` -/

/-- The C function `isalpha` in the C locale. -/
def c_isalpha (c : Char) : Bool :=
  (65 ≤ c.toNat && c.toNat ≤ 90) || (97 ≤ c.toNat && c.toNat ≤ 122)

/-- The C function `isalnum` in the C locale. -/
def c_isalnum (c : Char) : Bool := c_isalpha c || c_isdigit c

/-- The C function `isgraph` in the C locale. -/
def c_isgraph (c : Char) : Bool := 33 ≤ c.toNat && c.toNat ≤ 126

/-- Embedding of `isalnumspch` (`ck_job_name.c`, lines 54-64): the character code or
`0`. -/
def isalnumspch (c : Char) : Nat :=
  if c_isalnum c then c.toNat
  else if c = '-' ∨ c = '_' ∨ c = '+' then c.toNat
  else 0

/-- The loop `while (*name)` of `check_job_name` over the characters still to
read. -/
def check_job_name_chars : List Char → Int
  | [] => 0
  | c :: rest => if !c_isgraph c then -1 else check_job_name_chars rest

/-- Embedding of `check_job_name` (`ck_job_name.c`, lines 85-109).  `PBS_MAXJOBNAME` is
a macro of `pbs_ifl.h`, which is not among the sources, and a parameter here. -/
def check_job_name (PBS_MAXJOBNAME : Nat) (name : String) (chk_alpha : Int) : Int :=
  if name.data.length > PBS_MAXJOBNAME then -2
  else if chk_alpha = 1 ∧ c_isalpha (first_char name) = false then -1
  else if chk_alpha = 0 ∧ isalnumspch (first_char name) = 0 then -1
  else check_job_name_chars name.data
/-! ## Part 7. Definitions used to state the theorems -/

/-- A small server for the examples: jobs `1.svr` and `3.svr` exist and are plain
queued jobs, every other identifier is unknown, every status call succeeds with one
entry. -/
def demo_job (id : String) : job :=
  { ji_jobid := id, ji_state := JOB_STATE_QUEUED, svflg_SubJob := false,
    svflg_ArrayJob := false, ji_ajtrk := none }

/-- See `demo_job`. -/
def demo_server : Server :=
  { svr_history_enable := 0
    svr_alljobs := [demo_job "1.svr", demo_job "3.svr"]
    find_queuebyname := fun _ => none
    is_job_array := fun _ => IS_ARRAY_NO
    find_job := fun id => if id = "1.svr" ∨ id = "3.svr" then some (demo_job id) else none
    find_arrayparent := fun _ => none
    svr_chk_histjob := fun _ => PBSE_NONE
    get_index_from_jid := fun _ => none
    subjob_index_to_offset := fun _ _ => -1
    numindex_to_offset := fun _ _ => -1
    parse_subjob_index := fun _ => SubjobIndex.done
    status_job := fun j _ => (PBSE_NONE, [{ brp_objtype := 2, brp_objname := j.ji_jobid, brp_attr := [] }])
    status_subjob := fun _ _ _ => (PBSE_NONE, []) }

/-- A status request for the identifiers `1.svr`, `2.svr` and `3.svr`. -/
def demo_request : batch_request :=
  { rq_extend := none, rq_id := "1.svr,2.svr,3.svr", rq_perm := 0, rq_attr := [] }

/-- A finished job for the examples. -/
def demo_finished_job : job :=
  { ji_jobid := "2.svr", ji_state := JOB_STATE_FINISHED, svflg_SubJob := false,
    svflg_ArrayJob := false, ji_ajtrk := none }

/-- The server of `demo_server` with history enabled, in which `2.svr` is a finished
job kept as history. -/
def demo_history_server : Server :=
  { demo_server with
    svr_history_enable := 1
    svr_alljobs := [demo_job "1.svr", demo_finished_job, demo_job "3.svr"]
    find_job := fun id =>
      if id = "2.svr" then some demo_finished_job
      else if id = "1.svr" ∨ id = "3.svr" then some (demo_job id) else none
    svr_chk_histjob := fun j =>
      if j.ji_state = JOB_STATE_FINISHED ∨ j.ji_state = JOB_STATE_MOVED then PBSE_HISTJOBID
      else PBSE_NONE }

/-- Values for `node_constants` used in the examples: the values these macros have
in the headers of PBS Pro.  Each `INUSE_*` flag is a bit of its own. -/
def demo_node_constants : node_constants :=
  { INUSE_DOWN := 0x2, INUSE_DELETED := 0x4, INUSE_JOB := 0x10, INUSE_JOBEXCL := 0x40,
    INUSE_UNKNOWN := 0x100, INUSE_PROV := 0x800, INUSE_WAIT_PROV := 0x1000,
    INUSE_RESVEXCL := 0x2000, VNODE_UNAVAILABLE := 0x2,
    ATR_DFLAG_RDACC := 0x15, ATR_VFLAG_MODIFY := 0x2, ATR_VFLAG_MODCACHE := 0x8,
    MGR_OBJ_NODE := 3 }

/-- The four bits named by the statement "Down, Unknown, JobExclusive and
ResvExclusive". -/
def four_bit_mask (K : node_constants) : Nat :=
  K.INUSE_DOWN ||| K.INUSE_UNKNOWN ||| K.INUSE_JOBEXCL ||| K.INUSE_RESVEXCL

/-- An encoder for the examples: it reports the value of the state attribute it is
given, in decimal. -/
def demo_encoder (n : pbsnode) (_ : batch_request) : PbsError × List (String × String) :=
  (PBSE_NONE, [("state", toString n.state_at_long)])

/-- A node for the examples, with the given state bitmask and a stale mirror. -/
def demo_node (state : Nat) : pbsnode :=
  { nd_name := "vn1", nd_state := state, state_at_long := 0, state_at_flags := 0,
    nd_other_attr := [] }

/-- A node status request of a requester with read access. -/
def demo_node_request : batch_request :=
  { rq_extend := none, rq_id := "vn1", rq_perm := 0x15, rq_attr := [] }

/-- Calling `status_subjob` once for each offset of a list, in list order, up to and
including the first call that returns an error other than permission-denied: the
error that stopped the calls, if any, and the entries produced. -/
def subjob_calls (srv : Server) (preq : batch_request) (pjob : job) :
    List Int → Option PbsError × List brp_status
  | [] => (none, [])
  | off :: rest =>
    if rc_is_error (srv.status_subjob pjob preq off).1 then
      (some (srv.status_subjob pjob preq off).1, (srv.status_subjob pjob preq off).2)
    else
      ((subjob_calls srv preq pjob rest).1,
        (srv.status_subjob pjob preq off).2 ++ (subjob_calls srv preq pjob rest).2)

/-- The entries of one successful `status_subjob` call per offset. -/
def subjob_entries (srv : Server) (preq : batch_request) (pjob : job) :
    List Int → List brp_status
  | [] => []
  | off :: rest => (srv.status_subjob pjob preq off).2 ++ subjob_entries srv preq pjob rest

/-- An array job with three subjobs for the examples. -/
def demo_array_job : job :=
  { ji_jobid := "7[].svr", ji_state := JOB_STATE_BEGUN, svflg_SubJob := false,
    svflg_ArrayJob := true, ji_ajtrk := some 3 }

/-- A server for the examples of subjob ranges: an identifier `7[...].svr` names a
range of subjobs of the array job `7[].svr`, whose subjobs have the indices 0, 2 and 4
at the offsets 0, 1 and 2.  The index string `0-4:1` is the range 0..4 with step 1;
the index string `2147483647-2147483647` is the range from `INT_MAX` to `INT_MAX` with
step 1. -/
def demo_range_server : Server :=
  { demo_server with
    is_job_array := fun _ => IS_ARRAY_Range
    find_arrayparent := fun _ => some demo_array_job
    get_index_from_jid := fun id =>
      if id = "7[0-4:1].svr" then some "0-4:1"
      else if id = "7[2147483647-2147483647].svr" then some "2147483647-2147483647"
      else none
    numindex_to_offset := fun _ i =>
      if i = 0 then 0 else if i = 2 then 1 else if i = 4 then 2 else -1
    parse_subjob_index := fun s =>
      if s = "0-4:1" then SubjobIndex.range 0 4 1 ""
      else if s = "2147483647-2147483647" then SubjobIndex.range 2147483647 2147483647 1 ""
      else if s = "" then SubjobIndex.done
      else SubjobIndex.error
    status_subjob := fun _ _ off =>
      (PBSE_NONE, [{ brp_objtype := 2, brp_objname := toString off, brp_attr := [] }]) }

/-- First vnode of host `H` for the examples. -/
def demo_vn1 : batch_status :=
  { name := "vn1", text := none,
    attribs := [⟨"comment", "", "rack 1"⟩, ⟨"resources_available", "host", "H"⟩,
                ⟨"resources_available", "mem", "4gb"⟩, ⟨"resources_assigned", "mem", "1gb"⟩,
                ⟨"resources_assigned", "ncpus", "4"⟩] }

/-- Second vnode of host `H` for the examples. -/
def demo_vn2 : batch_status :=
  { name := "vn2", text := none,
    attribs := [⟨"comment", "", "rack 2"⟩, ⟨"resources_available", "host", "H"⟩,
                ⟨"resources_available", "mem", "8gb"⟩, ⟨"resources_assigned", "mem", "0kb"⟩,
                ⟨"resources_assigned", "ncpus", "8"⟩] }

/-- Two vnodes of host `H` for the examples: `ncpus` 4 and 8 assigned, `mem` 4gb and
8gb available (and assigned, which makes `mem` consumable), comments that differ. -/
def demo_vnodes : List batch_status := [demo_vn1, demo_vn2]

/-- The text used for values that differ (`various` of `__pbs_stathost`). -/
def VARIOUS : String := "<various>"

/-- The vnodes of a status list whose host value is `hostn` (ignoring case). -/
def host_vnodes (hostn : String) (pbs : List batch_status) : List batch_status :=
  pbs.filter (on_host hostn)

/-- The table of resources after the discovery pass. -/
def discovered (pbs : List batch_status) : List consumable :=
  pbs.foldl (fun acc node => node_consumables node.attribs acc) []

/-- The attribute list of the aggregate entry of a host with several vnodes in a
query for that host. -/
def host_aggregate (pbs : List batch_status) (hostn : String) : List attrl :=
  build_collective pbs hostn (sum_resources pbs hostn (discovered pbs) VARIOUS) VARIOUS

/-- The values of the attribute `an` on the vnodes of host `hostn`, in list order. -/
def host_attr_values (an hostn : String) (pbs : List batch_status) : List String :=
  (host_vnodes hostn pbs).flatMap (fun n =>
    (n.attribs.filter (fun a => decide (a.name = an))).map (fun a => a.value))

/-- The value an attribute list reports for the attribute `an`. -/
def attr_value (an : String) (al : List attrl) : Option String :=
  (al.find? (fun a => decide (a.name = an))).map (fun a => a.value)

/-- The common value of a list of values: `none` for no value, the value itself when
all are equal, `various` otherwise. -/
def agree_value (various : String) : List String → Option String
  | [] => none
  | v :: rest => if rest.all (fun x => decide (x = v)) then some v else some various

/-- Rules 2 and 4 of `build_collective` as a step on values. -/
def agree_step (various : String) (acc : Option String) (x : String) : Option String :=
  match acc with
  | none => some x
  | some v => if v ≠ various ∧ v ≠ x then some various else some v

/-- The attributes that `build_collective` collects under the table name `an`. -/
def own_attr (an : String) (a : attrl) : Bool :=
  decide (a.name = an) &&
    !(decide (a.name = ATTR_rescavail) || decide (a.name = ATTR_rescassn))

/-- The entry of the table of resources that the code finds for the resource name
`R`. -/
def consum_find (R : String) (consum : List consumable) : Option consumable :=
  consum.find? (fun c => strcasecmp_eq R c.cons_resource)

/-- The attribute lists of all vnodes, one after the other. -/
def all_attribs (pbs : List batch_status) : List attrl :=
  pbs.flatMap (fun n => n.attribs)

/-- The step of the discovery pass for one attribute (lines 223-226). -/
def discover_step (acc : List consumable) (patl : attrl) : List consumable :=
  if patl.name = ATTR_rescavail then add_consumable_entry patl false acc
  else if patl.name = ATTR_rescassn then add_consumable_entry patl true acc
  else acc

/-- The entries the discovery pass takes into account for the resource `R`: those of
`resources_available` or `resources_assigned` (spelled exactly) that name `R`
(ignoring case) and are not indirect. -/
def discovers (R : String) (a : attrl) : Bool :=
  (decide (a.name = ATTR_rescavail) || decide (a.name = ATTR_rescassn)) &&
    !strchr_found a.value '@' && strcasecmp_eq a.resource R

/-- The resource `R` is consumable: some vnode has a `resources_assigned` entry for
it that the discovery pass takes into account. -/
def is_consumable (R : String) (pbs : List batch_status) : Bool :=
  ((all_attribs pbs).filter (discovers R)).any (fun a => decide (a.name = ATTR_rescassn))

/-- Some value of the resource `R` seen by the discovery pass carries a size letter. -/
def has_size_value (R : String) (pbs : List batch_status) : Bool :=
  ((all_attribs pbs).filter (discovers R)).any (fun a => strpbrk_size a.value.data)

/-- What the discovery pass knows of a resource: whether it is consumable and whether
it is a size. -/
def known_flags (R : String) (T : List consumable) : Option (Bool × Bool) :=
  (consum_find R T).map (fun c => (c.cons_consum, c.cons_k))

/-- The step of the discovery pass, seen on the flags of one resource. -/
def flags_step (R : String) (v : Option (Bool × Bool)) (a : attrl) : Option (Bool × Bool) :=
  if discovers R a then
    some (match v with
      | none => (decide (a.name = ATTR_rescassn), strpbrk_size a.value.data)
      | some f => (f.1 || decide (a.name = ATTR_rescassn), strpbrk_size a.value.data || f.2))
  else v

/-- No two entries of a table of resources have the same name, ignoring case. -/
def distinct_resources (T : List consumable) : Prop :=
  (T.map (fun c => c.cons_resource)).Pairwise (fun a b => strcasecmp_eq a b = false)

/-- The value that the `resources_available` pass of `build_collective` writes for an
entry of the table (`none` when it writes no entry). -/
def avail_text (c : consumable) : Option String :=
  if !c.cons_set then none
  else if c.cons_consum then some (sum_text c.cons_avail_sum c.cons_k) else c.cons_avail_str

/-- The value that the `resources_assigned` pass of `build_collective` writes for an
entry of the table (`none` when it writes no entry). -/
def assn_text (c : consumable) : Option String :=
  if c.cons_set && c.cons_consum then some (sum_text c.cons_assn_sum c.cons_k) else none

/-- The entry of one resource after the vnodes of a host have been summed into it. -/
def sum_host (pbs : List batch_status) (hostn various : String) (c : consumable) :
    consumable :=
  (host_vnodes hostn pbs).foldl (fun c n => sum_node n.attribs various c) (clear_sums c)

/-- The amount that `sum_a_resource` adds for a value (lines 287-301). -/
def amount (v : String) : Int :=
  if strpbrk_size (strtol v.data).2 then
    adjust_amount (strtol v.data).1 (head_char (strtol v.data).2)
  else (strtol v.data).1

/-- The amount added for the value found on a vnode: nothing when there is no value
or when the value is indirect. -/
def summed (value : Option String) : Option Int :=
  match value with
  | none => none
  | some v => if strchr_found v '@' then none else some (amount v)

/-- Adding an amount to a running `long long` sum. -/
def sum_add (s : Int) (x : Option Int) : Int :=
  match x with
  | none => s
  | some a => wrap_ll (s + a)

/-- The running sum of the resource `res` in the attribute `attrn` over a list of
vnodes, starting from `s`. -/
def sum_over (attrn res : String) (s : Int) (ns : List batch_status) : Int :=
  ns.foldl (fun s n => sum_add s (summed (get_resource_value attrn res n.attribs))) s

/-- A vnode has a value that is summed for the resource `res`. -/
def carries (res : String) (n : batch_status) : Bool :=
  (summed (get_resource_value ATTR_rescavail res n.attribs)).isSome ||
    (summed (get_resource_value ATTR_rescassn res n.attribs)).isSome

/-- The size flag of an entry is already set for every value of a vnode that would
set it during the sums. -/
def size_flag_settled (c : consumable) (n : batch_status) : Prop :=
  ∀ attrn, attrn = ATTR_rescavail ∨ attrn = ATTR_rescassn →
    ∀ v, get_resource_value attrn c.cons_resource n.attribs = some v →
      strchr_found v '@' = false → strpbrk_size (strtol v.data).2 = true → c.cons_k = true

/-- The step of `sum_a_resource` on the string kept for a resource that is not
consumable (lines 264-276). -/
def differ_step (various : String) (acc : Option String) (x : String) : Option String :=
  match acc with
  | none => some x
  | some s => if !strcasecmp_eq s x then some various else some s

/-- The values of `resources_available.res` on a list of vnodes, in order. -/
def avail_values (res : String) (ns : List batch_status) : List String :=
  ns.filterMap (fun n => get_resource_value ATTR_rescavail res n.attribs)

/-- Every attribute whose name is `resources_available` or `resources_assigned` up
to case is spelled exactly so. -/
def exact_names (pbs : List batch_status) : Prop :=
  ∀ n ∈ pbs, ∀ a ∈ n.attribs,
    (strcasecmp_eq a.name ATTR_rescavail = true → a.name = ATTR_rescavail) ∧
    (strcasecmp_eq a.name ATTR_rescassn = true → a.name = ATTR_rescassn)

instance (pbs : List batch_status) : Decidable (exact_names pbs) := by
  unfold exact_names
  infer_instance

/-- The number written by a string of decimal digits. -/
def dec_value (ds : List Char) : Nat :=
  ds.foldl (fun acc c => acc * 10 + (c.toNat - 48)) 0

/-- The number of kilobytes in one unit of a size suffix: nothing or `kb` (1), `mb`
(2^10), `gb` (2^20), `tb` (2^30), in either letter case; `none` for any other text. -/
def unit_kb (suffix : List Char) : Option Nat :=
  match suffix with
  | [] => some 1
  | [c, b] =>
    if b = 'b' ∨ b = 'B' then
      if c = 'k' ∨ c = 'K' then some 1
      else if c = 'm' ∨ c = 'M' then some (2 ^ 10)
      else if c = 'g' ∨ c = 'G' then some (2 ^ 20)
      else if c = 't' ∨ c = 'T' then some (2 ^ 30)
      else none
    else none
  | _ => none

/-- A value made of decimal digits, optionally followed by `kb`, `mb`, `gb` or `tb`. -/
def size_wf (v : String) : Bool :=
  !(v.data.takeWhile c_isdigit).isEmpty && (unit_kb (v.data.dropWhile c_isdigit)).isSome

/-- The value of a well-formed size in kilobytes (a value without suffix counts as
its number). -/
def size_kb (v : String) : Nat :=
  dec_value (v.data.takeWhile c_isdigit) * (unit_kb (v.data.dropWhile c_isdigit)).getD 0

/-- The value in kilobytes of the resource `R` in the attribute `attrn` of a vnode
(0 when the vnode has no such entry). -/
def vnode_kb (attrn R : String) (n : batch_status) : Nat :=
  match get_resource_value attrn R n.attribs with
  | some v => size_kb v
  | none => 0

/-- The sum over the vnodes of a host of the values of `R` in kilobytes. -/
def host_kb (attrn R hostn : String) (pbs : List batch_status) : Nat :=
  ((host_vnodes hostn pbs).map (vnode_kb attrn R)).sum

/-- The values of `R` in all `resources_available` and `resources_assigned` entries
are well-formed sizes. -/
def sizes_wf (R : String) (pbs : List batch_status) : Prop :=
  ∀ n ∈ pbs, ∀ a ∈ n.attribs, a.name = ATTR_rescavail ∨ a.name = ATTR_rescassn →
    strcasecmp_eq a.resource R = true → size_wf a.value = true

instance (R : String) (pbs : List batch_status) : Decidable (sizes_wf R pbs) := by
  unfold sizes_wf
  infer_instance

/-- Two vnodes of host `H` whose assigned `ncpus` are `9223372036854775808` (2^63) and
`0`. -/
def demo_big_vnodes : List batch_status :=
  [{ name := "vn1", text := none,
     attribs := [⟨"resources_available", "host", "H"⟩,
                 ⟨"resources_assigned", "ncpus", "9223372036854775808"⟩] },
   { name := "vn2", text := none,
     attribs := [⟨"resources_available", "host", "H"⟩,
                 ⟨"resources_assigned", "ncpus", "0"⟩] }]

/-- Two reported values are the same up to letter case (or both absent). -/
def same_ignoring_case (a b : Option String) : Prop :=
  match a, b with
  | none, none => True
  | some x, some y => strcasecmp_eq x y = true
  | _, _ => False

/-- The value kept for a resource that is not consumable: `none` for no value, the
first value when all values are equal to it ignoring case, `various` otherwise. -/
def differ_value (various : String) : List String → Option String
  | [] => none
  | v :: rest => if rest.all (fun x => strcasecmp_eq v x) then some v else some various

/-- Two vnodes of host `H` whose `arch` values differ in letter case only. -/
def demo_case_vnodes : List batch_status :=
  [{ name := "vn1", text := none,
     attribs := [⟨"resources_available", "host", "H"⟩, ⟨"resources_available", "arch", "linux"⟩] },
   { name := "vn2", text := none,
     attribs := [⟨"resources_available", "host", "H"⟩, ⟨"resources_available", "arch", "Linux"⟩] }]

/-- Two vnodes of host `H`; the second spells the attribute name `Resources_Assigned`. -/
def demo_spelling_vnodes : List batch_status :=
  [{ name := "vn1", text := none,
     attribs := [⟨"resources_available", "host", "H"⟩, ⟨"resources_assigned", "mem", "1"⟩] },
   { name := "vn2", text := none,
     attribs := [⟨"resources_available", "host", "H"⟩, ⟨"Resources_Assigned", "mem", "1kb"⟩] }]


/-- The offsets `indx, indx + 1, ...`, `n` of them. -/
def offsets_from : Int → Nat → List Int
  | _, 0 => []
  | indx, n + 1 => indx :: offsets_from (indx + 1) n

/-- The offsets `0, 1, ..., C - 1` of a tracking table of `C` subjobs. -/
def subjob_offsets (C : Int) : List Int := offsets_from 0 C.toNat

/-- The server of `demo_range_server` in which the status of the subjob at offset 1
fails with `PBSE_SYSTEM`. -/
def demo_failing_server : Server :=
  { demo_range_server with
    status_subjob := fun _ _ off =>
      if off = 1 then (PBSE_SYSTEM, [])
      else (PBSE_NONE, [{ brp_objtype := 2, brp_objname := toString off, brp_attr := [] }]) }

/-- One call of a transaction function with its arguments. -/
inductive trx_call where
  | begin_trx (isolation_level async : Int)
  | end_trx (commit : Int)
  deriving DecidableEq, Repr

/-- The result of one transaction call on a connection. -/
def trx_step (db : Database) (PBS_DB_ROLLBACK : Int) (conn : pbs_db_conn_t) :
    trx_call → trx_result
  | trx_call.begin_trx isolation_level async => pbs_db_begin_trx db conn isolation_level async
  | trx_call.end_trx commit => pbs_db_end_trx db PBS_DB_ROLLBACK conn commit

/-- The results of a sequence of transaction calls made one after the other on a
connection, in call order. -/
def run_trx (db : Database) (PBS_DB_ROLLBACK : Int) :
    pbs_db_conn_t → List trx_call → List trx_result
  | _, [] => []
  | conn, c :: rest =>
    trx_step db PBS_DB_ROLLBACK conn c ::
      run_trx db PBS_DB_ROLLBACK (trx_step db PBS_DB_ROLLBACK conn c).conn rest

/-- The calls that follow the outermost begin, with `d` inner levels open, form the
rest of one properly nested sequence: the end that closes the outermost level is the
last call. -/
def nested_inner : Nat → List trx_call → Bool
  | _, [] => false
  | d, trx_call.begin_trx _ _ :: rest => nested_inner (d + 1) rest
  | 0, trx_call.end_trx _ :: rest => rest.isEmpty
  | d + 1, trx_call.end_trx _ :: rest => nested_inner d rest

/-- A properly nested sequence of calls: a begin, properly nested inner pairs, and the
end that matches the first begin. -/
def properly_nested : List trx_call → Bool
  | trx_call.begin_trx _ _ :: rest => nested_inner 0 rest
  | _ => false

/-- Whether a call is an end called with `PBS_DB_ROLLBACK`. -/
def asks_rollback (PBS_DB_ROLLBACK : Int) : trx_call → Bool
  | trx_call.end_trx commit => decide (commit = PBS_DB_ROLLBACK)
  | _ => false

/-- A database for the examples in which every command succeeds. -/
def demo_database : Database :=
  { PQexec := fun _ => true
    pg_db_cmd := fun _ _ => 0
    handler := fun _ _ => 0
    find_handler := fun _ st _ => (0, st)
    next_handler := fun _ _ _ => 0 }

/-- A connection at nesting depth zero. -/
def demo_conn : pbs_db_conn_t := { conn_trx_nest := 0, conn_trx_rollback := 0 }

/-- Two nested transactions; the inner one asks for a rollback (`1`), the outer one
for a commit (`0`). -/
def demo_calls : List trx_call :=
  [trx_call.begin_trx 0 1, trx_call.begin_trx 0 0, trx_call.end_trx 1, trx_call.end_trx 0]

/-- The sum of the counters `qu_njstate` of all the job states. -/
def counted_jobs (q : pbs_queue) : Int := (job_states.map q.qu_njstate).sum

/-- The sum of the counters `qu_njstate` of all the job states other than Moved and
Finished. -/
def active_jobs (q : pbs_queue) : Int :=
  ((job_states.filter
    (fun s => decide (s ≠ JOB_STATE_MOVED ∧ s ≠ JOB_STATE_FINISHED))).map q.qu_njstate).sum

/-- Values for `status_constants` used in the examples: the values these macros have
in the headers of PBS Pro. -/
def demo_status_constants : status_constants :=
  { ATR_DFLAG_RDACC := 0x15, ATR_DFLAG_USRD := 0x1, ATR_DFLAG_MGRD := 0x10,
    ATR_DFLAG_OPRD := 0x4, ATR_VFLAG_SET := 0x1, ATR_VFLAG_MODCACHE := 0x8,
    MGR_OBJ_QUEUE := 1, MGR_OBJ_RESV := 4, MGR_OBJ_RSC := 5 }

/-- A queue for the examples: six jobs, two queued, one running, one moved and two
finished. -/
def demo_queue : pbs_queue :=
  { qu_name := "workq"
    qu_jobs := []
    qu_numjobs := 6
    qu_njstate := fun s =>
      match s with
      | JOB_STATE_QUEUED => 2
      | JOB_STATE_RUNNING => 1
      | JOB_STATE_MOVED => 1
      | JOB_STATE_FINISHED => 2
      | _ => 0
    qu_attr_TotalJobs := { at_flags := 0, at_long := 0, at_str := "" }
    qu_attr_JobsByState := { at_flags := 0, at_long := 0, at_str := "" } }

/-- An encoder of queue attributes for the examples: it reports `total_jobs` and
`state_count`. -/
def demo_queue_encoder (q : pbs_queue) (_ : batch_request) : Bool × List (String × String) :=
  (false, [("total_jobs", toString q.qu_attr_TotalJobs.at_long),
           ("state_count", q.qu_attr_JobsByState.at_str)])

/-- A status request for all objects by a requester with read access. -/
def demo_all_request : batch_request :=
  { rq_extend := none, rq_id := "", rq_perm := 0x15, rq_attr := [] }

/-- The flag `private` of `req_stat_resc`: the extension of the request contains
`p`. -/
def extend_private (preq : batch_request) : Bool :=
  match preq.rq_extend with
  | none => false
  | some ext => strchr_found ext 'p'

/-- The permission test of `status_resc` fails: the resource is not readable by users
and the requester is neither manager nor operator. -/
def resc_denied (C : status_constants) (preq : batch_request) (prd : resource_def) : Bool :=
  decide (prd.rs_flags &&& C.ATR_DFLAG_USRD = 0 ∧
    preq.rq_perm &&& (C.ATR_DFLAG_MGRD ||| C.ATR_DFLAG_OPRD) = 0)

/-- The resource definitions that a status request for all resources reports: those
that are neither the unknown resource of a request that is not private nor denied to
the requester. -/
def reported_rescs (C : status_constants) (RESOURCE_UNKNOWN : String) (preq : batch_request)
    (defs : List resource_def) : List resource_def :=
  defs.filter (fun prd =>
    !(!extend_private preq && prd.rs_name == RESOURCE_UNKNOWN) && !resc_denied C preq prd)

/-- The reply entries of a list of resource definitions whose attributes the encoders
encode. -/
def resc_entries (C : status_constants)
    (encode_resc : resource_def → Bool → Option (List (String × String)))
    (private_req : Bool) (defs : List resource_def) : List brp_status :=
  defs.filterMap (fun prd =>
    (encode_resc prd private_req).map (fun a =>
      { brp_objtype := C.MGR_OBJ_RSC, brp_objname := prd.rs_name, brp_attr := a }))

/-- A status request for all objects by a requester without any access. -/
def demo_denied_request : batch_request :=
  { rq_extend := none, rq_id := "", rq_perm := 0, rq_attr := [] }

/-- Two resource definitions for the examples: `ncpus` is readable by users, `secret`
is not. -/
def demo_resc_defs : List resource_def :=
  [{ rs_name := "secret", rs_type := 1, rs_flags := 0 },
   { rs_name := "ncpus", rs_type := 1, rs_flags := 0x1 }]

/-- An encoder of resource definitions for the examples. -/
def demo_resc_encoder (prd : resource_def) (_ : Bool) : Option (List (String × String)) :=
  some [("type", toString prd.rs_type)]

/-- A reservation for the examples. -/
def demo_resv : resc_resv := { ri_resvID := "R1.svr", ri_wattr := [] }

/-- An encoder of reservation attributes for the examples. -/
def demo_resv_encoder (r : resc_resv) (_ : batch_request) : Bool × List (String × String) :=
  (false, r.ri_wattr)

/-- Two vnodes of host `H` for the examples; the second one has an indirect value for
the resource `foo`, which is not consumable. -/
def demo_indirect_vnodes : List batch_status :=
  [{ name := "vn1", text := none,
     attribs := [⟨"resources_available", "host", "H"⟩, ⟨"resources_available", "foo", "bar"⟩] },
   { name := "vn2", text := none,
     attribs := [⟨"resources_available", "host", "H"⟩,
                 ⟨"resources_available", "foo", "@vn1"⟩] }]

/-- The vnodes of `demo_indirect_vnodes` without the indirect entry. -/
def demo_direct_vnodes : List batch_status :=
  [{ name := "vn1", text := none,
     attribs := [⟨"resources_available", "host", "H"⟩, ⟨"resources_available", "foo", "bar"⟩] },
   { name := "vn2", text := none, attribs := [⟨"resources_available", "host", "H"⟩] }]

/-- A vnode of host `H` for the examples whose available memory is an indirect
reference. -/
def demo_vn3 : batch_status :=
  { name := "vn3", text := none,
    attribs := [⟨"resources_available", "host", "H"⟩, ⟨"resources_available", "mem", "@vn1"⟩,
                ⟨"resources_assigned", "mem", "0kb"⟩] }

/-- The server of `demo_server` with the queue `workq`, which holds the job
`1.svr`. -/
def demo_queue_server : Server :=
  { demo_server with
    find_queuebyname := fun name =>
      if name = "workq" then some { demo_queue with qu_jobs := [demo_job "1.svr"] } else none }

/-- A job status request for the target `name`. -/
def demo_target_request (name : String) : batch_request :=
  { rq_extend := none, rq_id := name, rq_perm := 0, rq_attr := [] }

/-- Two vnodes of host `H` for the examples, each with one petabyte of memory. -/
def demo_pb_vnodes : List batch_status :=
  [{ name := "vn1", text := none,
     attribs := [⟨"resources_available", "host", "H"⟩, ⟨"resources_available", "mem", "1pb"⟩,
                 ⟨"resources_assigned", "mem", "0kb"⟩] },
   { name := "vn2", text := none,
     attribs := [⟨"resources_available", "host", "H"⟩, ⟨"resources_available", "mem", "1pb"⟩,
                 ⟨"resources_assigned", "mem", "0kb"⟩] }]

/-- An entry of the table of resources for a consumable size with empty sums. -/
def demo_size_entry : consumable :=
  { cons_resource := "mem", cons_avail_str := none, cons_avail_sum := 0, cons_assn_sum := 0,
    cons_k := true, cons_consum := true, cons_set := false }

/-- Which of the handlers insert, update, delete, load, find and next a row of
`db_fn_arr` holds, in this order. -/
def handlers_present (f : pg_db_fn_t) : List Bool :=
  [f.pg_db_insert_obj.isSome, f.pg_db_update_obj.isSome, f.pg_db_delete_obj.isSome,
   f.pg_db_load_obj.isSome, f.pg_db_find_obj.isSome, f.pg_db_next_obj.isSome]

/-- The object kinds, in the order of the rows of `db_fn_arr`. -/
def object_kinds : List pbs_db_obj_type :=
  [PBS_DB_JOB, PBS_DB_RESV, PBS_DB_SVR, PBS_DB_NODE, PBS_DB_QUE, PBS_DB_ATTR, PBS_DB_JOBSCR,
   PBS_DB_SCHED, PBS_DB_SUBJOB, PBS_DB_MOMINFO_TIME]

/-- A database for the examples in which every prepared statement succeeds without
affecting a row (`pg_db_cmd` returns `1`). -/
def demo_no_rows_database : Database :=
  { demo_database with pg_db_cmd := fun _ _ => 1 }

/-- A node object. -/
def demo_node_obj : pbs_db_obj_info_t := { pbs_db_obj_type := PBS_DB_NODE }

/-- Writers for the examples: every string is written, the unsigned number is refused
with the DIS code `9`. -/
def demo_writers : dis_writers :=
  { diswst := fun _ _ => 0, diswul := fun _ _ => 9 }

/-- Writers for the examples that write every item. -/
def demo_good_writers : dis_writers :=
  { diswst := fun _ _ => 0, diswul := fun _ _ => 0 }

/-- Values for `db_codes` used in the examples: success is `0` and the failure codes
are distinct and not `0`. -/
def demo_db_codes : db_codes :=
  { PBS_DB_SUCCESS := 0, PBS_DB_CONNREFUSED := 1, PBS_DB_AUTH_FAILED := 2,
    PBS_DB_STILL_STARTING := 5, PBS_DB_CONNFAILED := 3 }

/-- A connection that is being established, started at time `100`. -/
def demo_link : pbs_db_link :=
  { conn_state := PBS_DB_CONNECT_STATE_CONNECTING, conn_internal_state := PGRES_POLLING_WRITING,
    conn_connect_time := 100, conn_db_err := "" }

/-- A call during which libpq reports no connection error and `PQsocket` returns
`-1`. -/
def demo_no_socket_env : connect_env :=
  { start_bad := false, start_err := "", check_bad := false, check_err := "",
    poll_bad := false, poll_err := "", PQsocket := -1, select := 0,
    PQconnectPoll := PGRES_POLLING_WRITING, time_start := 100, time_now := 101 }

/-- A call during which the socket is not ready and 31 seconds have passed since the
connection was started. -/
def demo_timeout_env : connect_env :=
  { demo_no_socket_env with PQsocket := 5, select := 0, time_now := 131 }

/-- The failure codes that `is_conn_error` can store. -/
def conn_error_codes (K : db_codes) : List Int :=
  [K.PBS_DB_CONNREFUSED, K.PBS_DB_AUTH_FAILED, K.PBS_DB_STILL_STARTING, K.PBS_DB_CONNFAILED]

/-- The server of `demo_range_server` in which `status_job` fails with `PBSE_SYSTEM`
(and every `status_subjob` call succeeds). -/
def demo_parent_error_server : Server :=
  { demo_range_server with status_job := fun _ _ => (PBSE_SYSTEM, []) }

/-- An encoder of resource definitions for the examples that fails for the resource
`broken`. -/
def demo_failing_encoder (prd : resource_def) (_ : Bool) : Option (List (String × String)) :=
  if prd.rs_name = "broken" then none else some [("type", toString prd.rs_type)]

/-- Two resource definitions readable by users; the encoders fail for the first. -/
def demo_broken_defs : List resource_def :=
  [{ rs_name := "broken", rs_type := 99, rs_flags := 0x1 },
   { rs_name := "ncpus", rs_type := 1, rs_flags := 0x1 }]

/-- A vnode for the examples whose only `resources_assigned` entry for `foo` is an
indirect reference. -/
def demo_indirect_assigned : List batch_status :=
  [{ name := "vn1", text := none,
     attribs := [⟨"resources_available", "host", "H"⟩, ⟨"resources_available", "foo", "5"⟩,
                 ⟨"resources_assigned", "foo", "@vn0"⟩] }]

/-- The names and consumable flags of a table of resources. -/
def consumable_flags (T : List consumable) : List (String × Bool) :=
  T.map (fun c => (c.cons_resource, c.cons_consum))

/-- Four vnodes for the examples: `a1` and `a2` on host `A` with `ncpus` assigned, `b1`
and `b2` on host `B`, which carry no resource but `host`. -/
def demo_two_hosts : List batch_status :=
  [{ name := "a1", text := none,
     attribs := [⟨"resources_available", "host", "A"⟩, ⟨"resources_available", "ncpus", "4"⟩,
                 ⟨"resources_assigned", "ncpus", "1"⟩] },
   { name := "a2", text := none,
     attribs := [⟨"resources_available", "host", "A"⟩, ⟨"resources_available", "ncpus", "4"⟩,
                 ⟨"resources_assigned", "ncpus", "2"⟩] },
   { name := "b1", text := none, attribs := [⟨"resources_available", "host", "B"⟩] },
   { name := "b2", text := none, attribs := [⟨"resources_available", "host", "B"⟩] }]

/-- The entries of a reply list that are named `hostn`. -/
def entries_named (hostn : String) (reply : List batch_status) : List batch_status :=
  reply.filter (fun e => decide (e.name = hostn))

/-- The host value of a vnode: the value of its first `resources_available.host`
entry. -/
def host_value (n : batch_status) : Option String :=
  get_resource_value ATTR_rescavail "host" n.attribs

/-- A value is equal, ignoring case, to one of the values seen. -/
def seen_before (seen : List String) (x : String) : Bool :=
  seen.any (fun y => strcasecmp_eq x y)

/-- The distinct values of a list, ignoring case, each one once and in the order of
its first occurrence; `seen` holds the values that were met earlier. -/
def first_occurrences_from (seen : List String) : List String → List String
  | [] => []
  | x :: rest =>
    if seen_before seen x then first_occurrences_from seen rest
    else x :: first_occurrences_from (seen ++ [x]) rest

/-- See `first_occurrences_from`. -/
def first_occurrences (l : List String) : List String := first_occurrences_from [] l

/-- The reply entry made of a vnode itself. -/
def vnode_entry (n : batch_status) : batch_status :=
  { name := n.name, attribs := n.attribs, text := n.text }

/-- What the reply of a query for all hosts holds for an entry of the table of hosts:
the entry of the vnode itself when the host has a single vnode, and else an entry
named after the host. -/
def reply_for_host (pbs : List batch_status) (h : host_list) (e : batch_status) : Prop :=
  match h.hl_node with
  | some i => ∃ n, pbs.get? i = some n ∧ e = vnode_entry n
  | none => e.name = h.hl_name ∧ e.text = none

/-- Three vnodes for the examples: `a1` and `a2` on host `A` (spelled `a` on the
second), `b1` alone on host `B`, and `c1` without host. -/
def demo_three_hosts : List batch_status :=
  [{ name := "a1", text := none, attribs := [⟨"resources_available", "host", "A"⟩] },
   { name := "b1", text := none,
     attribs := [⟨"resources_available", "host", "B"⟩, ⟨"comment", "", "alone"⟩] },
   { name := "c1", text := none, attribs := [⟨"comment", "", "no host"⟩] },
   { name := "a2", text := none, attribs := [⟨"resources_available", "host", "a"⟩] }]
/-! ## Part 8. Theorems about the job and node requests of `req_stat.c` -/

theorem stat_all_subjobs_append (srv : Server) (preq : batch_request) (pjob : job) :
    ∀ (n : Nat) (indx : Int) (rc : PbsError) (reply : List brp_status),
      stat_all_subjobs srv preq pjob n indx rc reply =
        ((stat_all_subjobs srv preq pjob n indx rc []).1,
          reply ++ (stat_all_subjobs srv preq pjob n indx rc []).2) := by
  intro n
  induction n with
  | zero => intro indx rc reply; simp [stat_all_subjobs]
  | succ n ih =>
    intro indx rc reply
    simp only [stat_all_subjobs]
    by_cases h : rc_is_error (srv.status_subjob pjob preq indx).1 = true
    · simp [h]
    · simp only [h]
      rw [ih (indx + 1) _ (reply ++ _), ih (indx + 1) _ ([] ++ _)]
      simp

theorem req_stat_job_gate (srv : Server) (fuel : Nat) (preq : batch_request) :
    req_stat_job srv fuel preq =
      if extend_dohistjobs preq = true ∧ srv.svr_history_enable = 0 then
        some (BatchReply.req_reject PBSE_JOBHISTNOTSET)
      else req_stat_job_target srv fuel preq (extend_dohistjobs preq) (extend_dosubjobs preq) := by
  unfold req_stat_job extend_dohistjobs
  cases hext : preq.rq_extend with
  | none => simp [extend_dosubjobs, hext]
  | some ext =>
    simp only []
    by_cases hx : strchr_found ext 'x' = true
    · by_cases hh : srv.svr_history_enable = 0 <;> simp [hx, hh]
    · simp [hx]

theorem do_stat_of_a_job_history_skip (srv : Server) (preq : batch_request)
    (reply : List brp_status) (pjob : job) (ds : Bool)
    (hstate : pjob.ji_state = JOB_STATE_FINISHED ∨ pjob.ji_state = JOB_STATE_MOVED) :
    do_stat_of_a_job srv preq reply pjob false ds = (PBSE_NONE, reply) := by
  unfold do_stat_of_a_job
  rcases hstate with h | h <;> simp [h]

theorem stat_job_scan_history_skip (srv : Server) (preq : batch_request) (ds : Bool)
    (pjob : job)
    (hstate : pjob.ji_state = JOB_STATE_FINISHED ∨ pjob.ji_state = JOB_STATE_MOVED)
    (post : List job) :
    ∀ (pre : List job) (rc : PbsError) (reply : List brp_status),
      stat_job_scan srv preq false ds (pre ++ pjob :: post) rc reply =
        stat_job_scan srv preq false ds (pre ++ post) rc reply := by
  intro pre
  induction pre with
  | nil =>
    intro rc reply
    simp only [List.nil_append, stat_job_scan]
    by_cases hrc : rc = PBSE_NONE
    · subst hrc
      simp only [if_true, do_stat_of_a_job_history_skip srv preq reply pjob ds hstate]
    · cases post <;> simp [stat_job_scan, hrc]
  | cons j pre ih =>
    intro rc reply
    simp only [List.cons_append, stat_job_scan]
    by_cases hrc : rc = PBSE_NONE
    · simp only [hrc, if_true]
      exact ih _ _
    · simp [hrc]

/-- C2. Without the history flag a job in state Finished or Moved (a) makes
`do_stat_of_a_job` return `PBSE_NONE` with the reply list unchanged, (b) adds no entry
to the reply when it is named by a plain job identifier, and (c) leaves a queue scan
or a server-wide scan exactly as if the job were not in the list (no entry, no error,
the scan goes on).  With the history flag (d) `do_stat_of_a_job` calls `status_job` on
every job that is not a subjob, whatever its state: the entries of that call follow
the entries already in the reply. -/
theorem history_jobs_visibility (srv : Server) (fuel : Nat) (preq : batch_request)
    (pjob : job) (ds : Bool)
    (hstate : pjob.ji_state = JOB_STATE_FINISHED ∨ pjob.ji_state = JOB_STATE_MOVED) :
    (∀ reply, do_stat_of_a_job srv preq reply pjob false ds = (PBSE_NONE, reply)) ∧
    (∀ reply name, (srv.is_job_array name = IS_ARRAY_NO ∨
          srv.is_job_array name = IS_ARRAY_ArrayJob) →
        srv.find_job name = some pjob →
        ∃ rc, stat_a_jobidname srv fuel preq reply name false ds = some (rc, reply)) ∧
    (∀ pre post rc reply,
        stat_job_scan srv preq false ds (pre ++ pjob :: post) rc reply =
          stat_job_scan srv preq false ds (pre ++ post) rc reply) ∧
    (∀ (other : job) reply, other.svflg_SubJob = false →
        ∃ more, (do_stat_of_a_job srv preq reply other true ds).2 =
          reply ++ (srv.status_job other preq).2 ++ more) := by
  refine ⟨fun reply => do_stat_of_a_job_history_skip srv preq reply pjob ds hstate, ?_,
    fun pre post rc reply => stat_job_scan_history_skip srv preq ds pjob hstate post pre rc reply,
    ?_⟩
  · intro reply name harr hfind
    have hbody : ∃ rc, (match srv.find_job name with
        | none => some (PBSE_UNKJOBID, reply)
        | some pjob =>
          if (!false && decide (srv.svr_chk_histjob pjob ≠ PBSE_NONE)) = true then
            some (srv.svr_chk_histjob pjob, reply)
          else some (do_stat_of_a_job srv preq reply pjob false ds)) = some (rc, reply) := by
      rw [hfind]
      simp only []
      split
      · exact ⟨_, rfl⟩
      · exact ⟨PBSE_NONE, by rw [do_stat_of_a_job_history_skip srv preq reply pjob ds hstate]⟩
    unfold stat_a_jobidname
    rcases harr with h | h <;> rw [h] <;> exact hbody
  · intro other reply hsub
    unfold do_stat_of_a_job
    simp only [Bool.not_true, Bool.false_and, hsub, Bool.not_false, if_true]
    simp only [Bool.false_eq_true, if_false]
    cases other.ji_ajtrk with
    | none => simp only []; split <;> exact ⟨[], by simp⟩
    | some ct =>
      simp only []
      split
      · rw [stat_all_subjobs_append]
        split <;> exact ⟨_, rfl⟩
      · split <;> exact ⟨[], by simp⟩

/-- Witness of C2: the finished job `2.svr` of `demo_history_server` is left out of a
server-wide status made without the history flag. -/
theorem history_jobs_visibility_witness :
    stat_job_scan demo_history_server demo_request false false
        ([demo_job "1.svr"] ++ demo_finished_job :: [demo_job "3.svr"]) PBSE_NONE [] =
      stat_job_scan demo_history_server demo_request false false
        ([demo_job "1.svr"] ++ [demo_job "3.svr"]) PBSE_NONE [] :=
  (history_jobs_visibility demo_history_server 0 demo_request demo_finished_job false
    (Or.inl rfl)).2.2.1 [demo_job "1.svr"] [demo_job "3.svr"] PBSE_NONE []

/-- C3. A job status request whose extend string contains `x` while history is
disabled is rejected with `PBSE_JOBHISTNOTSET`, whatever the target string and
whatever the server holds: no target is resolved and no reply entry is produced. -/
theorem req_stat_job_history_not_set (srv : Server) (fuel : Nat) (preq : batch_request)
    (ext : String) (hext : preq.rq_extend = some ext)
    (hx : strchr_found ext 'x' = true) (hdis : srv.svr_history_enable = 0) :
    req_stat_job srv fuel preq = some (BatchReply.req_reject PBSE_JOBHISTNOTSET) := by
  unfold req_stat_job
  rw [hext]
  simp [hx, hdis]

/-- Witness of C3: the request for `1.svr` with extend string `tx` on the server of
`demo_server`, where history is disabled. -/
theorem req_stat_job_history_not_set_witness :
    req_stat_job demo_server 0 { demo_request with rq_extend := some "tx", rq_id := "1.svr" } =
      some (BatchReply.req_reject PBSE_JOBHISTNOTSET) :=
  req_stat_job_history_not_set demo_server 0
    { demo_request with rq_extend := some "tx", rq_id := "1.svr" } "tx" rfl (by decide) rfl

theorem testBit_lnot64 (m : Nat) (hm : m < 2 ^ 64) (i : Nat) :
    (lnot64 m).testBit i = (decide (i < 64) && !m.testBit i) := by
  have h : lnot64 m = 2 ^ 64 - (m + 1) := by unfold lnot64; omega
  rw [h]
  exact Nat.testBit_two_pow_sub_succ hm i

theorem testBit_and_lnot64 (s m : Nat) (hs : s < 2 ^ 64) (hm : m < 2 ^ 64) (i : Nat) :
    (s &&& lnot64 m).testBit i = (s.testBit i && !m.testBit i) := by
  rw [Nat.testBit_and, testBit_lnot64 m hm]
  by_cases hi : i < 64
  · simp [hi]
  · have : s.testBit i = false := by
      apply Nat.testBit_lt_two_pow
      calc s < 2 ^ 64 := hs
        _ ≤ 2 ^ i := Nat.pow_le_pow_right (by decide) (by omega)
    simp [this]

/-- C7 (amended). For a node that is not deleted and a requester with read access, the
state that `status_node` hands to the attribute encoder is the true bitmask `nd_state`
when neither the Provisioning nor the WaitingProvision bit is set; otherwise it is
`nd_state` with exactly the bits of Down, Unknown, Job (job-busy), JobExclusive and
ResvExclusive cleared and every other bit kept.  The value of the mirror before the
call plays no role, so a later query depends on `nd_state` alone. -/
theorem status_node_presented_state (K : node_constants)
    (enc : pbsnode → batch_request → PbsError × List (String × String))
    (pnode : pbsnode) (preq : batch_request) (pstathd : List brp_status)
    (hstate : pnode.nd_state < 2 ^ 64) (hmask : prov_mask K < 2 ^ 64)
    (hdel : pnode.nd_state &&& K.INUSE_DELETED = 0)
    (hperm : preq.rq_perm &&& K.ATR_DFLAG_RDACC ≠ 0) :
    ∃ view : pbsnode,
      (status_node K enc true pnode preq pstathd).1 = (enc view preq).1 ∧
      (status_node K enc true pnode preq pstathd).2.2 =
        pstathd ++ [{ brp_objtype := K.MGR_OBJ_NODE, brp_objname := pnode.nd_name,
                      brp_attr := (enc view preq).2 }] ∧
      view.nd_state = pnode.nd_state ∧
      view.nd_name = pnode.nd_name ∧
      view.nd_other_attr = pnode.nd_other_attr ∧
      (pnode.nd_state &&& (K.INUSE_PROV ||| K.INUSE_WAIT_PROV) = 0 →
        view.state_at_long = pnode.nd_state) ∧
      (pnode.nd_state &&& (K.INUSE_PROV ||| K.INUSE_WAIT_PROV) ≠ 0 →
        ∀ i, view.state_at_long.testBit i =
          (pnode.nd_state.testBit i && !(prov_mask K).testBit i)) := by
  have hsync : (if pnode.nd_state ≠ pnode.state_at_long then
        ({ pnode with
          state_at_long := pnode.nd_state
          state_at_flags :=
            pnode.state_at_flags ||| (K.ATR_VFLAG_MODIFY ||| K.ATR_VFLAG_MODCACHE) } : pbsnode)
      else pnode).state_at_long = pnode.nd_state := by
    split
    · rfl
    · rename_i h
      exact (not_not.mp h).symm
  have hsync2 : ∀ f : pbsnode → Prop, f pnode →
      f { pnode with
          state_at_long := pnode.nd_state
          state_at_flags :=
            pnode.state_at_flags ||| (K.ATR_VFLAG_MODIFY ||| K.ATR_VFLAG_MODCACHE) } →
      f (if pnode.nd_state ≠ pnode.state_at_long then
        ({ pnode with
          state_at_long := pnode.nd_state
          state_at_flags :=
            pnode.state_at_flags ||| (K.ATR_VFLAG_MODIFY ||| K.ATR_VFLAG_MODCACHE) } : pbsnode)
      else pnode) := by
    intro f h1 h2
    split
    · exact h2
    · exact h1
  unfold status_node
  simp only [hdel, hperm, ne_eq, not_true_eq_false, if_false, Bool.not_true,
    Bool.false_eq_true, hsync]
  by_cases hp : pnode.nd_state &&& (K.INUSE_PROV ||| K.INUSE_WAIT_PROV) = 0
  · simp only [hp, not_true_eq_false, decide_False, Bool.false_eq_true, if_false]
    refine ⟨_, rfl, rfl, ?_, ?_, ?_, ?_, ?_⟩
    · exact hsync2 (fun n => n.nd_state = pnode.nd_state) rfl rfl
    · exact hsync2 (fun n => n.nd_name = pnode.nd_name) rfl rfl
    · exact hsync2 (fun n => n.nd_other_attr = pnode.nd_other_attr) rfl rfl
    · intro _
      exact hsync
    · intro h
      exact h.elim
  · simp only [hp, not_false_eq_true, decide_True, if_true]
    refine ⟨_, rfl, rfl, ?_, ?_, ?_, ?_, ?_⟩
    · exact hsync2 (fun n => n.nd_state = pnode.nd_state) rfl rfl
    · exact hsync2 (fun n => n.nd_name = pnode.nd_name) rfl rfl
    · exact hsync2 (fun n => n.nd_other_attr = pnode.nd_other_attr) rfl rfl
    · intro h
      exact absurd h (by simp)
    · intro _ i
      exact testBit_and_lnot64 _ _ hstate hmask i

/-- Witness of C7: a node in state Provisioning + Down + Offline. -/
theorem status_node_presented_state_witness :
    ∃ view : pbsnode,
      (status_node demo_node_constants demo_encoder true (demo_node 0x803)
        demo_node_request []).1 = (demo_encoder view demo_node_request).1 ∧
      (status_node demo_node_constants demo_encoder true (demo_node 0x803)
        demo_node_request []).2.2 =
        [] ++ [{ brp_objtype := demo_node_constants.MGR_OBJ_NODE,
                 brp_objname := (demo_node 0x803).nd_name,
                 brp_attr := (demo_encoder view demo_node_request).2 }] ∧
      view.nd_state = (demo_node 0x803).nd_state ∧
      view.nd_name = (demo_node 0x803).nd_name ∧
      view.nd_other_attr = (demo_node 0x803).nd_other_attr ∧
      ((demo_node 0x803).nd_state &&&
          (demo_node_constants.INUSE_PROV ||| demo_node_constants.INUSE_WAIT_PROV) = 0 →
        view.state_at_long = (demo_node 0x803).nd_state) ∧
      ((demo_node 0x803).nd_state &&&
          (demo_node_constants.INUSE_PROV ||| demo_node_constants.INUSE_WAIT_PROV) ≠ 0 →
        ∀ i, view.state_at_long.testBit i =
          ((demo_node 0x803).nd_state.testBit i &&
            !(prov_mask demo_node_constants).testBit i)) :=
  status_node_presented_state demo_node_constants demo_encoder (demo_node 0x803)
    demo_node_request [] (by decide) (by decide) (by decide) (by decide)

/-- Counterexample to C7 as stated: for a node in state Provisioning + Job (`0x810`)
the encoder receives `0x800` (2048): the Job bit, which is none of Down, Unknown,
JobExclusive and ResvExclusive, has been cleared as well. -/
theorem status_node_clears_job_bit :
    (status_node demo_node_constants demo_encoder true (demo_node 0x810)
        demo_node_request []).2.2 =
      [{ brp_objtype := 3, brp_objname := "vn1", brp_attr := [("state", "2048")] }] ∧
    ¬ (∀ i, (2048 : Nat).testBit i =
        ((demo_node 0x810).nd_state.testBit i &&
          !(four_bit_mask demo_node_constants).testBit i)) :=
  ⟨by decide, fun h => absurd (h 4) (by decide)⟩

/-- C8, the code at the failing input: for a node in state WaitingProvision + Down
(`0x1002`) the mask is applied (the encoder receives `0x1000` = 4096) and, since the
test after encoding looks at the Provisioning bit only, the state attribute still
holds the masked value `0x1000` when `status_node` returns, while `nd_state` is
`0x1002`. -/
theorem status_node_wait_prov_not_restored :
    (status_node demo_node_constants demo_encoder true (demo_node 0x1002)
        demo_node_request []).2.2 =
      [{ brp_objtype := 3, brp_objname := "vn1", brp_attr := [("state", "4096")] }] ∧
    (status_node demo_node_constants demo_encoder true (demo_node 0x1002)
        demo_node_request []).2.1.state_at_long = 0x1000 ∧
    (status_node demo_node_constants demo_encoder true (demo_node 0x1002)
        demo_node_request []).2.1.nd_state = 0x1002 :=
  ⟨by decide, by decide, by decide⟩

/-- When the Provisioning bit itself is set (and is not one of the masked bits) the
state attribute holds the true state again on return. -/
theorem status_node_restores_when_prov (K : node_constants)
    (enc : pbsnode → batch_request → PbsError × List (String × String))
    (pnode : pbsnode) (preq : batch_request) (pstathd : List brp_status)
    (hdel : pnode.nd_state &&& K.INUSE_DELETED = 0)
    (hperm : preq.rq_perm &&& K.ATR_DFLAG_RDACC ≠ 0)
    (hkept : pnode.nd_state &&& lnot64 (prov_mask K) &&& K.INUSE_PROV ≠ 0) :
    (status_node K enc true pnode preq pstathd).2.1.state_at_long = pnode.nd_state := by
  have hp : pnode.nd_state &&& (K.INUSE_PROV ||| K.INUSE_WAIT_PROV) ≠ 0 := by
    intro h0
    apply hkept
    apply Nat.eq_of_testBit_eq
    intro i
    have h1 := congrArg (fun v => Nat.testBit v i) h0
    simp only [Nat.testBit_and, Nat.testBit_or, Nat.zero_testBit] at h1 ⊢
    cases h2 : pnode.nd_state.testBit i <;> cases h3 : K.INUSE_PROV.testBit i <;>
      simp_all
  unfold status_node
  simp only [hdel, hperm, ne_eq, not_true_eq_false, if_false, Bool.not_true,
    Bool.false_eq_true]
  by_cases hs : pnode.nd_state = pnode.state_at_long
  · simp only [hs, not_true_eq_false, if_false] at hp hkept ⊢
    simp [hp, hkept]
  · simp only [hs, not_false_eq_true, if_true]
    simp [hp, hkept]

/-- C9. `status_node` never changes `nd_state`, nor the name or the other attributes
of the node: whatever the outcome (deleted node, permission denied, allocation
failure, encoder error, success) the node after the call differs from the node
before the call at most in the state attribute mirror and its flags. -/
theorem status_node_keeps_nd_state (K : node_constants)
    (enc : pbsnode → batch_request → PbsError × List (String × String))
    (malloc_ok : Bool) (pnode : pbsnode) (preq : batch_request)
    (pstathd : List brp_status) :
    (status_node K enc malloc_ok pnode preq pstathd).2.1.nd_state = pnode.nd_state ∧
    ∃ at_long at_flags, (status_node K enc malloc_ok pnode preq pstathd).2.1 =
      { pnode with state_at_long := at_long, state_at_flags := at_flags } := by
  unfold status_node
  dsimp only
  constructor
  · split_ifs <;> rfl
  · split_ifs <;> exact ⟨_, _, rfl⟩

theorem subjob_calls_no_error (srv : Server) (preq : batch_request) (pjob : job) :
    ∀ offs : List Int,
      (∀ off ∈ offs, rc_is_error (srv.status_subjob pjob preq off).1 = false) →
      subjob_calls srv preq pjob offs = (none, subjob_entries srv preq pjob offs) := by
  intro offs
  induction offs with
  | nil => intro _; rfl
  | cons off rest ih =>
    intro h
    have h1 := h off (List.mem_cons_self _ _)
    have h2 := ih (fun o ho => h o (List.mem_cons_of_mem _ ho))
    simp [subjob_calls, subjob_entries, h1, h2]

theorem strcasecmp_eq_refl (a : String) : strcasecmp_eq a a = true := by
  simp [strcasecmp_eq]

theorem strcasecmp_eq_symm (a b : String) : strcasecmp_eq a b = strcasecmp_eq b a := by
  simp only [strcasecmp_eq]
  by_cases h : a.data.map Char.toLower = b.data.map Char.toLower
  · simp [h]
  · have h2 : ¬ b.data.map Char.toLower = a.data.map Char.toLower := fun e => h e.symm
    simp [h, h2]

theorem strcasecmp_eq_iff (a b : String) :
    strcasecmp_eq a b = true ↔ a.data.map Char.toLower = b.data.map Char.toLower := by
  simp [strcasecmp_eq]

theorem strcasecmp_eq_trans {a b c : String} (h1 : strcasecmp_eq a b = true)
    (h2 : strcasecmp_eq b c = true) : strcasecmp_eq a c = true := by
  rw [strcasecmp_eq_iff] at *
  exact h1.trans h2

/-- Two strings that are equal ignoring case are interchangeable as second argument
of `strcasecmp`. -/
theorem strcasecmp_eq_congr_right {b c : String} (h : strcasecmp_eq b c = true) (a : String) :
    strcasecmp_eq a b = strcasecmp_eq a c := by
  rw [strcasecmp_eq_iff] at h
  simp only [strcasecmp_eq, h]

theorem strcasecmp_eq_congr_left {b c : String} (h : strcasecmp_eq b c = true) (a : String) :
    strcasecmp_eq b a = strcasecmp_eq c a := by
  rw [strcasecmp_eq_iff] at h
  simp only [strcasecmp_eq, h]

theorem get_resource_value_congr {r1 r2 : String} (h : strcasecmp_eq r1 r2 = true)
    (attrn : String) (pal : List attrl) :
    get_resource_value attrn r1 pal = get_resource_value attrn r2 pal := by
  induction pal with
  | nil => rfl
  | cons a rest ih =>
    simp only [get_resource_value, strcasecmp_eq_congr_right h, ih]

theorem on_host_congr {h1 h2 : String} (h : strcasecmp_eq h1 h2 = true) (n : batch_status) :
    on_host h1 n = on_host h2 n := by
  unfold on_host
  cases get_resource_value ATTR_rescavail "host" n.attribs with
  | none => rfl
  | some c => exact strcasecmp_eq_congr_right h c

/-- The pointer kept for host `H` in a table of hosts: `none` when the host is not in
the table, `some none` when it has several vnodes. -/
theorem host_list_add_find (H hostn : String) (node : Nat) :
    ∀ hl : List host_list,
      ((host_list_add hostn node hl).find? (fun h => strcasecmp_eq H h.hl_name)).map
          (fun h => h.hl_node) =
        if strcasecmp_eq hostn H then
          some (match (hl.find? (fun h => strcasecmp_eq H h.hl_name)).map (fun h => h.hl_node) with
            | none => some node
            | some _ => none)
        else (hl.find? (fun h => strcasecmp_eq H h.hl_name)).map (fun h => h.hl_node) := by
  intro hl
  induction hl with
  | nil =>
    simp only [host_list_add, List.find?_cons, List.find?_nil, Option.map_none']
    rw [strcasecmp_eq_symm H hostn]
    cases strcasecmp_eq hostn H <;> simp
  | cons h rest ih =>
    simp only [host_list_add]
    by_cases h1 : strcasecmp_eq hostn h.hl_name = true
    · simp only [h1, if_true, List.find?_cons]
      by_cases h2 : strcasecmp_eq hostn H = true
      · have h3 : strcasecmp_eq H h.hl_name = true :=
          strcasecmp_eq_trans (by rw [strcasecmp_eq_symm]; exact h2) h1
        simp [h2, h3]
      · have h3 : strcasecmp_eq H h.hl_name = false := by
          rw [Bool.eq_false_iff]
          intro h3
          apply h2
          exact strcasecmp_eq_trans h1 (by rw [strcasecmp_eq_symm]; exact h3)
        simp [h2, h3]
    · have h1f : strcasecmp_eq hostn h.hl_name = false := by simpa using h1
      simp only [h1f, Bool.false_eq_true, if_false, List.find?_cons]
      by_cases h3 : strcasecmp_eq H h.hl_name = true
      · have h2 : strcasecmp_eq hostn H = false := by
          rw [Bool.eq_false_iff]
          intro h2
          exact h1 (strcasecmp_eq_trans h2 h3)
        simp [h2, h3]
      · have h3f : strcasecmp_eq H h.hl_name = false := by simpa using h3
        simp only [h3f]
        exact ih

theorem build_host_list_from_consum :
    ∀ (pbs : List batch_status) (node : Nat) (st : List host_list × List consumable),
      (build_host_list_from node pbs st).2 =
        pbs.foldl (fun acc n => node_consumables n.attribs acc) st.2 := by
  intro pbs
  induction pbs with
  | nil => intro node st; rfl
  | cons n rest ih =>
    intro node st
    simp only [build_host_list_from, List.foldl_cons]
    rw [ih]

theorem build_host_list_consum (pbs : List batch_status) :
    (build_host_list pbs).2 = discovered pbs :=
  build_host_list_from_consum pbs 0 ([], [])

/-- A host with at least two vnodes in the status list has lost its pointer at the end
of `build_host_list`. -/
theorem build_host_list_from_multi (H : String) :
    ∀ (pbs : List batch_status) (node : Nat) (st : List host_list × List consumable),
      ((st.1.find? (fun h => strcasecmp_eq H h.hl_name)).map (fun h => h.hl_node) = some none ∨
        ((st.1.find? (fun h => strcasecmp_eq H h.hl_name)).map (fun h => h.hl_node) ≠ none ∧
          1 ≤ (host_vnodes H pbs).length) ∨
        2 ≤ (host_vnodes H pbs).length) →
      (((build_host_list_from node pbs st).1.find? (fun h => strcasecmp_eq H h.hl_name)).map
        (fun h => h.hl_node)) = some none := by
  intro pbs
  induction pbs with
  | nil =>
    intro node st h
    rcases h with h | h | h
    · exact h
    · simp [host_vnodes] at h
    · simp [host_vnodes] at h
  | cons n rest ih =>
    intro node st h
    simp only [build_host_list_from]
    apply ih
    simp only [host_vnodes, List.filter_cons] at h
    simp only [host_vnodes]
    cases hg : get_resource_value ATTR_rescavail "host" n.attribs with
    | none =>
      have hon : on_host H n = false := by simp [on_host, hg]
      simp only [hon, Bool.false_eq_true, if_false] at h
      exact h
    | some hostn =>
      have hon : on_host H n = strcasecmp_eq hostn H := by simp [on_host, hg]
      simp only [hon] at h
      simp only [host_list_add_find]
      by_cases hc : strcasecmp_eq hostn H = true
      · simp only [hc, if_true, List.length_cons] at h ⊢
        rcases h with h | h | h
        · left; simp [h]
        · left
          cases hs : (st.1.find? (fun h => strcasecmp_eq H h.hl_name)).map (fun h => h.hl_node) with
          | none => exact absurd hs h.1
          | some v => rfl
        · cases hs : (st.1.find? (fun h => strcasecmp_eq H h.hl_name)).map (fun h => h.hl_node) with
          | none =>
            right; left
            exact ⟨by simp, by omega⟩
          | some v => left; rfl
      · simp only [hc, Bool.false_eq_true, if_false] at h ⊢
        exact h

/-- The reply of a query for one host that has at least two vnodes: a single entry,
named after the host, whose attribute list is `host_aggregate`. -/
theorem stathost_multi_vnode (pbs : List batch_status) (H : String) (hH : H ≠ "")
    (hmulti : 2 ≤ (host_vnodes H pbs).length) :
    __pbs_stathost pbs (some H) =
      ([{ name := H, attribs := host_aggregate pbs H, text := none }], none) := by
  have hne : pbs.isEmpty = false := by
    cases pbs with
    | nil => simp [host_vnodes] at hmulti
    | cons a b => rfl
  have hfind := build_host_list_from_multi H pbs 0 ([], []) (Or.inr (Or.inr hmulti))
  have hid : ¬ ((some H : Option String) = none ∨ some H = some "") := by
    simp [hH]
  unfold __pbs_stathost
  simp only [hne, Bool.false_eq_true, if_false, hid, Option.getD_some]
  unfold build_return_status
  change ((build_host_list pbs).1.find? (fun h => strcasecmp_eq H h.hl_name)).map
    (fun h => h.hl_node) = some none at hfind
  cases hf : (build_host_list pbs).1.find? (fun h => strcasecmp_eq H h.hl_name) with
  | none => simp [hf] at hfind
  | some e =>
    have he : e.hl_node = none := by simpa [hf] using hfind
    simp only [he, build_host_list_consum, List.nil_append]
    rfl

theorem agree_step_various (V : String) :
    ∀ vals : List String, vals.foldl (agree_step V) (some V) = some V := by
  intro vals
  induction vals with
  | nil => rfl
  | cons x rest ih => simpa [agree_step] using ih

theorem agree_step_fold (V : String) :
    ∀ (vals : List String) (v : String),
      vals.foldl (agree_step V) (some v) =
        if vals.all (fun x => decide (x = v)) then some v else some V := by
  intro vals
  induction vals with
  | nil => intro v; rfl
  | cons x rest ih =>
    intro v
    simp only [List.foldl_cons, agree_step, List.all_cons]
    by_cases hx : v = x
    · subst hx
      simp only [ne_eq, not_true_eq_false, and_false, if_false, decide_True, Bool.true_and]
      exact ih v
    · have hx2 : ¬ x = v := fun e => hx e.symm
      by_cases hv : v = V
      · subst hv
        simp [hx, hx2, agree_step_various]
      · simp [hx, hx2, hv, agree_step_various]

theorem agree_step_fold_none (V : String) (vals : List String) :
    vals.foldl (agree_step V) none = agree_value V vals := by
  cases vals with
  | nil => rfl
  | cons v rest => exact agree_step_fold V rest v

/-- The table after the attributes `as` have been read: every entry has absorbed the
attributes of its own name, in order. -/
theorem collect_attr_fold (V : String) :
    ∀ (as : List attrl) (tbl : List (String × Option String)),
      as.foldl (collect_attr V) tbl =
        tbl.map (fun e =>
          (e.1, (as.filter (own_attr e.1)).foldl (fun v a => collect_value V a v) e.2)) := by
  intro as
  induction as with
  | nil => intro tbl; simp
  | cons a rest ih =>
    intro tbl
    simp only [List.foldl_cons]
    rw [ih]
    unfold collect_attr
    by_cases hr : a.name = ATTR_rescavail ∨ a.name = ATTR_rescassn
    · simp only [hr, if_true]
      apply List.map_congr_left
      intro e _
      have hown : own_attr e.1 a = false := by
        unfold own_attr
        rcases hr with h | h <;> simp [h]
      simp only [List.filter_cons, hown, Bool.false_eq_true, if_false]
    · simp only [hr, if_false, List.map_map]
      apply List.map_congr_left
      intro e _
      have hr2 : (decide (a.name = ATTR_rescavail) || decide (a.name = ATTR_rescassn)) = false := by
        simpa using hr
      by_cases hn : e.1 = a.name
      · have hown : own_attr e.1 a = true := by
          unfold own_attr
          simp [hn, hr2]
        simp only [Function.comp, hn, if_true, List.filter_cons, List.foldl_cons]
        rw [← hn, hown]
        simp only [if_true, List.foldl_cons]
      · have hown : own_attr e.1 a = false := by
          unfold own_attr
          have hn2 : ¬ a.name = e.1 := fun h => hn h.symm
          simp [hn2]
        simp only [Function.comp, hn, if_false, List.filter_cons, hown, Bool.false_eq_true]

/-- All the attributes of the vnodes of a host, in order. -/
theorem collect_table_eq (V H : String) :
    ∀ (pbs : List batch_status) (tbl : List (String × Option String)),
      pbs.foldl (fun tbl node =>
          if on_host H node then node.attribs.foldl (collect_attr V) tbl else tbl) tbl =
        ((host_vnodes H pbs).flatMap (fun n => n.attribs)).foldl (collect_attr V) tbl := by
  intro pbs
  induction pbs with
  | nil => intro tbl; rfl
  | cons n rest ih =>
    intro tbl
    simp only [List.foldl_cons, host_vnodes, List.filter_cons]
    by_cases hon : on_host H n = true
    · simp only [hon, if_true, List.flatMap_cons, List.foldl_append]
      exact ih _
    · simp only [hon, Bool.false_eq_true, if_false]
      exact ih _

theorem collect_value_fold (V an : String) (hjobs : an ≠ ATTR_NODE_jobs) :
    ∀ (as : List attrl) (init : Option String), (∀ a ∈ as, a.name = an) →
      as.foldl (fun v a => collect_value V a v) init =
        (as.map (fun a => a.value)).foldl (agree_step V) init := by
  intro as
  induction as with
  | nil => intro init _; rfl
  | cons a rest ih =>
    intro init h
    have ha : a.name = an := h a (List.mem_cons_self _ _)
    have hstep : collect_value V a init = agree_step V init a.value := by
      unfold collect_value agree_step
      cases init with
      | none => rfl
      | some v => simp [ha, hjobs]
    simp only [List.foldl_cons, List.map_cons, hstep]
    exact ih _ (fun b hb => h b (List.mem_cons_of_mem _ hb))

theorem own_attr_name {an : String} {a : attrl} (h : own_attr an a = true) : a.name = an := by
  unfold own_attr at h
  simp only [Bool.and_eq_true, decide_eq_true_eq] at h
  exact h.1

theorem own_attr_eq (an : String) (h1 : an ≠ ATTR_rescavail) (h2 : an ≠ ATTR_rescassn)
    (a : attrl) : own_attr an a = decide (a.name = an) := by
  unfold own_attr
  by_cases h : a.name = an
  · subst h
    simp [h1, h2]
  · simp [h]

theorem attr_names_not_resc (an : String) (han : an ∈ attr_names) :
    an ≠ ATTR_rescavail ∧ an ≠ ATTR_rescassn := by
  have h : ∀ x ∈ attr_names, x ≠ ATTR_rescavail ∧ x ≠ ATTR_rescassn := by decide
  exact h an han

/-- The value the table holds for the name `an` once the vnodes of the host have been
read. -/
theorem collect_table_value (pbs : List batch_status) (H V an : String)
    (han : an ∈ attr_names) (hjobs : an ≠ ATTR_NODE_jobs) :
    collect_table pbs H V =
      attr_names.map (fun n =>
        (n, (((host_vnodes H pbs).flatMap (fun n => n.attribs)).filter (own_attr n)).foldl
          (fun v a => collect_value V a v) none)) ∧
    ((((host_vnodes H pbs).flatMap (fun n => n.attribs)).filter (own_attr an)).foldl
        (fun v a => collect_value V a v) none) =
      agree_value V (host_attr_values an H pbs) := by
  constructor
  · unfold collect_table
    rw [collect_table_eq, collect_attr_fold, List.map_map]
    rfl
  · rw [collect_value_fold V an hjobs _ _
      (fun a ha => own_attr_name (List.mem_filter.mp ha).2), agree_step_fold_none]
    congr 1
    have hr := attr_names_not_resc an han
    have hf : own_attr an = fun a => decide (a.name = an) :=
      funext (own_attr_eq an hr.1 hr.2)
    rw [hf]
    unfold host_attr_values
    rw [List.filter_flatMap, List.map_flatMap]

theorem table_entries_find (an : String) (f : String → Option String) :
    ∀ names : List String, an ∈ names →
      attr_value an (table_entries (names.map (fun n => (n, f n)))) = f an := by
  intro names
  induction names with
  | nil => intro h; simp at h
  | cons n rest ih =>
    intro h
    unfold attr_value table_entries at *
    simp only [List.map_cons, List.filterMap_cons]
    by_cases hn : n = an
    · subst hn
      cases hf : f n with
      | none =>
        simp only [Option.map_none']
        by_cases hr : n ∈ rest
        · rw [ih hr, hf]
        · have : List.find? (fun a => decide (a.name = n))
              (List.filterMap (fun e => Option.map
                (fun v => ({ name := e.1, resource := "", value := v } : attrl)) e.2)
                (List.map (fun n => (n, f n)) rest)) = none := by
            rw [List.find?_eq_none]
            intro a ha
            simp only [List.mem_filterMap, List.mem_map] at ha
            obtain ⟨e, ⟨m, hm, rfl⟩, hv⟩ := ha
            simp only [Option.map_eq_some'] at hv
            obtain ⟨v, _, rfl⟩ := hv
            simp only [decide_eq_true_eq]
            intro hmn
            exact hr (hmn ▸ hm)
          rw [this]
          rfl
      | some v => simp
    · have hr : an ∈ rest := by
        rcases List.mem_cons.mp h with h | h
        · exact absurd h.symm hn
        · exact h
      cases hf : f n with
      | none =>
        simp only [Option.map_none']
        exact ih hr
      | some v =>
        simp only [Option.map_some', List.find?_cons, hn, decide_False]
        exact ih hr

/-- The value that `build_collective` reports for an attribute of the table other
than `jobs`, whatever the table of resources. -/
theorem build_collective_attr (pbs : List batch_status) (H an : String)
    (consum : List consumable) (han : an ∈ attr_names) (hjobs : an ≠ ATTR_NODE_jobs) :
    attr_value an (build_collective pbs H consum VARIOUS) =
      agree_value VARIOUS (host_attr_values an H pbs) := by
  have htab := collect_table_value pbs H VARIOUS an han hjobs
  have hval : attr_value an (table_entries (collect_table pbs H VARIOUS)) =
      agree_value VARIOUS (host_attr_values an H pbs) := by
    rw [htab.1, table_entries_find an _ attr_names han, htab.2]
  have hr := attr_names_not_resc an han
  have hrest : List.find? (fun a => decide (a.name = an))
      (avail_entries consum ++ assn_entries consum) = none := by
    rw [List.find?_eq_none]
    intro a ha
    unfold avail_entries assn_entries at ha
    simp only [List.mem_append, List.mem_filterMap] at ha
    simp only [decide_eq_true_eq]
    rcases ha with ⟨d, _, hd⟩ | ⟨d, _, hd⟩
    · split at hd
      · simp at hd
      · simp only [Option.map_eq_some'] at hd
        obtain ⟨v, _, rfl⟩ := hd
        exact fun e => hr.1 e.symm
    · split at hd
      · simp only [Option.some.injEq] at hd
        subst hd
        exact fun e => hr.2 e.symm
      · simp at hd
  rw [← hval]
  unfold build_collective attr_value
  rw [List.append_assoc, List.find?_append, hrest, Option.or_none]

/-- C5. For a host with at least two vnodes the reply of a query for the host is one
entry built by `build_collective`; and for an attribute of the table `attr_names`
other than `jobs`, `build_collective` (whatever the table of resources) reports the
common value `v` when the vnodes of the host that carry the attribute all carry the
value `v`, and reports `<various>` when two of them carry different values. -/
theorem build_collective_attribute (pbs : List batch_status) (H an v : String)
    (hH : H ≠ "") (hmulti : 2 ≤ (host_vnodes H pbs).length)
    (han : an ∈ attr_names) (hjobs : an ≠ ATTR_NODE_jobs) :
    (∃ e : batch_status, __pbs_stathost pbs (some H) = ([e], none) ∧ e.name = H ∧
      ∃ consum, e.attribs = build_collective pbs H consum "<various>") ∧
    ∀ consum : List consumable,
      ((host_attr_values an H pbs ≠ [] ∧ ∀ x ∈ host_attr_values an H pbs, x = v) →
        attr_value an (build_collective pbs H consum "<various>") = some v) ∧
      ((∃ x ∈ host_attr_values an H pbs, ∃ y ∈ host_attr_values an H pbs, x ≠ y) →
        attr_value an (build_collective pbs H consum "<various>") = some "<various>") := by
  refine ⟨⟨_, stathost_multi_vnode pbs H hH hmulti, rfl, _, rfl⟩, fun consum => ⟨?_, ?_⟩⟩
  · rintro ⟨hne, hall⟩
    change attr_value an (build_collective pbs H consum VARIOUS) = some v
    rw [build_collective_attr pbs H an consum han hjobs]
    cases hv : host_attr_values an H pbs with
    | nil => exact absurd hv hne
    | cons x rest =>
      rw [hv] at hall
      have hx : x = v := hall x (List.mem_cons_self _ _)
      have hrest : rest.all (fun y => decide (y = x)) = true := by
        rw [List.all_eq_true]
        intro y hy
        simp [hall y (List.mem_cons_of_mem _ hy), hx]
      subst hx
      simp only [agree_value, hrest, if_true]
  · rintro ⟨x, hx, y, hy, hxy⟩
    change attr_value an (build_collective pbs H consum VARIOUS) = some VARIOUS
    rw [build_collective_attr pbs H an consum han hjobs]
    cases hv : host_attr_values an H pbs with
    | nil => simp [hv] at hx
    | cons z rest =>
      rw [hv] at hx hy
      by_cases hrest : rest.all (fun y => decide (y = z)) = true
      · exfalso
        rw [List.all_eq_true] at hrest
        have hz : ∀ w ∈ z :: rest, w = z := by
          intro w hw
          rcases List.mem_cons.mp hw with h | h
          · exact h
          · simpa using hrest w h
        exact hxy ((hz x hx).trans (hz y hy).symm)
      · simp [agree_value, hrest]

/-- Witness of C5: the two vnodes of `demo_vnodes` have different comments. -/
theorem build_collective_attribute_witness :
    (∃ e : batch_status, __pbs_stathost demo_vnodes (some "H") = ([e], none) ∧ e.name = "H" ∧
      ∃ consum, e.attribs = build_collective demo_vnodes "H" consum "<various>") ∧
    ∀ consum : List consumable,
      ((host_attr_values "comment" "H" demo_vnodes ≠ [] ∧
          ∀ x ∈ host_attr_values "comment" "H" demo_vnodes, x = "rack 1") →
        attr_value "comment" (build_collective demo_vnodes "H" consum "<various>") =
          some "rack 1") ∧
      ((∃ x ∈ host_attr_values "comment" "H" demo_vnodes,
          ∃ y ∈ host_attr_values "comment" "H" demo_vnodes, x ≠ y) →
        attr_value "comment" (build_collective demo_vnodes "H" consum "<various>") =
          some "<various>") :=
  build_collective_attribute demo_vnodes "H" "comment" "rack 1" (by decide) (by decide)
    (by decide) (by decide)

theorem discovered_eq_fold (pbs : List batch_status) :
    discovered pbs = (all_attribs pbs).foldl discover_step [] := by
  unfold discovered all_attribs
  generalize ([] : List consumable) = init
  induction pbs generalizing init with
  | nil => rfl
  | cons n rest ih =>
    simp only [List.foldl_cons, List.flatMap_cons, List.foldl_append]
    rw [ih]
    rfl

/-- The entry found for `R` after `add_consumable_at`. -/
theorem add_consumable_at_find (R : String) (a : attrl) (flag : Bool) :
    ∀ T : List consumable,
      consum_find R (add_consumable_at a flag T) =
        if strcasecmp_eq a.resource R then
          some (match consum_find R T with
            | none =>
              { cons_resource := a.resource, cons_avail_str := none, cons_avail_sum := 0,
                cons_assn_sum := 0, cons_k := strpbrk_size a.value.data,
                cons_consum := flag, cons_set := false }
            | some c =>
              { c with
                cons_consum := c.cons_consum || flag
                cons_k := if strpbrk_size a.value.data then true else c.cons_k })
        else consum_find R T := by
  intro T
  unfold consum_find
  induction T with
  | nil =>
    simp only [add_consumable_at, List.find?_cons, List.find?_nil]
    rw [strcasecmp_eq_symm R a.resource]
    cases strcasecmp_eq a.resource R <;> simp
  | cons c rest ih =>
    simp only [add_consumable_at]
    by_cases h1 : strcasecmp_eq a.resource c.cons_resource = true
    · simp only [h1, if_true, List.find?_cons]
      by_cases h2 : strcasecmp_eq a.resource R = true
      · have h3 : strcasecmp_eq R c.cons_resource = true :=
          strcasecmp_eq_trans (by rw [strcasecmp_eq_symm]; exact h2) h1
        simp [h2, h3]
      · have h3 : strcasecmp_eq R c.cons_resource = false := by
          rw [Bool.eq_false_iff]
          intro h3
          apply h2
          exact strcasecmp_eq_trans h1 (by rw [strcasecmp_eq_symm]; exact h3)
        simp [h2, h3]
    · have h1f : strcasecmp_eq a.resource c.cons_resource = false := by simpa using h1
      simp only [h1f, Bool.false_eq_true, if_false, List.find?_cons]
      by_cases h3 : strcasecmp_eq R c.cons_resource = true
      · have h2 : strcasecmp_eq a.resource R = false := by
          rw [Bool.eq_false_iff]
          intro h2
          exact h1 (strcasecmp_eq_trans h2 h3)
        simp [h2, h3]
      · have h3f : strcasecmp_eq R c.cons_resource = false := by simpa using h3
        simp only [h3f]
        exact ih

theorem known_flags_step (R : String) (T : List consumable) (a : attrl) :
    known_flags R (discover_step T a) = flags_step R (known_flags R T) a := by
  have hne : ATTR_rescavail ≠ ATTR_rescassn := by decide
  unfold discover_step flags_step discovers add_consumable_entry known_flags
  by_cases h1 : a.name = ATTR_rescavail
  · have h2 : ¬ a.name = ATTR_rescassn := fun h => hne (h1.symm.trans h)
    simp only [h1, if_true, decide_True, Bool.true_or, Bool.true_and]
    by_cases hat : strchr_found a.value '@' = true
    · simp [hat]
    · simp only [hat, Bool.false_eq_true, if_false, add_consumable_at_find]
      by_cases hr : strcasecmp_eq a.resource R = true
      · simp only [hr, if_true, Bool.not_false, Bool.true_and, Option.map_some']
        have : decide (ATTR_rescavail = ATTR_rescassn) = false := by decide
        cases consum_find R T with
        | none => simp [this]
        | some c => cases hk : strpbrk_size a.value.data <;> simp [this]
      · simp [hr]
  · simp only [h1, if_false, decide_False, Bool.false_or]
    by_cases h2 : a.name = ATTR_rescassn
    · simp only [h2, if_true, decide_True, Bool.true_and]
      by_cases hat : strchr_found a.value '@' = true
      · simp [hat]
      · simp only [hat, Bool.false_eq_true, if_false, add_consumable_at_find]
        by_cases hr : strcasecmp_eq a.resource R = true
        · simp only [hr, if_true, Bool.not_false, Bool.true_and, Option.map_some']
          cases consum_find R T with
          | none => simp
          | some c => cases hk : strpbrk_size a.value.data <;> simp
        · simp [hr]
    · simp [h2]

theorem flags_step_fold (R : String) :
    ∀ (E : List attrl) (v : Option (Bool × Bool)),
      E.foldl (flags_step R) v =
        if (E.filter (discovers R)).isEmpty then v
        else some ((match v with | none => false | some f => f.1) ||
            (E.filter (discovers R)).any (fun a => decide (a.name = ATTR_rescassn)),
          (match v with | none => false | some f => f.2) ||
            (E.filter (discovers R)).any (fun a => strpbrk_size a.value.data)) := by
  intro E
  induction E with
  | nil => intro v; rfl
  | cons a rest ih =>
    intro v
    simp only [List.foldl_cons, List.filter_cons]
    rw [ih]
    by_cases hd : discovers R a = true
    · simp only [flags_step, hd, if_true, List.isEmpty_cons, Bool.false_eq_true, if_false,
        List.any_cons]
      by_cases he : (rest.filter (discovers R)).isEmpty = true
      · have hnil : rest.filter (discovers R) = [] := List.isEmpty_iff.mp he
        cases v with
        | none => simp [hnil]
        | some f => simp [hnil, Bool.or_comm]
      · simp only [he, Bool.false_eq_true, if_false]
        cases v with
        | none => simp
        | some f =>
          simp only [Option.some.injEq, Prod.mk.injEq]
          constructor
          · simp only [Bool.or_assoc]
          · cases strpbrk_size a.value.data <;> cases f.2 <;> simp
    · simp only [flags_step, hd, Bool.false_eq_true, if_false]

/-- The flags of the resource `R` after the discovery pass. -/
theorem discovered_flags (R : String) (pbs : List batch_status) :
    known_flags R (discovered pbs) =
      if ((all_attribs pbs).filter (discovers R)).isEmpty then none
      else some (is_consumable R pbs, has_size_value R pbs) := by
  have hfold : ∀ (E : List attrl) (T : List consumable),
      known_flags R (E.foldl discover_step T) = E.foldl (flags_step R) (known_flags R T) := by
    intro E
    induction E with
    | nil => intro T; rfl
    | cons a rest ih =>
      intro T
      simp only [List.foldl_cons]
      rw [ih, known_flags_step]
  rw [discovered_eq_fold, hfold, flags_step_fold]
  simp [known_flags, consum_find, is_consumable, has_size_value]

theorem add_consumable_at_resources (a : attrl) (flag : Bool) :
    ∀ T : List consumable,
      (add_consumable_at a flag T).map (fun c => c.cons_resource) =
        if (T.map (fun c => c.cons_resource)).any (fun r => strcasecmp_eq a.resource r) then
          T.map (fun c => c.cons_resource)
        else T.map (fun c => c.cons_resource) ++ [a.resource] := by
  intro T
  induction T with
  | nil => simp [add_consumable_at]
  | cons c rest ih =>
    simp only [add_consumable_at]
    by_cases h : strcasecmp_eq a.resource c.cons_resource = true
    · simp [h]
    · have hf : strcasecmp_eq a.resource c.cons_resource = false := by simpa using h
      simp only [hf, Bool.false_eq_true, if_false, List.map_cons, ih, List.any_cons,
        Bool.false_or]
      split <;> simp

theorem add_consumable_at_distinct (a : attrl) (flag : Bool) (T : List consumable)
    (h : distinct_resources T) : distinct_resources (add_consumable_at a flag T) := by
  unfold distinct_resources at *
  rw [add_consumable_at_resources]
  split
  · exact h
  · rename_i hany
    rw [List.pairwise_append]
    refine ⟨h, List.pairwise_singleton _ _, ?_⟩
    intro r hr b hb
    have hb2 : b = a.resource := by simpa using hb
    subst hb2
    rw [strcasecmp_eq_symm]
    by_contra hc
    apply hany
    rw [List.any_eq_true]
    exact ⟨r, hr, by simpa using hc⟩

theorem add_consumable_at_not_set (a : attrl) (flag : Bool) :
    ∀ T : List consumable, (∀ c ∈ T, c.cons_set = false) →
      ∀ c ∈ add_consumable_at a flag T, c.cons_set = false := by
  intro T
  induction T with
  | nil =>
    intro _ c hc
    simp only [add_consumable_at, List.mem_singleton] at hc
    subst hc
    rfl
  | cons d rest ih =>
    intro h c hc
    simp only [add_consumable_at] at hc
    split at hc
    · rcases List.mem_cons.mp hc with h1 | h1
      · subst h1
        exact h d (List.mem_cons_self _ _)
      · exact h c (List.mem_cons_of_mem _ h1)
    · rcases List.mem_cons.mp hc with h1 | h1
      · subst h1
        exact h c (List.mem_cons_self _ _)
      · exact ih (fun x hx => h x (List.mem_cons_of_mem _ hx)) c h1

/-- After the discovery pass the names of the table are distinct and no entry is
marked as having a value. -/
theorem discovered_invariant (pbs : List batch_status) :
    distinct_resources (discovered pbs) ∧ ∀ c ∈ discovered pbs, c.cons_set = false := by
  rw [discovered_eq_fold]
  have hstep : ∀ (T : List consumable) (a : attrl),
      (distinct_resources T ∧ ∀ c ∈ T, c.cons_set = false) →
      (distinct_resources (discover_step T a) ∧ ∀ c ∈ discover_step T a, c.cons_set = false) := by
    intro T a h
    unfold discover_step add_consumable_entry
    split
    · split
      · exact h
      · exact ⟨add_consumable_at_distinct _ _ _ h.1, add_consumable_at_not_set _ _ _ h.2⟩
    · split
      · split
        · exact h
        · exact ⟨add_consumable_at_distinct _ _ _ h.1, add_consumable_at_not_set _ _ _ h.2⟩
      · exact h
  have hfold : ∀ (E : List attrl) (T : List consumable),
      (distinct_resources T ∧ ∀ c ∈ T, c.cons_set = false) →
      (distinct_resources (E.foldl discover_step T) ∧
        ∀ c ∈ E.foldl discover_step T, c.cons_set = false) := by
    intro E
    induction E with
    | nil => intro T h; exact h
    | cons a rest ih => intro T h; exact ih _ (hstep T a h)
  apply hfold
  exact ⟨List.Pairwise.nil, fun c hc => by simp at hc⟩

theorem get_resource_value_none (attrn R : String) :
    ∀ al : List attrl,
      (∀ a ∈ al, (strcasecmp_eq a.name attrn && strcasecmp_eq a.resource R) = false) →
      get_resource_value attrn R al = none := by
  intro al
  induction al with
  | nil => intro _; rfl
  | cons a rest ih =>
    intro h
    simp only [get_resource_value, h a (List.mem_cons_self _ _), Bool.false_eq_true, if_false]
    exact ih (fun b hb => h b (List.mem_cons_of_mem _ hb))

theorem get_resource_value_append (attrn R : String) (l2 : List attrl) :
    ∀ l1 : List attrl,
      get_resource_value attrn R (l1 ++ l2) =
        (get_resource_value attrn R l1).or (get_resource_value attrn R l2) := by
  intro l1
  induction l1 with
  | nil => rfl
  | cons a rest ih =>
    simp only [List.cons_append, get_resource_value]
    split
    · rfl
    · exact ih

/-- The value found for the resource `R` in the entries written from a table with
distinct names. -/
theorem get_resource_value_entries (attrn R : String) (dup : consumable → Option String) :
    ∀ T : List consumable, distinct_resources T →
      get_resource_value attrn R
          (T.filterMap (fun c => (dup c).map (fun v =>
            ({ name := attrn, resource := c.cons_resource, value := v } : attrl)))) =
        (consum_find R T).bind dup := by
  intro T
  induction T with
  | nil => intro _; rfl
  | cons c rest ih =>
    intro hd
    have hd2 : distinct_resources rest := by
      unfold distinct_resources at *
      exact (List.pairwise_cons.mp hd).2
    have hd1 : ∀ d ∈ rest, strcasecmp_eq c.cons_resource d.cons_resource = false := by
      unfold distinct_resources at hd
      intro d hdm
      exact (List.pairwise_cons.mp hd).1 d.cons_resource (List.mem_map_of_mem _ hdm)
    unfold consum_find at *
    simp only [List.find?_cons, List.filterMap_cons]
    by_cases hR : strcasecmp_eq R c.cons_resource = true
    · simp only [hR, Option.bind_some]
      cases hdup : dup c with
      | none =>
        simp only [Option.map_none', Option.some_bind, hdup]
        apply get_resource_value_none
        intro a ha
        simp only [List.mem_filterMap, Option.map_eq_some'] at ha
        obtain ⟨d, hdm, v, _, rfl⟩ := ha
        have : strcasecmp_eq d.cons_resource R = false := by
          rw [Bool.eq_false_iff]
          intro h
          have h2 := strcasecmp_eq_trans
            (by rw [strcasecmp_eq_symm]; exact hR : strcasecmp_eq c.cons_resource R = true)
            (by rw [strcasecmp_eq_symm]; exact h : strcasecmp_eq R d.cons_resource = true)
          rw [hd1 d hdm] at h2
          exact Bool.false_ne_true h2
        simp [this]
      | some v =>
        have h2 : strcasecmp_eq c.cons_resource R = true := by
          rw [strcasecmp_eq_symm]; exact hR
        simp [get_resource_value, strcasecmp_eq_refl, h2, hdup]
    · have hRf : strcasecmp_eq R c.cons_resource = false := by simpa using hR
      have h2 : strcasecmp_eq c.cons_resource R = false := by
        rw [strcasecmp_eq_symm]; exact hRf
      simp only [hRf]
      cases hdup : dup c with
      | none =>
        simp only [Option.map_none']
        exact ih hd2
      | some v =>
        simp only [Option.map_some', get_resource_value, h2, Bool.and_false,
          Bool.false_eq_true, if_false]
        exact ih hd2

theorem avail_entries_eq (T : List consumable) :
    avail_entries T = T.filterMap (fun c => (avail_text c).map (fun v =>
      ({ name := ATTR_rescavail, resource := c.cons_resource, value := v } : attrl))) := by
  unfold avail_entries avail_text
  apply List.filterMap_congr
  intro c _
  by_cases h : c.cons_set = true <;> simp [h]

theorem assn_entries_eq (T : List consumable) :
    assn_entries T = T.filterMap (fun c => (assn_text c).map (fun v =>
      ({ name := ATTR_rescassn, resource := c.cons_resource, value := v } : attrl))) := by
  unfold assn_entries assn_text
  apply List.filterMap_congr
  intro c _
  by_cases h : (c.cons_set && c.cons_consum) = true <;> simp [h]

theorem table_entries_no_resource (attrn R : String)
    (hattr : ∀ n ∈ attr_names, strcasecmp_eq n attrn = false)
    (tbl : List (String × Option String)) (htbl : tbl.map (fun e => e.1) = attr_names) :
    get_resource_value attrn R (table_entries tbl) = none := by
  apply get_resource_value_none
  intro a ha
  unfold table_entries at ha
  simp only [List.mem_filterMap, Option.map_eq_some'] at ha
  obtain ⟨e, he, v, _, rfl⟩ := ha
  have : e.1 ∈ attr_names := by
    rw [← htbl]
    exact List.mem_map_of_mem _ he
  simp [hattr e.1 this]


theorem sum_a_resource_keeps (p : consumable) (avail : Bool) (value : Option String)
    (V : String) :
    (sum_a_resource p avail value V).cons_resource = p.cons_resource ∧
    (sum_a_resource p avail value V).cons_consum = p.cons_consum := by
  unfold sum_a_resource
  cases value with
  | none => exact ⟨rfl, rfl⟩
  | some v =>
    dsimp only
    split_ifs <;> first | exact ⟨rfl, rfl⟩ | (split <;> first | exact ⟨rfl, rfl⟩ | (split <;> exact ⟨rfl, rfl⟩))

theorem sum_node_keeps (attribs : List attrl) (V : String) (c : consumable) :
    (sum_node attribs V c).cons_resource = c.cons_resource ∧
    (sum_node attribs V c).cons_consum = c.cons_consum := by
  unfold sum_node
  have h1 := sum_a_resource_keeps c true
    (get_resource_value ATTR_rescavail c.cons_resource attribs) V
  have h2 := sum_a_resource_keeps
    (sum_a_resource c true (get_resource_value ATTR_rescavail c.cons_resource attribs) V)
    false (get_resource_value ATTR_rescassn c.cons_resource attribs) V
  exact ⟨h2.1.trans h1.1, h2.2.trans h1.2⟩

theorem sum_fold_keeps (V : String) :
    ∀ (ns : List batch_status) (c : consumable),
      (ns.foldl (fun c n => sum_node n.attribs V c) c).cons_resource = c.cons_resource ∧
      (ns.foldl (fun c n => sum_node n.attribs V c) c).cons_consum = c.cons_consum := by
  intro ns
  induction ns with
  | nil => intro c; exact ⟨rfl, rfl⟩
  | cons n rest ih =>
    intro c
    simp only [List.foldl_cons]
    have h1 := ih (sum_node n.attribs V c)
    have h2 := sum_node_keeps n.attribs V c
    exact ⟨h1.1.trans h2.1, h1.2.trans h2.2⟩

theorem sum_host_keeps (pbs : List batch_status) (H V : String) (c : consumable) :
    (sum_host pbs H V c).cons_resource = c.cons_resource ∧
    (sum_host pbs H V c).cons_consum = c.cons_consum := by
  unfold sum_host
  have h := sum_fold_keeps V (host_vnodes H pbs) (clear_sums c)
  exact ⟨h.1, h.2⟩

/-- `sum_resources` treats every entry of the table on its own. -/
theorem sum_resources_eq (pbs : List batch_status) (H V : String) (T : List consumable) :
    sum_resources pbs H T V = T.map (sum_host pbs H V) := by
  have hfold : ∀ (pbs : List batch_status) (acc : List consumable),
      pbs.foldl (fun acc node =>
          if on_host H node then acc.map (sum_node node.attribs V) else acc) acc =
        acc.map (fun c => (host_vnodes H pbs).foldl (fun c n => sum_node n.attribs V c) c) := by
    intro pbs
    induction pbs with
    | nil => intro acc; simp [host_vnodes]
    | cons n rest ih =>
      intro acc
      simp only [List.foldl_cons, host_vnodes, List.filter_cons]
      by_cases hon : on_host H n = true
      · simp only [hon, if_true, List.foldl_cons]
        rw [ih, List.map_map]
        rfl
      · simp only [hon, Bool.false_eq_true, if_false]
        exact ih acc
  unfold sum_resources
  rw [hfold, List.map_map]
  rfl

theorem sum_resources_find (pbs : List batch_status) (H V R : String) (T : List consumable) :
    consum_find R (sum_resources pbs H T V) = (consum_find R T).map (sum_host pbs H V) := by
  rw [sum_resources_eq]
  unfold consum_find
  rw [List.find?_map]
  congr 2
  funext c
  simp only [Function.comp, (sum_host_keeps pbs H V c).1]

theorem sum_resources_distinct (pbs : List batch_status) (H V : String) (T : List consumable)
    (h : distinct_resources T) : distinct_resources (sum_resources pbs H T V) := by
  unfold distinct_resources at *
  rw [sum_resources_eq, List.map_map]
  have : ((fun c => c.cons_resource) ∘ sum_host pbs H V) = fun c => c.cons_resource := by
    funext c
    exact (sum_host_keeps pbs H V c).1
  rw [this]
  exact h

/-- The values that the aggregate entry of a host reports for a resource are those
written from the entry that the table of resources holds for it. -/
theorem host_aggregate_resource (pbs : List batch_status) (H R : String) :
    get_resource_value ATTR_rescavail R (host_aggregate pbs H) =
      ((consum_find R (discovered pbs)).map (sum_host pbs H VARIOUS)).bind avail_text ∧
    get_resource_value ATTR_rescassn R (host_aggregate pbs H) =
      ((consum_find R (discovered pbs)).map (sum_host pbs H VARIOUS)).bind assn_text := by
  have hd := sum_resources_distinct pbs H VARIOUS _ (discovered_invariant pbs).1
  have htbl : (collect_table pbs H VARIOUS).map (fun e => e.1) = attr_names := by
    unfold collect_table
    rw [collect_table_eq, collect_attr_fold, List.map_map, List.map_map]
    exact List.map_id _
  have h1 : ∀ n ∈ attr_names, strcasecmp_eq n ATTR_rescavail = false := by decide
  have h2 : ∀ n ∈ attr_names, strcasecmp_eq n ATTR_rescassn = false := by decide
  unfold host_aggregate build_collective
  constructor
  · rw [List.append_assoc, get_resource_value_append,
      table_entries_no_resource _ _ h1 _ htbl, Option.none_or, get_resource_value_append,
      avail_entries_eq, get_resource_value_entries _ _ _ _ hd, sum_resources_find]
    cases hc : ((consum_find R (discovered pbs)).map (sum_host pbs H VARIOUS)).bind avail_text with
    | some v => rfl
    | none =>
      simp only [Option.none_or]
      apply get_resource_value_none
      intro a ha
      rw [assn_entries_eq] at ha
      simp only [List.mem_filterMap, Option.map_eq_some'] at ha
      obtain ⟨d, _, v, _, rfl⟩ := ha
      have : strcasecmp_eq ATTR_rescassn ATTR_rescavail = false := by decide
      simp [this]
  · rw [List.append_assoc, get_resource_value_append,
      table_entries_no_resource _ _ h2 _ htbl, Option.none_or, get_resource_value_append]
    have hav : get_resource_value ATTR_rescassn R
        (avail_entries (sum_resources pbs H (discovered pbs) VARIOUS)) = none := by
      apply get_resource_value_none
      intro a ha
      rw [avail_entries_eq] at ha
      simp only [List.mem_filterMap, Option.map_eq_some'] at ha
      obtain ⟨d, _, v, _, rfl⟩ := ha
      have : strcasecmp_eq ATTR_rescavail ATTR_rescassn = false := by decide
      simp [this]
    rw [hav, Option.none_or, assn_entries_eq, get_resource_value_entries _ _ _ _ hd,
      sum_resources_find]

theorem sum_a_resource_consumable (c : consumable) (avail : Bool) (value : Option String)
    (V : String) (hc : c.cons_consum = true)
    (hk : ∀ v, value = some v → strchr_found v '@' = false →
      strpbrk_size (strtol v.data).2 = true → c.cons_k = true) :
    sum_a_resource c avail value V =
      if avail then
        { c with
          cons_avail_sum := sum_add c.cons_avail_sum (summed value)
          cons_set := c.cons_set || (summed value).isSome }
      else
        { c with
          cons_assn_sum := sum_add c.cons_assn_sum (summed value)
          cons_set := c.cons_set || (summed value).isSome } := by
  obtain ⟨res, str, av, asn, k, cf, st⟩ := c
  simp only at hc hk
  subst hc
  unfold sum_a_resource
  cases value with
  | none => cases avail <;> simp [summed, sum_add]
  | some v =>
    simp only [Bool.not_true, Bool.false_eq_true, if_false]
    by_cases hat : strchr_found v '@' = true
    · cases avail <;> simp [summed, sum_add, hat]
    · have hatf : strchr_found v '@' = false := by simpa using hat
      simp only [hatf, Bool.false_eq_true, if_false]
      have hsized : (strpbrk_size (strtol v.data).2 && !k) = false := by
        cases hs : strpbrk_size (strtol v.data).2 with
        | false => rfl
        | true => simp [hk v rfl hatf hs]
      simp only [hsized, Bool.false_eq_true, if_false]
      cases avail <;> simp [summed, sum_add, hatf, amount]

theorem sum_node_consumable (n : batch_status) (V : String) (c : consumable)
    (hc : c.cons_consum = true) (hk : size_flag_settled c n) :
    sum_node n.attribs V c =
      { c with
        cons_avail_sum :=
          sum_add c.cons_avail_sum
            (summed (get_resource_value ATTR_rescavail c.cons_resource n.attribs))
        cons_assn_sum :=
          sum_add c.cons_assn_sum
            (summed (get_resource_value ATTR_rescassn c.cons_resource n.attribs))
        cons_set := c.cons_set || carries c.cons_resource n } := by
  unfold sum_node
  rw [sum_a_resource_consumable c true _ V hc (fun v hv => hk ATTR_rescavail (Or.inl rfl) v hv)]
  simp only [if_true]
  have h2 := sum_a_resource_consumable
    { c with
      cons_avail_sum := sum_add c.cons_avail_sum
        (summed (get_resource_value ATTR_rescavail c.cons_resource n.attribs))
      cons_set := c.cons_set ||
        (summed (get_resource_value ATTR_rescavail c.cons_resource n.attribs)).isSome }
    false (get_resource_value ATTR_rescassn c.cons_resource n.attribs) V hc
    (fun v hv => hk ATTR_rescassn (Or.inr rfl) v hv)
  rw [h2]
  simp [carries, Bool.or_assoc]

/-- The sums of a consumable resource over a list of vnodes. -/
theorem sum_fold_consumable (V : String) :
    ∀ (ns : List batch_status) (c : consumable), c.cons_consum = true →
      (∀ n ∈ ns, size_flag_settled c n) →
      ns.foldl (fun c n => sum_node n.attribs V c) c =
        { c with
          cons_avail_sum := sum_over ATTR_rescavail c.cons_resource c.cons_avail_sum ns
          cons_assn_sum := sum_over ATTR_rescassn c.cons_resource c.cons_assn_sum ns
          cons_set := c.cons_set || ns.any (carries c.cons_resource) } := by
  intro ns
  induction ns with
  | nil => intro c _ _; simp [sum_over]
  | cons n rest ih =>
    intro c hc hk
    simp only [List.foldl_cons]
    rw [sum_node_consumable n V c hc (hk n (List.mem_cons_self _ _))]
    rw [ih]
    · simp [sum_over, Bool.or_assoc]
    · exact hc
    · exact fun m hm => hk m (List.mem_cons_of_mem _ hm)

theorem sum_node_plain (n : batch_status) (V : String) (c : consumable)
    (hc : c.cons_consum = false) :
    sum_node n.attribs V c =
      match get_resource_value ATTR_rescavail c.cons_resource n.attribs with
      | none => c
      | some v =>
        { c with cons_avail_str := differ_step V c.cons_avail_str v, cons_set := true } := by
  unfold sum_node
  have h2 : ∀ (p : consumable) (value : Option String), p.cons_consum = false →
      sum_a_resource p false value V = p := by
    intro p value hp
    unfold sum_a_resource
    cases value <;> simp [hp]
  rw [h2 _ _ (by rw [(sum_a_resource_keeps c true _ V).2]; exact hc)]
  unfold sum_a_resource
  cases get_resource_value ATTR_rescavail c.cons_resource n.attribs with
  | none => rfl
  | some v =>
    simp only [hc, Bool.not_false, if_true, Bool.not_true, Bool.false_eq_true, if_false]
    cases hs : c.cons_avail_str with
    | none => simp [differ_step]
    | some s =>
      simp only [differ_step]
      split <;> simp [*]

/-- The string kept for a resource that is not consumable, over a list of vnodes. -/
theorem sum_fold_plain (V : String) :
    ∀ (ns : List batch_status) (c : consumable), c.cons_consum = false →
      ns.foldl (fun c n => sum_node n.attribs V c) c =
        { c with
          cons_avail_str :=
            (avail_values c.cons_resource ns).foldl (differ_step V) c.cons_avail_str
          cons_set := c.cons_set || !(avail_values c.cons_resource ns).isEmpty } := by
  intro ns
  induction ns with
  | nil => intro c _; simp [avail_values]
  | cons n rest ih =>
    intro c hc
    simp only [List.foldl_cons]
    rw [sum_node_plain n V c hc]
    cases hv : get_resource_value ATTR_rescavail c.cons_resource n.attribs with
    | none =>
      simp only []
      rw [ih c hc]
      simp [avail_values, hv]
    | some v =>
      simp only []
      rw [ih]
      · simp [avail_values, hv]
      · exact hc

theorem strtol_digits_subset :
    ∀ (l : List Char) (acc : Nat), ∀ c ∈ (strtol_digits l acc).2, c ∈ l := by
  intro l
  induction l with
  | nil => intro acc c hc; simp [strtol_digits] at hc
  | cons d rest ih =>
    intro acc c hc
    simp only [strtol_digits] at hc
    split at hc
    · exact List.mem_cons_of_mem _ (ih _ c hc)
    · exact hc

theorem strtol_subset (s : List Char) : ∀ c ∈ (strtol s).2, c ∈ s := by
  intro c hc
  have hdrop : ∀ x ∈ s.dropWhile c_isspace, x ∈ s :=
    fun x hx => (List.dropWhile_suffix c_isspace).subset hx
  unfold strtol at hc
  dsimp only at hc
  split at hc
  · exact hc
  · rename_i d ds hu
    split at hc
    · have hc2 := strtol_digits_subset _ 0 c hc
      rw [hu] at hc2
      have hsub : ∀ x ∈ d :: ds, x ∈ s.dropWhile c_isspace := by
        intro x hx
        rw [← hu]  at hx
        split at hx
        · rename_i e r ht
          split at hx
          · rw [ht]; exact List.mem_cons_of_mem _ hx
          · exact hx
        · exact hx
      exact hdrop _ (hsub _ hc2)
    · exact hc

theorem strpbrk_size_of_strtol (v : String) (h : strpbrk_size (strtol v.data).2 = true) :
    strpbrk_size v.data = true := by
  unfold strpbrk_size at *
  rw [List.any_eq_true] at *
  obtain ⟨c, hc, hp⟩ := h
  exact ⟨c, strtol_subset _ c hc, hp⟩

theorem get_resource_value_mem (attrn R : String) :
    ∀ (al : List attrl) (v : String), get_resource_value attrn R al = some v →
      ∃ a ∈ al, strcasecmp_eq a.name attrn = true ∧ strcasecmp_eq a.resource R = true ∧
        a.value = v := by
  intro al
  induction al with
  | nil => intro v h; simp [get_resource_value] at h
  | cons a rest ih =>
    intro v h
    simp only [get_resource_value] at h
    split at h
    · rename_i hm
      simp only [Bool.and_eq_true] at hm
      exact ⟨a, List.mem_cons_self _ _, hm.1, hm.2, by simpa using h⟩
    · obtain ⟨b, hb, h1⟩ := ih v h
      exact ⟨b, List.mem_cons_of_mem _ hb, h1⟩

theorem mem_all_attribs {pbs : List batch_status} {n : batch_status} {a : attrl}
    (hn : n ∈ pbs) (ha : a ∈ n.attribs) : a ∈ all_attribs pbs := by
  unfold all_attribs
  rw [List.mem_flatMap]
  exact ⟨n, hn, ha⟩

/-- A value that `get_resource_value` finds on a vnode was seen by the discovery pass
when the attribute names are spelled exactly. -/
theorem found_value_discovered (pbs : List batch_status) (hexact : exact_names pbs)
    (R res attrn v : String) (hres : strcasecmp_eq R res = true)
    (hattr : attrn = ATTR_rescavail ∨ attrn = ATTR_rescassn)
    (n : batch_status) (hn : n ∈ pbs)
    (hv : get_resource_value attrn res n.attribs = some v)
    (hat : strchr_found v '@' = false) :
    ∃ a ∈ (all_attribs pbs).filter (discovers R), a.name = attrn ∧ a.value = v := by
  obtain ⟨a, ha, h1, h2, h3⟩ := get_resource_value_mem attrn res n.attribs v hv
  have hname : a.name = attrn := by
    rcases hattr with h | h
    · subst h; exact (hexact n hn a ha).1 h1
    · subst h; exact (hexact n hn a ha).2 h1
  have hR : strcasecmp_eq a.resource R = true :=
    strcasecmp_eq_trans h2 (by rw [strcasecmp_eq_symm]; exact hres)
  refine ⟨a, ?_, hname, h3⟩
  rw [List.mem_filter]
  refine ⟨mem_all_attribs hn ha, ?_⟩
  unfold discovers
  rw [h3, hat, hR]
  rcases hattr with h | h <;> simp [hname, h]

/-- The entry that the discovery pass made for `R`, and its flags. -/
theorem discovered_entry (pbs : List batch_status) (R : String) (c : consumable)
    (hc : consum_find R (discovered pbs) = some c) :
    strcasecmp_eq R c.cons_resource = true ∧ c.cons_consum = is_consumable R pbs ∧
      c.cons_k = has_size_value R pbs ∧ c.cons_set = false := by
  have hfl := discovered_flags R pbs
  unfold known_flags at hfl
  rw [hc] at hfl
  have hmem : c ∈ discovered pbs := by
    unfold consum_find at hc
    exact List.mem_of_find?_eq_some hc
  have hci : strcasecmp_eq R c.cons_resource = true := by
    unfold consum_find at hc
    exact List.find?_some (p := fun (c : consumable) => strcasecmp_eq R c.cons_resource) hc
  split at hfl
  · simp at hfl
  · simp only [Option.map_some', Option.some.injEq, Prod.mk.injEq] at hfl
    exact ⟨hci, hfl.1, hfl.2, (discovered_invariant pbs).2 c hmem⟩

theorem discovered_entry_exists (pbs : List batch_status) (R : String)
    (h : ((all_attribs pbs).filter (discovers R)).isEmpty = false) :
    ∃ c, consum_find R (discovered pbs) = some c := by
  have hfl := discovered_flags R pbs
  unfold known_flags at hfl
  rw [h] at hfl
  cases hc : consum_find R (discovered pbs) with
  | none => simp [hc] at hfl
  | some c => exact ⟨c, rfl⟩

/-- When the attribute names are spelled exactly, the size flag that the discovery
pass computed for a resource is never changed by the sums. -/
theorem discovered_size_flag_settled (pbs : List batch_status) (hexact : exact_names pbs)
    (R : String) (c : consumable) (hc : consum_find R (discovered pbs) = some c)
    (n : batch_status) (hn : n ∈ pbs) : size_flag_settled (clear_sums c) n := by
  obtain ⟨hci, _, hk, _⟩ := discovered_entry pbs R c hc
  intro attrn hattr v hv hat hsz
  change c.cons_k = true
  rw [hk]
  obtain ⟨a, ha, _, hval⟩ := found_value_discovered pbs hexact R c.cons_resource attrn v hci
    hattr n hn hv hat
  unfold has_size_value
  rw [List.any_eq_true]
  exact ⟨a, ha, by rw [hval]; exact strpbrk_size_of_strtol v hsz⟩

theorem summed_congr {r1 r2 : String} (h : strcasecmp_eq r1 r2 = true) (attrn : String)
    (n : batch_status) :
    summed (get_resource_value attrn r1 n.attribs) =
      summed (get_resource_value attrn r2 n.attribs) := by
  rw [get_resource_value_congr h]

theorem sum_over_congr {r1 r2 : String} (h : strcasecmp_eq r1 r2 = true) (attrn : String)
    (s : Int) (ns : List batch_status) : sum_over attrn r1 s ns = sum_over attrn r2 s ns := by
  unfold sum_over
  congr 1
  funext s n
  rw [summed_congr h]

theorem carries_congr {r1 r2 : String} (h : strcasecmp_eq r1 r2 = true) :
    carries r1 = carries r2 := by
  funext n
  unfold carries
  rw [summed_congr h, summed_congr h]

theorem avail_values_congr {r1 r2 : String} (h : strcasecmp_eq r1 r2 = true)
    (ns : List batch_status) : avail_values r1 ns = avail_values r2 ns := by
  unfold avail_values
  congr 1
  funext n
  rw [get_resource_value_congr h]

/-- The aggregate values of a consumable resource, when the attribute names are
spelled exactly: the sums over the vnodes of the host, written when some vnode of the
host carries the resource. -/
theorem consumable_aggregate (pbs : List batch_status) (H R : String)
    (hexact : exact_names pbs) (hcons : is_consumable R pbs = true) :
    get_resource_value ATTR_rescavail R (host_aggregate pbs H) =
      (if (host_vnodes H pbs).any (carries R) then
        some (sum_text (sum_over ATTR_rescavail R 0 (host_vnodes H pbs)) (has_size_value R pbs))
      else none) ∧
    get_resource_value ATTR_rescassn R (host_aggregate pbs H) =
      (if (host_vnodes H pbs).any (carries R) then
        some (sum_text (sum_over ATTR_rescassn R 0 (host_vnodes H pbs)) (has_size_value R pbs))
      else none) := by
  have hne : ((all_attribs pbs).filter (discovers R)).isEmpty = false := by
    unfold is_consumable at hcons
    cases hf : (all_attribs pbs).filter (discovers R) with
    | nil => simp [hf] at hcons
    | cons a b => rfl
  obtain ⟨c, hc⟩ := discovered_entry_exists pbs R hne
  obtain ⟨hci, hcf, hk, hset⟩ := discovered_entry pbs R c hc
  have hcc : (clear_sums c).cons_consum = true := by
    change c.cons_consum = true
    rw [hcf, hcons]
  have hsettled : ∀ n ∈ host_vnodes H pbs, size_flag_settled (clear_sums c) n := by
    intro n hn
    exact discovered_size_flag_settled pbs hexact R c hc n (List.mem_filter.mp hn).1
  have hsum : sum_host pbs H VARIOUS c = _ :=
    sum_fold_consumable VARIOUS (host_vnodes H pbs) (clear_sums c) hcc hsettled
  have hagg := host_aggregate_resource pbs H R
  rw [hc] at hagg
  simp only [Option.map_some', Option.some_bind] at hagg
  rw [hagg.1, hagg.2, hsum]
  have hci2 : strcasecmp_eq c.cons_resource R = true := by
    rw [strcasecmp_eq_symm]; exact hci
  have e1 : (clear_sums c).cons_resource = c.cons_resource := rfl
  have e2 : (clear_sums c).cons_set = false := hset
  have e3 : (clear_sums c).cons_k = has_size_value R pbs := hk
  have e4 : (clear_sums c).cons_avail_sum = 0 := rfl
  have e5 : (clear_sums c).cons_assn_sum = 0 := rfl
  unfold avail_text assn_text
  simp only [e1, e2, e3, e4, e5, hcc, Bool.false_or, carries_congr hci2,
    sum_over_congr hci2]
  constructor
  · cases (host_vnodes H pbs).any (carries R) <;> simp
  · cases (host_vnodes H pbs).any (carries R) <;> simp

/-- The aggregate values of a resource that is known to the discovery pass and is not
consumable: `resources_available` is the value kept by `differ_step` over the vnodes
of the host that carry the resource and there is no `resources_assigned` entry. -/
theorem plain_aggregate (pbs : List batch_status) (H R : String)
    (hcons : is_consumable R pbs = false) :
    get_resource_value ATTR_rescavail R (host_aggregate pbs H) =
      (if ((all_attribs pbs).filter (discovers R)).isEmpty then none
      else (avail_values R (host_vnodes H pbs)).foldl (differ_step VARIOUS) none) ∧
    get_resource_value ATTR_rescassn R (host_aggregate pbs H) = none := by
  have hagg := host_aggregate_resource pbs H R
  by_cases hne : ((all_attribs pbs).filter (discovers R)).isEmpty = true
  · have hfl := discovered_flags R pbs
    rw [hne] at hfl
    simp only [if_true, known_flags, Option.map_eq_none'] at hfl
    rw [hfl] at hagg
    simp only [Option.map_none', Option.none_bind] at hagg
    rw [hagg.1, hagg.2, hne]
    exact ⟨rfl, rfl⟩
  · have hnef : ((all_attribs pbs).filter (discovers R)).isEmpty = false := by simpa using hne
    obtain ⟨c, hc⟩ := discovered_entry_exists pbs R hnef
    obtain ⟨hci, hcf, hk, hset⟩ := discovered_entry pbs R c hc
    have hcc : (clear_sums c).cons_consum = false := by
      change c.cons_consum = false
      rw [hcf, hcons]
    have hsum : sum_host pbs H VARIOUS c = _ :=
      sum_fold_plain VARIOUS (host_vnodes H pbs) (clear_sums c) hcc
    rw [hc] at hagg
    simp only [Option.map_some', Option.some_bind] at hagg
    rw [hagg.1, hagg.2, hsum, hnef]
    have hci2 : strcasecmp_eq c.cons_resource R = true := by
      rw [strcasecmp_eq_symm]; exact hci
    have e1 : (clear_sums c).cons_resource = c.cons_resource := rfl
    have e2 : (clear_sums c).cons_set = false := hset
    have e4 : (clear_sums c).cons_avail_str = none := rfl
    unfold avail_text assn_text
    simp only [e1, e2, e4, hcc, Bool.false_or, avail_values_congr hci2]
    constructor
    · cases hv : avail_values R (host_vnodes H pbs) with
      | nil => simp
      | cons v rest => simp
    · simp

theorem fmt_lld_nat (n : Nat) : fmt_lld (n : Int) = toString n := rfl

theorem wrap_ll_eq_self (v : Int) (h1 : 0 ≤ v) (h2 : v < 2 ^ 63) : wrap_ll v = v := by
  unfold wrap_ll Int.bmod
  norm_num at *
  omega

theorem strtol_digits_eq :
    ∀ (l : List Char) (acc : Nat),
      strtol_digits l acc =
        ((l.takeWhile c_isdigit).foldl (fun acc c => acc * 10 + (c.toNat - 48)) acc,
          l.dropWhile c_isdigit) := by
  intro l
  induction l with
  | nil => intro acc; rfl
  | cons c rest ih =>
    intro acc
    simp only [strtol_digits, List.takeWhile_cons, List.dropWhile_cons]
    by_cases hc : c_isdigit c = true
    · simp only [hc, if_true, List.foldl_cons]
      exact ih _
    · simp [hc]

theorem c_isdigit_facts (c : Char) (h : c_isdigit c = true) :
    c_isspace c = false ∧ c ≠ '-' ∧ c ≠ '+' ∧ c ≠ '@' := by
  unfold c_isdigit at h
  simp only [Bool.and_eq_true, decide_eq_true_eq] at h
  refine ⟨?_, ?_, ?_, ?_⟩
  · unfold c_isspace
    have h1 : (c == ' ') = false := by
      rw [beq_eq_false_iff_ne]
      intro e
      subst e
      revert h
      decide
    have h2 : (decide (9 ≤ c.toNat) && decide (c.toNat ≤ 13)) = false := by
      simp only [Bool.and_eq_false_iff, decide_eq_false_iff_not]
      omega
    simp [h1, h2]
  · intro e; subst e; revert h; decide
  · intro e; subst e; revert h; decide
  · intro e; subst e; revert h; decide

/-- `strtol` on a string that starts with a digit. -/
theorem strtol_of_digit (s : List Char) (d : Char) (tl : List Char) (hs : s = d :: tl)
    (hd : c_isdigit d = true) :
    strtol s =
      ((if (dec_value (s.takeWhile c_isdigit) : Int) > LONG_MAX then LONG_MAX
        else (dec_value (s.takeWhile c_isdigit) : Int)),
        s.dropWhile c_isdigit) := by
  obtain ⟨hsp, hm, hp, _⟩ := c_isdigit_facts d hd
  subst hs
  have hm2 : (d == '-') = false := by rw [beq_eq_false_iff_ne]; exact hm
  have hp2 : (d == '+') = false := by rw [beq_eq_false_iff_ne]; exact hp
  have hneg : ((d :: tl).head? == some '-') = false := by
    simp only [List.head?_cons]
    rw [beq_eq_false_iff_ne]
    intro e
    exact hm (Option.some.inj e)
  unfold strtol
  simp only [List.dropWhile_cons, hsp, Bool.false_eq_true, if_false, hm2, hp2, Bool.or_self,
    hd, if_true, hneg, strtol_digits_eq]
  have hnn : ¬ ((dec_value (List.takeWhile c_isdigit (d :: tl)) : Nat) : Int) < LONG_MIN := by
    unfold LONG_MIN
    omega
  unfold dec_value at *
  simp only [hnn, if_false]

theorem strpbrk_size_nil : strpbrk_size [] = false := rfl

/-- A well-formed size is not an indirect value. -/
theorem size_wf_not_indirect (v : String) (hwf : size_wf v = true) :
    strchr_found v '@' = false := by
  unfold size_wf at hwf
  simp only [Bool.and_eq_true, Bool.not_eq_true', Option.isSome_iff_exists] at hwf
  obtain ⟨_, m, hm⟩ := hwf
  unfold strchr_found
  rw [← List.takeWhile_append_dropWhile c_isdigit v.data]
  simp only [List.contains_eq_any_beq, List.any_append, Bool.or_eq_false_iff,
    List.any_eq_false, beq_iff_eq]
  constructor
  · intro c hc
    have := (c_isdigit_facts c (List.mem_takeWhile_imp hc)).2.2.2
    exact fun e => this e.symm
  · intro c hc
    unfold unit_kb at hm
    split at hm
    · rename_i hnil
      rw [hnil] at hc
      simp at hc
    · rename_i x b hxb
      rw [hxb] at hc
      split_ifs at hm with hb h1 h2 h3 h4
      all_goals
        simp only [List.mem_cons, List.mem_singleton, List.not_mem_nil, or_false] at hc
        rcases hc with e | e
        · subst e
          intro e2
          subst e2
          revert h1
          try revert h2
          try revert h3
          try revert h4
          decide
        · subst e
          intro e2
          subst e2
          revert hb
          decide
    · simp at hm

/-- For a well-formed size whose value in kilobytes fits in a `long long`, the amount
that `sum_a_resource` adds is that value; such a value is not indirect. -/
theorem amount_of_size_wf (v : String) (hwf : size_wf v = true)
    (hr : (size_kb v : Int) < 2 ^ 63) :
    amount v = (size_kb v : Int) ∧ strchr_found v '@' = false := by
  have hwf0 := hwf
  unfold size_wf at hwf
  simp only [Bool.and_eq_true, Bool.not_eq_true', Option.isSome_iff_exists] at hwf
  obtain ⟨hds, m, hm⟩ := hwf
  have hsplit : v.data.takeWhile c_isdigit ++ v.data.dropWhile c_isdigit = v.data :=
    List.takeWhile_append_dropWhile _ _
  obtain ⟨d, tl, hv, hd⟩ : ∃ d tl, v.data = d :: tl ∧ c_isdigit d = true := by
    cases hv : v.data with
    | nil => simp [hv] at hds
    | cons d tl =>
      refine ⟨d, tl, rfl, ?_⟩
      by_contra hd
      simp [hv, List.takeWhile_cons, hd] at hds
  have hst := strtol_of_digit v.data d tl hv hd
  have hkb : size_kb v = dec_value (v.data.takeWhile c_isdigit) * m := by
    unfold size_kb
    rw [hm]
    rfl
  have hm1 : 1 ≤ m := by
    unfold unit_kb at hm
    split at hm
    · simp at hm; omega
    · split_ifs at hm <;> simp at hm <;> omega
    · simp at hm
  have hdec : (dec_value (v.data.takeWhile c_isdigit) : Int) < 2 ^ 63 := by
    have : dec_value (v.data.takeWhile c_isdigit) ≤ size_kb v := by
      rw [hkb]
      exact Nat.le_mul_of_pos_right _ hm1
    have h2 : ((dec_value (v.data.takeWhile c_isdigit) : Nat) : Int) ≤ (size_kb v : Int) := by
      exact_mod_cast this
    omega
  have hclamp : ¬ (dec_value (v.data.takeWhile c_isdigit) : Int) > LONG_MAX := by
    unfold LONG_MAX
    norm_num at hdec ⊢
    omega
  rw [if_neg hclamp] at hst
  have hnoat : strchr_found v '@' = false := size_wf_not_indirect v hwf0
  refine ⟨?_, hnoat⟩
  unfold amount
  rw [hst]
  simp only []
  unfold unit_kb at hm
  split at hm
  · rename_i hnil
    simp only [hnil, strpbrk_size_nil, Bool.false_eq_true, if_false]
    simp only [Option.some.injEq] at hm
    rw [hkb, ← hm]
    simp
  · rename_i x b hxb
    have hsz : ∀ c : Char, c ∈ size_letters → strpbrk_size [c, b] = true := by
      intro c hc
      unfold strpbrk_size
      have : size_letters.contains c = true := List.elem_eq_true_of_mem hc
      simp only [List.any_cons, this, Bool.true_or]
    have hwrap : ∀ k : Nat, dec_value (v.data.takeWhile c_isdigit) * k = size_kb v →
        wrap_ll ((dec_value (v.data.takeWhile c_isdigit) : Int) * (k : Int)) = (size_kb v : Int) := by
      intro k hk
      have : ((dec_value (v.data.takeWhile c_isdigit) : Int) * (k : Int)) = (size_kb v : Int) := by
        exact_mod_cast hk
      rw [this]
      exact wrap_ll_eq_self _ (by omega) hr
    rw [hxb]
    split_ifs at hm with hb h1 h2 h3 h4
    · simp only [Option.some.injEq] at hm
      subst hm
      have hl : x ∈ size_letters := by rcases h1 with e | e <;> subst e <;> decide
      simp only [hsz x hl, if_true, head_char, adjust_amount]
      have e1 : ¬ (x = 'm' ∨ x = 'M') := by rcases h1 with e | e <;> subst e <;> decide
      have e2 : ¬ (x = 'g' ∨ x = 'G') := by rcases h1 with e | e <;> subst e <;> decide
      have e3 : ¬ (x = 't' ∨ x = 'T') := by rcases h1 with e | e <;> subst e <;> decide
      have e4 : ¬ (x = 'p' ∨ x = 'P') := by rcases h1 with e | e <;> subst e <;> decide
      have e5 : ¬ (x ≠ 'k' ∧ x ≠ 'K') := by rcases h1 with e | e <;> subst e <;> decide
      simp only [e1, e2, e3, e4, e5, if_false]
      rw [hkb]
      simp
    · simp only [Option.some.injEq] at hm
      subst hm
      have hl : x ∈ size_letters := by rcases h2 with e | e <;> subst e <;> decide
      simp only [hsz x hl, if_true, head_char, adjust_amount, h2]
      have := hwrap (2 ^ 10) hkb.symm
      exact_mod_cast this
    · simp only [Option.some.injEq] at hm
      subst hm
      have hl : x ∈ size_letters := by rcases h3 with e | e <;> subst e <;> decide
      simp only [hsz x hl, if_true, head_char, adjust_amount, h2, h3, if_false]
      have := hwrap (2 ^ 20) hkb.symm
      exact_mod_cast this
    · simp only [Option.some.injEq] at hm
      subst hm
      have hl : x ∈ size_letters := by rcases h4 with e | e <;> subst e <;> decide
      simp only [hsz x hl, if_true, head_char, adjust_amount, h2, h3, h4, if_false]
      have := hwrap (2 ^ 30) hkb.symm
      exact_mod_cast this
  · simp at hm

/-- The running sum over vnodes whose values are well-formed sizes is the arithmetic
sum of their values in kilobytes, as long as it fits in a `long long`. -/
theorem sum_over_eq_kb (attrn R : String) :
    ∀ (ns : List batch_status) (s : Int), 0 ≤ s →
      (∀ n ∈ ns, ∀ v, get_resource_value attrn R n.attribs = some v → size_wf v = true) →
      s + ((ns.map (vnode_kb attrn R)).sum : Nat) < 2 ^ 63 →
      sum_over attrn R s ns = s + ((ns.map (vnode_kb attrn R)).sum : Nat) := by
  intro ns
  induction ns with
  | nil => intro s _ _ _; simp [sum_over]
  | cons n rest ih =>
    intro s hs hwf hr
    have hwf2 : ∀ m ∈ rest, ∀ v, get_resource_value attrn R m.attribs = some v →
        size_wf v = true := fun m hm => hwf m (List.mem_cons_of_mem _ hm)
    simp only [List.map_cons, List.sum_cons, Nat.cast_add] at hr ⊢
    have hstep : sum_over attrn R s (n :: rest) =
        sum_over attrn R (sum_add s (summed (get_resource_value attrn R n.attribs))) rest := rfl
    rw [hstep]
    cases hv : get_resource_value attrn R n.attribs with
    | none =>
      have h0 : vnode_kb attrn R n = 0 := by simp [vnode_kb, hv]
      rw [h0] at hr ⊢
      simp only [summed, sum_add, Nat.cast_zero, zero_add] at hr ⊢
      exact ih s hs hwf2 hr
    | some v =>
      have hk : vnode_kb attrn R n = size_kb v := by simp [vnode_kb, hv]
      rw [hk] at hr ⊢
      have hnn : (0 : Int) ≤ ((rest.map (vnode_kb attrn R)).sum : Nat) := Int.ofNat_nonneg _
      have hnn2 : (0 : Int) ≤ (size_kb v : Nat) := Int.ofNat_nonneg _
      obtain ⟨ham, hat⟩ := amount_of_size_wf v (hwf n (List.mem_cons_self _ _) v hv)
        (by omega)
      simp only [summed, hat, Bool.false_eq_true, if_false, sum_add, ham]
      rw [wrap_ll_eq_self _ (by omega) (by omega)]
      rw [ih _ (by omega) hwf2 (by omega)]
      omega

theorem found_value_wf (pbs : List batch_status) (R : String) (hexact : exact_names pbs)
    (hwf : sizes_wf R pbs) (attrn : String)
    (hattr : attrn = ATTR_rescavail ∨ attrn = ATTR_rescassn)
    (n : batch_status) (hn : n ∈ pbs) (v : String)
    (hv : get_resource_value attrn R n.attribs = some v) : size_wf v = true := by
  obtain ⟨a, ha, h1, h2, h3⟩ := get_resource_value_mem attrn R n.attribs v hv
  have hname : a.name = attrn := by
    rcases hattr with h | h
    · subst h; exact (hexact n hn a ha).1 h1
    · subst h; exact (hexact n hn a ha).2 h1
  rw [← h3]
  exact hwf n hn a ha (by rw [hname]; exact hattr) h2

/-- C4 (amended). Let the attribute names be spelled exactly, let host `H` have at
least two vnodes, let `R` be a consumable resource carried by some vnode of `H`, let
every value of `R` be a decimal integer optionally followed by `kb`, `mb`, `gb` or
`tb`, and let the sums fit in a `long long`.  Then the aggregate entry of `H` reports
`resources_available.R` and `resources_assigned.R` as the decimal sum over the vnodes
of `H` of the values of `R` in kilobytes (a value without suffix counting as its
number), followed by `kb` exactly when some value of `R` on a vnode of the list
carries a size letter. -/
theorem stathost_consumable_sum (pbs : List batch_status) (H R : String)
    (hH : H ≠ "") (hmulti : 2 ≤ (host_vnodes H pbs).length)
    (hexact : exact_names pbs) (hcons : is_consumable R pbs = true)
    (hwf : sizes_wf R pbs)
    (hcarry : ∃ n ∈ host_vnodes H pbs,
      get_resource_value ATTR_rescavail R n.attribs ≠ none ∨
        get_resource_value ATTR_rescassn R n.attribs ≠ none)
    (hra : host_kb ATTR_rescavail R H pbs < 2 ^ 63)
    (hrs : host_kb ATTR_rescassn R H pbs < 2 ^ 63) :
    ∃ e : batch_status, __pbs_stathost pbs (some H) = ([e], none) ∧ e.name = H ∧
      get_resource_value ATTR_rescavail R e.attribs =
        some (toString (host_kb ATTR_rescavail R H pbs) ++
          (if has_size_value R pbs then "kb" else "")) ∧
      get_resource_value ATTR_rescassn R e.attribs =
        some (toString (host_kb ATTR_rescassn R H pbs) ++
          (if has_size_value R pbs then "kb" else "")) := by
  refine ⟨_, stathost_multi_vnode pbs H hH hmulti, rfl, ?_⟩
  have hagg := consumable_aggregate pbs H R hexact hcons
  have hsub : ∀ n ∈ host_vnodes H pbs, n ∈ pbs := fun n hn => (List.mem_filter.mp hn).1
  have hval : ∀ attrn, attrn = ATTR_rescavail ∨ attrn = ATTR_rescassn →
      ∀ n ∈ host_vnodes H pbs, ∀ v, get_resource_value attrn R n.attribs = some v →
        size_wf v = true :=
    fun attrn hattr n hn v hv => found_value_wf pbs R hexact hwf attrn hattr n (hsub n hn) v hv
  have hany : (host_vnodes H pbs).any (carries R) = true := by
    obtain ⟨n, hn, hv⟩ := hcarry
    rw [List.any_eq_true]
    refine ⟨n, hn, ?_⟩
    unfold carries
    rcases hv with hv | hv
    · cases hg : get_resource_value ATTR_rescavail R n.attribs with
      | none => exact absurd hg hv
      | some v =>
        simp [summed, size_wf_not_indirect v (hval _ (Or.inl rfl) n hn v hg)]
    · cases hg : get_resource_value ATTR_rescassn R n.attribs with
      | none => exact absurd hg hv
      | some v =>
        simp [summed, size_wf_not_indirect v (hval _ (Or.inr rfl) n hn v hg)]
  have hsa := sum_over_eq_kb ATTR_rescavail R (host_vnodes H pbs) 0 (le_refl _)
    (hval _ (Or.inl rfl)) (by unfold host_kb at hra; simp only [zero_add]; exact_mod_cast hra)
  have hss := sum_over_eq_kb ATTR_rescassn R (host_vnodes H pbs) 0 (le_refl _)
    (hval _ (Or.inr rfl)) (by unfold host_kb at hrs; simp only [zero_add]; exact_mod_cast hrs)
  simp only [zero_add] at hsa hss
  rw [hagg.1, hagg.2, hany, hsa, hss]
  unfold sum_text host_kb
  simp only [if_true, fmt_lld_nat]
  cases has_size_value R pbs <;> simp

/-- Witness of C4: the vnodes of `demo_vnodes`, with `mem` 4gb and 8gb available (1gb
and 0kb assigned) and `ncpus` 4 and 8 assigned. -/
theorem stathost_consumable_sum_witness :
    (∃ e : batch_status, __pbs_stathost demo_vnodes (some "H") = ([e], none) ∧ e.name = "H" ∧
      get_resource_value ATTR_rescavail "mem" e.attribs = some "12582912kb" ∧
      get_resource_value ATTR_rescassn "mem" e.attribs = some "1048576kb") ∧
    (∃ e : batch_status, __pbs_stathost demo_vnodes (some "H") = ([e], none) ∧ e.name = "H" ∧
      get_resource_value ATTR_rescavail "ncpus" e.attribs = some "0" ∧
      get_resource_value ATTR_rescassn "ncpus" e.attribs = some "12") :=
  ⟨stathost_consumable_sum demo_vnodes "H" "mem" (by decide) (by decide) (by decide)
      (by decide) (by decide) ⟨demo_vn1, by decide, by decide⟩ (by decide)
      (by decide),
    stathost_consumable_sum demo_vnodes "H" "ncpus" (by decide) (by decide) (by decide)
      (by decide) (by decide) ⟨demo_vn1, by decide, by decide⟩ (by decide)
      (by decide)⟩

/-- Counterexample to C4 as stated: two vnodes of host `H` with `ncpus` assigned
`9223372036854775808` and `0`.  The values are decimal integers whose sum is
`9223372036854775808`, but `strtol` stops at `LONG_MAX` and the aggregate reports
`9223372036854775807`. -/
theorem stathost_sum_saturates :
    __pbs_stathost demo_big_vnodes (some "H") =
      ([{ name := "H", text := none,
          attribs := [⟨"resources_available", "host", "H"⟩,
                      ⟨"resources_available", "ncpus", "0"⟩,
                      ⟨"resources_assigned", "ncpus", "9223372036854775807"⟩] }], none) ∧
    host_kb ATTR_rescassn "ncpus" "H" demo_big_vnodes = 9223372036854775808 ∧
    toString (host_kb ATTR_rescassn "ncpus" "H" demo_big_vnodes) ≠ "9223372036854775807" := by
  refine ⟨by decide, by decide, by decide⟩

theorem build_host_list_from_absent (H : String) :
    ∀ (pbs : List batch_status) (node : Nat) (st : List host_list × List consumable),
      host_vnodes H pbs = [] →
      (((build_host_list_from node pbs st).1.find? (fun h => strcasecmp_eq H h.hl_name)).map
        (fun h => h.hl_node)) =
      (st.1.find? (fun h => strcasecmp_eq H h.hl_name)).map (fun h => h.hl_node) := by
  intro pbs
  induction pbs with
  | nil => intro node st _; rfl
  | cons n rest ih =>
    intro node st h
    simp only [host_vnodes, List.filter_cons] at h
    have hon : on_host H n = false := by
      by_contra hc
      simp only [Bool.not_eq_false] at hc
      simp [hc] at h
    simp only [hon, Bool.false_eq_true, if_false] at h
    simp only [build_host_list_from]
    rw [ih _ _ h]
    simp only
    cases hg : get_resource_value ATTR_rescavail "host" n.attribs with
    | none => rfl
    | some hostn =>
      have hc : strcasecmp_eq hostn H = false := by simpa [on_host, hg] using hon
      simp only [host_list_add_find, hc, Bool.false_eq_true, if_false]

/-- A host with exactly one vnode keeps a pointer to that vnode. -/
theorem build_host_list_from_single (H : String) (n : batch_status) :
    ∀ (pbs : List batch_status) (node : Nat) (st : List host_list × List consumable),
      (st.1.find? (fun h => strcasecmp_eq H h.hl_name)).map (fun h => h.hl_node) = none →
      host_vnodes H pbs = [n] →
      ∃ j, (((build_host_list_from node pbs st).1.find?
          (fun h => strcasecmp_eq H h.hl_name)).map (fun h => h.hl_node)) =
            some (some (node + j)) ∧ pbs.get? j = some n := by
  intro pbs
  induction pbs with
  | nil => intro node st _ h; simp [host_vnodes] at h
  | cons m rest ih =>
    intro node st hst h
    simp only [host_vnodes, List.filter_cons] at h
    simp only [build_host_list_from]
    by_cases hon : on_host H m = true
    · simp only [hon, if_true, List.cons.injEq] at h
      obtain ⟨hm, hrest⟩ := h
      subst hm
      refine ⟨0, ?_, rfl⟩
      rw [build_host_list_from_absent H rest _ _ hrest]
      simp only
      cases hg : get_resource_value ATTR_rescavail "host" m.attribs with
      | none => simp [on_host, hg] at hon
      | some hostn =>
        have hc : strcasecmp_eq hostn H = true := by simpa [on_host, hg] using hon
        simp only [host_list_add_find, hc, if_true, hst, Nat.add_zero]
    · simp only [hon, Bool.false_eq_true, if_false] at h
      have hst2 : ((match get_resource_value ATTR_rescavail "host" m.attribs with
            | some hostn => host_list_add hostn node st.1
            | none => st.1).find? (fun (h : host_list) => strcasecmp_eq H h.hl_name)).map
          (fun (h : host_list) => h.hl_node) = none := by
        cases hg : get_resource_value ATTR_rescavail "host" m.attribs with
        | none => exact hst
        | some hostn =>
          have hc : strcasecmp_eq hostn H = false := by simpa [on_host, hg] using hon
          simp only [host_list_add_find, hc, Bool.false_eq_true, if_false]
          exact hst
      obtain ⟨j, hj, hget⟩ := ih (node + 1)
        ((match get_resource_value ATTR_rescavail "host" m.attribs with
            | some hostn => host_list_add hostn node st.1
            | none => st.1), node_consumables m.attribs st.2) hst2 h
      refine ⟨j + 1, ?_, by simpa using hget⟩
      rw [hj]
      congr 2
      omega

/-- The reply of a query for a host that has exactly one vnode: the entry of that
vnode, with its attribute list. -/
theorem stathost_single_vnode (pbs : List batch_status) (H : String) (hH : H ≠ "")
    (n : batch_status) (hone : host_vnodes H pbs = [n]) :
    __pbs_stathost pbs (some H) =
      ([{ name := n.name, attribs := n.attribs, text := n.text }], none) := by
  have hne : pbs.isEmpty = false := by
    cases pbs with
    | nil => simp [host_vnodes] at hone
    | cons a b => rfl
  obtain ⟨j, hfind, hget⟩ := build_host_list_from_single H n pbs 0 ([], []) rfl hone
  have hid : ¬ ((some H : Option String) = none ∨ some H = some "") := by
    simp [hH]
  unfold __pbs_stathost
  simp only [hne, Bool.false_eq_true, if_false, hid, Option.getD_some]
  unfold build_return_status
  change ((build_host_list pbs).1.find? (fun h => strcasecmp_eq H h.hl_name)).map
    (fun h => h.hl_node) = some (some (0 + j)) at hfind
  cases hf : (build_host_list pbs).1.find? (fun h => strcasecmp_eq H h.hl_name) with
  | none => simp [hf] at hfind
  | some e =>
    have he : e.hl_node = some j := by simpa [hf] using hfind
    simp only [he, hget, List.nil_append]

/-- The reply of a query for a host that no vnode of a non-empty list has: nothing,
with `pbs_errno` set to `PBSE_UNKNODE`. -/
theorem stathost_unknown_host (pbs : List batch_status) (H : String) (hH : H ≠ "")
    (hpbs : pbs ≠ []) (hnone : host_vnodes H pbs = []) :
    __pbs_stathost pbs (some H) = ([], some PBSE_UNKNODE) := by
  have hne : pbs.isEmpty = false := by
    cases pbs with
    | nil => exact absurd rfl hpbs
    | cons a b => rfl
  have hfind := build_host_list_from_absent H pbs 0 ([], []) hnone
  have hid : ¬ ((some H : Option String) = none ∨ some H = some "") := by
    simp [hH]
  unfold __pbs_stathost
  simp only [hne, Bool.false_eq_true, if_false, hid, Option.getD_some]
  unfold build_return_status
  change ((build_host_list pbs).1.find? (fun h => strcasecmp_eq H h.hl_name)).map
    (fun h => h.hl_node) = none at hfind
  cases hf : (build_host_list pbs).1.find? (fun h => strcasecmp_eq H h.hl_name) with
  | none => rfl
  | some e => simp [hf] at hfind

theorem differ_step_fold (V : String) :
    ∀ (vals : List String) (s : String),
      vals.foldl (differ_step V) (some s) =
        if vals.all (fun x => strcasecmp_eq s x) then some s else some V := by
  have habs : ∀ vals : List String, vals.foldl (differ_step V) (some V) = some V := by
    intro vals
    induction vals with
    | nil => rfl
    | cons x rest ih =>
      simp only [List.foldl_cons, differ_step]
      split <;> exact ih
  intro vals
  induction vals with
  | nil => intro s; rfl
  | cons x rest ih =>
    intro s
    simp only [List.foldl_cons, differ_step, List.all_cons]
    by_cases hx : strcasecmp_eq s x = true
    · simp only [hx, Bool.not_true, Bool.false_eq_true, if_false, Bool.true_and]
      exact ih s
    · have hxf : strcasecmp_eq s x = false := by simpa using hx
      simp only [hxf, Bool.not_false, if_true, Bool.false_and, Bool.false_eq_true, if_false]
      exact habs rest

theorem differ_fold_none (V : String) (vals : List String) :
    vals.foldl (differ_step V) none = differ_value V vals := by
  cases vals with
  | nil => rfl
  | cons v rest => exact differ_step_fold V rest v

theorem agree_value_perm (V : String) {l1 l2 : List String} (h : l1.Perm l2) :
    agree_value V l1 = agree_value V l2 := by
  cases l1 with
  | nil =>
    have : l2 = [] := by simpa using h.symm.eq_nil
    rw [this]
  | cons v r1 =>
    cases l2 with
    | nil => exact absurd h.eq_nil (by simp)
    | cons w r2 =>
      simp only [agree_value]
      by_cases h1 : r1.all (fun x => decide (x = v)) = true
      · have hall1 : ∀ x ∈ v :: r1, x = v := by
          intro x hx
          rcases List.mem_cons.mp hx with e | e
          · exact e
          · rw [List.all_eq_true] at h1
            simpa using h1 x e
        have hall2 : ∀ x ∈ w :: r2, x = v := fun x hx => hall1 x (h.symm.subset hx)
        have hw : w = v := hall2 w (List.mem_cons_self _ _)
        have h2 : r2.all (fun x => decide (x = w)) = true := by
          rw [List.all_eq_true]
          intro x hx
          simp [hall2 x (List.mem_cons_of_mem _ hx), hw]
        subst hw
        simp only [h1, h2, if_true]
      · have h2 : ¬ r2.all (fun x => decide (x = w)) = true := by
          intro h2
          apply h1
          have hall2 : ∀ x ∈ w :: r2, x = w := by
            intro x hx
            rcases List.mem_cons.mp hx with e | e
            · exact e
            · rw [List.all_eq_true] at h2
              simpa using h2 x e
          have hall1 : ∀ x ∈ v :: r1, x = w := fun x hx => hall2 x (h.subset hx)
          have hv : v = w := hall1 v (List.mem_cons_self _ _)
          rw [List.all_eq_true]
          intro x hx
          simp [hall1 x (List.mem_cons_of_mem _ hx), hv]
        simp only [h1, h2, if_false, Bool.false_eq_true]

theorem differ_value_perm (V : String) {l1 l2 : List String} (h : l1.Perm l2) :
    same_ignoring_case (differ_value V l1) (differ_value V l2) := by
  cases l1 with
  | nil =>
    have : l2 = [] := by simpa using h.symm.eq_nil
    rw [this]
    simp [differ_value, same_ignoring_case]
  | cons v r1 =>
    cases l2 with
    | nil => exact absurd h.eq_nil (by simp)
    | cons w r2 =>
      simp only [differ_value]
      by_cases h1 : r1.all (fun x => strcasecmp_eq v x) = true
      · have hall1 : ∀ x ∈ v :: r1, strcasecmp_eq v x = true := by
          intro x hx
          rcases List.mem_cons.mp hx with e | e
          · rw [e]; exact strcasecmp_eq_refl v
          · rw [List.all_eq_true] at h1
            exact h1 x e
        have hall2 : ∀ x ∈ w :: r2, strcasecmp_eq v x = true :=
          fun x hx => hall1 x (h.symm.subset hx)
        have hw : strcasecmp_eq v w = true := hall2 w (List.mem_cons_self _ _)
        have h2 : r2.all (fun x => strcasecmp_eq w x) = true := by
          rw [List.all_eq_true]
          intro x hx
          exact strcasecmp_eq_trans (by rw [strcasecmp_eq_symm]; exact hw)
            (hall2 x (List.mem_cons_of_mem _ hx))
        simp only [h1, h2, if_true, same_ignoring_case]
        exact hw
      · have h2 : ¬ r2.all (fun x => strcasecmp_eq w x) = true := by
          intro h2
          apply h1
          have hall2 : ∀ x ∈ w :: r2, strcasecmp_eq w x = true := by
            intro x hx
            rcases List.mem_cons.mp hx with e | e
            · rw [e]; exact strcasecmp_eq_refl w
            · rw [List.all_eq_true] at h2
              exact h2 x e
          have hall1 : ∀ x ∈ v :: r1, strcasecmp_eq w x = true :=
            fun x hx => hall2 x (h.subset hx)
          have hv : strcasecmp_eq w v = true := hall1 v (List.mem_cons_self _ _)
          rw [List.all_eq_true]
          intro x hx
          exact strcasecmp_eq_trans (by rw [strcasecmp_eq_symm]; exact hv)
            (hall1 x (List.mem_cons_of_mem _ hx))
        simp only [h1, h2, if_false, same_ignoring_case]
        exact strcasecmp_eq_refl V

theorem any_perm {α : Type} (p : α → Bool) {l1 l2 : List α} (h : l1.Perm l2) :
    l1.any p = l2.any p := by
  rw [Bool.eq_iff_iff, List.any_eq_true, List.any_eq_true]
  constructor
  · rintro ⟨x, hx, hp⟩; exact ⟨x, h.subset hx, hp⟩
  · rintro ⟨x, hx, hp⟩; exact ⟨x, h.symm.subset hx, hp⟩

theorem isEmpty_perm {α : Type} {l1 l2 : List α} (h : l1.Perm l2) :
    l1.isEmpty = l2.isEmpty := by
  cases l1 with
  | nil =>
    have : l2 = [] := by simpa using h.symm.eq_nil
    rw [this]
  | cons a r =>
    cases l2 with
    | nil => exact absurd h.eq_nil (by simp)
    | cons b s => rfl

theorem sum_add_comm (s : Int) (x y : Option Int) :
    sum_add (sum_add s x) y = sum_add (sum_add s y) x := by
  cases x with
  | none => rfl
  | some a =>
    cases y with
    | none => rfl
    | some b =>
      simp only [sum_add, wrap_ll]
      have h1 : (Int.bmod (s + a) (2 ^ 64) + b).bmod (2 ^ 64) = (s + a + b).bmod (2 ^ 64) :=
        Int.bmod_add_bmod_congr
      have h2 : (Int.bmod (s + b) (2 ^ 64) + a).bmod (2 ^ 64) = (s + b + a).bmod (2 ^ 64) :=
        Int.bmod_add_bmod_congr
      rw [h1, h2]
      congr 1
      ring

theorem sum_over_perm (attrn R : String) (s : Int) {l1 l2 : List batch_status}
    (h : l1.Perm l2) : sum_over attrn R s l1 = sum_over attrn R s l2 := by
  unfold sum_over
  exact h.foldl_eq' (fun x _ y _ z => sum_add_comm z _ _) s

theorem host_vnodes_perm (H : String) {l1 l2 : List batch_status} (h : l1.Perm l2) :
    (host_vnodes H l1).Perm (host_vnodes H l2) :=
  h.filter _

theorem discovers_filter_perm (R : String) {l1 l2 : List batch_status} (h : l1.Perm l2) :
    ((all_attribs l1).filter (discovers R)).Perm ((all_attribs l2).filter (discovers R)) := by
  unfold all_attribs
  exact (h.flatMap_right _).filter _

theorem is_consumable_perm (R : String) {l1 l2 : List batch_status} (h : l1.Perm l2) :
    is_consumable R l1 = is_consumable R l2 :=
  any_perm _ (discovers_filter_perm R h)

theorem has_size_value_perm (R : String) {l1 l2 : List batch_status} (h : l1.Perm l2) :
    has_size_value R l1 = has_size_value R l2 :=
  any_perm _ (discovers_filter_perm R h)

theorem exact_names_perm {l1 l2 : List batch_status} (h : l1.Perm l2) (he : exact_names l1) :
    exact_names l2 :=
  fun n hn a ha => he n (h.symm.subset hn) a ha

/-- C6 (amended). Let two lists of vnodes be permutations of each other and let `H`
be a host name.  If `H` has at most one vnode the two queries for `H` return the same
reply.  If `H` has several vnodes both queries return one aggregate entry, and the
two entries report the same sums for every consumable resource when the attribute
names are spelled exactly, the same value up to letter case (or `<various>` in both)
for every resource that is not consumable, and the same value for every attribute of
the table other than `jobs`. -/
theorem stathost_permutation (pbs1 pbs2 : List batch_status) (H : String)
    (hperm : pbs1.Perm pbs2) (hH : H ≠ "") :
    ((host_vnodes H pbs1).length ≤ 1 →
      __pbs_stathost pbs1 (some H) = __pbs_stathost pbs2 (some H)) ∧
    (2 ≤ (host_vnodes H pbs1).length →
      ∃ e1 e2 : batch_status,
        __pbs_stathost pbs1 (some H) = ([e1], none) ∧
        __pbs_stathost pbs2 (some H) = ([e2], none) ∧
        e1.name = e2.name ∧
        (∀ R, is_consumable R pbs1 = true → exact_names pbs1 →
          get_resource_value ATTR_rescavail R e1.attribs =
            get_resource_value ATTR_rescavail R e2.attribs ∧
          get_resource_value ATTR_rescassn R e1.attribs =
            get_resource_value ATTR_rescassn R e2.attribs) ∧
        (∀ R, is_consumable R pbs1 = false →
          same_ignoring_case (get_resource_value ATTR_rescavail R e1.attribs)
            (get_resource_value ATTR_rescavail R e2.attribs) ∧
          get_resource_value ATTR_rescassn R e1.attribs =
            get_resource_value ATTR_rescassn R e2.attribs) ∧
        (∀ an ∈ attr_names, an ≠ ATTR_NODE_jobs →
          attr_value an e1.attribs = attr_value an e2.attribs)) := by
  have hhv := host_vnodes_perm H hperm
  constructor
  · intro hle
    cases hv : host_vnodes H pbs1 with
    | nil =>
      have hv2 : host_vnodes H pbs2 = [] := by
        rw [hv] at hhv
        simpa using hhv.symm.eq_nil
      cases hp : pbs1 with
      | nil =>
        have hp2 : pbs2 = [] := by
          rw [hp] at hperm
          simpa using hperm.symm.eq_nil
        rw [hp2]
      | cons a r =>
        have h1 : pbs1 ≠ [] := by rw [hp]; simp
        have h2 : pbs2 ≠ [] := fun e => h1 (by rw [e] at hperm; exact hperm.eq_nil)
        rw [← hp, stathost_unknown_host pbs1 H hH h1 hv,
          stathost_unknown_host pbs2 H hH h2 hv2]
    | cons n rest =>
      have hrest : rest = [] := by
        rw [hv] at hle
        simp only [List.length_cons] at hle
        exact List.length_eq_zero.mp (by omega)
      subst hrest
      have hv2 : host_vnodes H pbs2 = [n] := by
        rw [hv] at hhv
        exact List.perm_singleton.mp hhv.symm
      rw [stathost_single_vnode pbs1 H hH n hv, stathost_single_vnode pbs2 H hH n hv2]
  · intro hmulti
    have hmulti2 : 2 ≤ (host_vnodes H pbs2).length := by
      rw [← hhv.length_eq]; exact hmulti
    refine ⟨_, _, stathost_multi_vnode pbs1 H hH hmulti,
      stathost_multi_vnode pbs2 H hH hmulti2, rfl, ?_, ?_, ?_⟩
    · intro R hcons hexact
      have hcons2 : is_consumable R pbs2 = true := by
        rw [← is_consumable_perm R hperm]; exact hcons
      have h1 := consumable_aggregate pbs1 H R hexact hcons
      have h2 := consumable_aggregate pbs2 H R (exact_names_perm hperm hexact) hcons2
      simp only []
      rw [h1.1, h1.2, h2.1, h2.2, any_perm (carries R) hhv,
        sum_over_perm ATTR_rescavail R 0 hhv, sum_over_perm ATTR_rescassn R 0 hhv,
        has_size_value_perm R hperm]
      exact ⟨rfl, rfl⟩
    · intro R hcons
      have hcons2 : is_consumable R pbs2 = false := by
        rw [← is_consumable_perm R hperm]; exact hcons
      have h1 := plain_aggregate pbs1 H R hcons
      have h2 := plain_aggregate pbs2 H R hcons2
      simp only []
      rw [h1.1, h1.2, h2.1, h2.2, isEmpty_perm (discovers_filter_perm R hperm),
        differ_fold_none, differ_fold_none]
      refine ⟨?_, rfl⟩
      split
      · simp [same_ignoring_case]
      · apply differ_value_perm
        unfold avail_values
        exact hhv.filterMap _
    · intro an han hjobs
      simp only []
      unfold host_aggregate
      rw [build_collective_attr pbs1 H an _ han hjobs, build_collective_attr pbs2 H an _ han hjobs]
      apply agree_value_perm
      unfold host_attr_values
      exact hhv.flatMap_right _

/-- Witness of C6: the two vnodes of `demo_vnodes` in both orders. -/
theorem stathost_permutation_witness :
    ((host_vnodes "H" [demo_vn1, demo_vn2]).length ≤ 1 →
      __pbs_stathost [demo_vn1, demo_vn2] (some "H") =
        __pbs_stathost [demo_vn2, demo_vn1] (some "H")) ∧
    (2 ≤ (host_vnodes "H" [demo_vn1, demo_vn2]).length →
      ∃ e1 e2 : batch_status,
        __pbs_stathost [demo_vn1, demo_vn2] (some "H") = ([e1], none) ∧
        __pbs_stathost [demo_vn2, demo_vn1] (some "H") = ([e2], none) ∧
        e1.name = e2.name ∧
        (∀ R, is_consumable R [demo_vn1, demo_vn2] = true →
          exact_names [demo_vn1, demo_vn2] →
          get_resource_value ATTR_rescavail R e1.attribs =
            get_resource_value ATTR_rescavail R e2.attribs ∧
          get_resource_value ATTR_rescassn R e1.attribs =
            get_resource_value ATTR_rescassn R e2.attribs) ∧
        (∀ R, is_consumable R [demo_vn1, demo_vn2] = false →
          same_ignoring_case (get_resource_value ATTR_rescavail R e1.attribs)
            (get_resource_value ATTR_rescavail R e2.attribs) ∧
          get_resource_value ATTR_rescassn R e1.attribs =
            get_resource_value ATTR_rescassn R e2.attribs) ∧
        (∀ an ∈ attr_names, an ≠ ATTR_NODE_jobs →
          attr_value an e1.attribs = attr_value an e2.attribs)) :=
  stathost_permutation [demo_vn1, demo_vn2] [demo_vn2, demo_vn1] "H"
    (List.Perm.swap demo_vn2 demo_vn1 []) (by decide)

/-- Counterexample to C6 as stated.  First, two vnodes whose `arch` values differ in
letter case only: the aggregate reports the value of whichever vnode comes first.
Second, two vnodes of which one spells the attribute name `Resources_Assigned`: the
sum of `mem` depends on the order (`1025kb` or `2kb`). -/
theorem stathost_order_dependent :
    demo_case_vnodes.reverse.Perm demo_case_vnodes ∧
    (__pbs_stathost demo_case_vnodes (some "H")).1.map
        (fun e => get_resource_value ATTR_rescavail "arch" e.attribs) = [some "linux"] ∧
    (__pbs_stathost demo_case_vnodes.reverse (some "H")).1.map
        (fun e => get_resource_value ATTR_rescavail "arch" e.attribs) = [some "Linux"] ∧
    is_consumable "mem" demo_spelling_vnodes = true ∧
    (__pbs_stathost demo_spelling_vnodes (some "H")).1.map
        (fun e => get_resource_value ATTR_rescassn "mem" e.attribs) = [some "1025kb"] ∧
    (__pbs_stathost demo_spelling_vnodes.reverse (some "H")).1.map
        (fun e => get_resource_value ATTR_rescassn "mem" e.attribs) = [some "2kb"] :=
  ⟨List.reverse_perm _, by decide, by decide, by decide, by decide, by decide⟩

/-! ## Part 10. Further theorems about the status requests, the host aggregation and
the object store -/

/-! ## Subjobs of an array job (`do_stat_of_a_job`) -/

theorem stat_all_subjobs_calls (srv : Server) (preq : batch_request) (pjob : job) :
    ∀ (n : Nat) (indx : Int) (rc : PbsError) (reply : List brp_status),
      rc_is_error rc = false →
      (stat_all_subjobs srv preq pjob n indx rc reply).2 =
          reply ++ (subjob_calls srv preq pjob (offsets_from indx n)).2 ∧
        (if rc_is_error (stat_all_subjobs srv preq pjob n indx rc reply).1 then
            (stat_all_subjobs srv preq pjob n indx rc reply).1
          else PBSE_NONE) =
          ((subjob_calls srv preq pjob (offsets_from indx n)).1).getD PBSE_NONE := by
  intro n
  induction n with
  | zero =>
    intro indx rc reply hrc
    simp [stat_all_subjobs, offsets_from, subjob_calls, hrc]
  | succ n ih =>
    intro indx rc reply _
    by_cases he : rc_is_error (srv.status_subjob pjob preq indx).1 = true
    · simp [stat_all_subjobs, offsets_from, subjob_calls, he]
    · have he' : rc_is_error (srv.status_subjob pjob preq indx).1 = false := by
        simpa using he
      have h := ih (indx + 1) (srv.status_subjob pjob preq indx).1
        (reply ++ (srv.status_subjob pjob preq indx).2) he'
      simp only [stat_all_subjobs, offsets_from, subjob_calls, he', Bool.false_eq_true,
        if_false]
      refine ⟨?_, h.2⟩
      rw [h.1, List.append_assoc]

/-- C11. For an array job that is not a subjob and is not excluded by the history
rule, whose tracking table has `C` subjobs: when expanding subjobs is requested and
`status_job` of the parent succeeds, `do_stat_of_a_job` appends the entries of the
parent and then calls `status_subjob` once for each offset `0, 1, ..., C - 1`, in
increasing order, up to and including the first call that returns an error other than
permission-denied; it returns that error, or `PBSE_NONE` when no call returns one, in
which case the reply holds the entries of all `C` calls.  Without the expand flag, or
for a job that is not an array job, the result is made of `status_job` alone:
`status_subjob` is not called. -/
theorem do_stat_of_a_job_expands_subjobs (srv : Server) (preq : batch_request)
    (reply : List brp_status) (pjob : job) (dh ds : Bool)
    (hsub : pjob.svflg_SubJob = false)
    (hhist : dh = true ∨
      (pjob.ji_state ≠ JOB_STATE_FINISHED ∧ pjob.ji_state ≠ JOB_STATE_MOVED)) :
    (∀ C : Int, ds = true → pjob.svflg_ArrayJob = true → pjob.ji_ajtrk = some C →
        (srv.status_job pjob preq).1 = PBSE_NONE →
        do_stat_of_a_job srv preq reply pjob dh ds =
            (((subjob_calls srv preq pjob (subjob_offsets C)).1).getD PBSE_NONE,
              reply ++ (srv.status_job pjob preq).2 ++
                (subjob_calls srv preq pjob (subjob_offsets C)).2) ∧
          ((∀ off ∈ subjob_offsets C,
              rc_is_error (srv.status_subjob pjob preq off).1 = false) →
            do_stat_of_a_job srv preq reply pjob dh ds =
              (PBSE_NONE,
                reply ++ (srv.status_job pjob preq).2 ++
                  subjob_entries srv preq pjob (subjob_offsets C)))) ∧
    ((ds = false ∨ pjob.svflg_ArrayJob = false) →
      do_stat_of_a_job srv preq reply pjob dh ds =
        ((if rc_is_error (srv.status_job pjob preq).1 then (srv.status_job pjob preq).1
          else PBSE_NONE),
          reply ++ (srv.status_job pjob preq).2)) := by
  have hgate : (!dh && (pjob.ji_state == JOB_STATE_FINISHED ||
      pjob.ji_state == JOB_STATE_MOVED)) = false := by
    rcases hhist with h | ⟨h1, h2⟩
    · simp [h]
    · simp [h1, h2]
  constructor
  · intro C hds harr htrk hrc
    have hcalls := stat_all_subjobs_calls srv preq pjob C.toNat 0 PBSE_NONE
      (reply ++ (srv.status_job pjob preq).2) (by decide)
    have hmain : do_stat_of_a_job srv preq reply pjob dh ds =
        (((subjob_calls srv preq pjob (subjob_offsets C)).1).getD PBSE_NONE,
          reply ++ (srv.status_job pjob preq).2 ++
            (subjob_calls srv preq pjob (subjob_offsets C)).2) := by
      unfold do_stat_of_a_job
      simp only [hgate, hsub, htrk, hds, harr, hrc, Bool.false_eq_true, if_false,
        Bool.not_false, if_true, Bool.and_self, decide_True, Bool.true_or, Bool.true_and]
      unfold subjob_offsets
      rw [← hcalls.1, ← hcalls.2]
      split <;> rfl
    refine ⟨hmain, fun hok => ?_⟩
    rw [hmain, subjob_calls_no_error srv preq pjob _ hok]
    rfl
  · intro hno
    unfold do_stat_of_a_job
    simp only [hgate, hsub, Bool.false_eq_true, if_false, Bool.not_false, if_true]
    cases htrk : pjob.ji_ajtrk with
    | none =>
      simp only []
      split <;> rfl
    | some C =>
      have hcond : (ds && pjob.svflg_ArrayJob &&
          (decide ((srv.status_job pjob preq).1 = PBSE_NONE) ||
            decide ((srv.status_job pjob preq).1 ≠ PBSE_PERM))) = false := by
        rcases hno with h | h <;> simp [h]
      simp only [hcond, Bool.false_eq_true, if_false]
      split <;> rfl

/-- Witness of C11: the array job of three subjobs with the expand flag, on a server
where every call succeeds, and on a server where the call for offset 1 fails; and
the same job without the expand flag. -/
theorem do_stat_of_a_job_expands_subjobs_witness :
    subjob_offsets 3 = [0, 1, 2] ∧
    do_stat_of_a_job demo_failing_server demo_request [] demo_array_job false true =
      (PBSE_SYSTEM,
        [{ brp_objtype := 2, brp_objname := "7[].svr", brp_attr := [] },
         { brp_objtype := 2, brp_objname := "0", brp_attr := [] }]) ∧
    ((∀ C : Int, true = true → demo_array_job.svflg_ArrayJob = true →
        demo_array_job.ji_ajtrk = some C →
        (demo_range_server.status_job demo_array_job demo_request).1 = PBSE_NONE →
        do_stat_of_a_job demo_range_server demo_request [] demo_array_job false true =
            (((subjob_calls demo_range_server demo_request demo_array_job
                (subjob_offsets C)).1).getD PBSE_NONE,
              [] ++ (demo_range_server.status_job demo_array_job demo_request).2 ++
                (subjob_calls demo_range_server demo_request demo_array_job
                  (subjob_offsets C)).2) ∧
          ((∀ off ∈ subjob_offsets C,
              rc_is_error
                (demo_range_server.status_subjob demo_array_job demo_request off).1 = false) →
            do_stat_of_a_job demo_range_server demo_request [] demo_array_job false true =
              (PBSE_NONE,
                [] ++ (demo_range_server.status_job demo_array_job demo_request).2 ++
                  subjob_entries demo_range_server demo_request demo_array_job
                    (subjob_offsets C)))) ∧
    ((true = false ∨ demo_array_job.svflg_ArrayJob = false) →
      do_stat_of_a_job demo_range_server demo_request [] demo_array_job false true =
        ((if rc_is_error (demo_range_server.status_job demo_array_job demo_request).1 then
            (demo_range_server.status_job demo_array_job demo_request).1
          else PBSE_NONE),
          [] ++ (demo_range_server.status_job demo_array_job demo_request).2))) :=
  ⟨by decide, by decide,
    do_stat_of_a_job_expands_subjobs demo_range_server demo_request [] demo_array_job false
      true (by decide) (Or.inr (by decide))⟩

/-! ## Transactions (`pbs_db_begin_trx`, `pbs_db_end_trx`) -/

theorem nested_inner_ne_nil (d : Nat) (calls : List trx_call)
    (h : nested_inner d calls = true) : calls ≠ [] := by
  intro hnil
  subst hnil
  simp [nested_inner] at h

theorem run_trx_ne_nil (db : Database) (RB : Int) (conn : pbs_db_conn_t)
    (calls : List trx_call) (h : calls ≠ []) : run_trx db RB conn calls ≠ [] := by
  cases calls with
  | nil => exact absurd rfl h
  | cons c rest => simp [run_trx]

theorem getLast?_cons_of_ne_nil {α : Type} (a : α) (l : List α) (h : l ≠ []) :
    (a :: l).getLast? = l.getLast? := by
  cases l with
  | nil => exact absurd rfl h
  | cons b l => exact List.getLast?_cons_cons

theorem dropLast_cons_of_ne_nil {α : Type} (a : α) (l : List α) (h : l ≠ []) :
    (a :: l).dropLast = a :: l.dropLast := by
  cases l with
  | nil => exact absurd rfl h
  | cons b l => rfl

theorem nested_inner_outcome (db : Database) (RB : Int) (hok : ∀ s, db.PQexec s = true) :
    ∀ (calls : List trx_call) (d : Nat) (conn : pbs_db_conn_t),
      nested_inner d calls = true → conn.conn_trx_nest = (d : Int) + 1 →
      ∃ r, (run_trx db RB conn calls).getLast? = some r ∧
        r.sent =
          [if conn.conn_trx_rollback = 1 ∨ calls.any (asks_rollback RB) = true then "ROLLBACK"
            else "END"] ∧
        r.rc =
          (if conn.conn_trx_rollback = 1 ∨ calls.dropLast.any (asks_rollback RB) = true then -2
            else 0) := by
  intro calls
  induction calls with
  | nil => intro d conn h; simp [nested_inner] at h
  | cons c rest ih =>
    intro d conn h hn
    cases c with
    | begin_trx il async =>
      have hrest : nested_inner (d + 1) rest = true := by simpa [nested_inner] using h
      have hne := nested_inner_ne_nil _ _ hrest
      have hn0 : conn.conn_trx_nest ≠ 0 := by omega
      have hstep : trx_step db RB conn (trx_call.begin_trx il async) =
          { rc := 0, conn := { conn with conn_trx_nest := conn.conn_trx_nest + 1 },
            sent := [] } := by
        simp [trx_step, pbs_db_begin_trx, hn0]
      obtain ⟨r, h1, h2, h3⟩ := ih (d + 1)
        { conn with conn_trx_nest := conn.conn_trx_nest + 1 } hrest
        (by simp only [hn]; push_cast; ring)
      refine ⟨r, ?_, ?_, ?_⟩
      · simp only [run_trx, hstep]
        rw [getLast?_cons_of_ne_nil _ _ (run_trx_ne_nil db RB _ rest hne)]
        exact h1
      · rw [h2]
        simp [asks_rollback]
      · rw [h3, dropLast_cons_of_ne_nil _ _ hne]
        simp [asks_rollback]
    | end_trx commit =>
      cases d with
      | zero =>
        have hrest : rest = [] := by simpa [nested_inner] using h
        subst hrest
        have hn1 : conn.conn_trx_nest = 1 := by simpa using hn
        refine ⟨trx_step db RB conn (trx_call.end_trx commit), by simp [run_trx], ?_, ?_⟩
        · simp only [trx_step, pbs_db_end_trx, hn1, hok]
          by_cases hc : commit = RB <;> by_cases hf : conn.conn_trx_rollback = 1 <;>
            simp [hc, hf, asks_rollback]
        · simp only [trx_step, pbs_db_end_trx, hn1, hok]
          by_cases hc : commit = RB <;> by_cases hf : conn.conn_trx_rollback = 1 <;>
            simp [hc, hf]
      | succ d =>
        have hrest : nested_inner d rest = true := by simpa [nested_inner] using h
        have hne := nested_inner_ne_nil _ _ hrest
        have hn0 : conn.conn_trx_nest ≠ 0 := by omega
        have hn1 : conn.conn_trx_nest ≠ 1 := by push_cast at hn; omega
        have hstep : (trx_step db RB conn (trx_call.end_trx commit)).conn =
            { conn_trx_nest := conn.conn_trx_nest - 1,
              conn_trx_rollback := if commit = RB then 1 else conn.conn_trx_rollback } := by
          simp [trx_step, pbs_db_end_trx, hn0, hn1]
        obtain ⟨r, h1, h2, h3⟩ := ih d
          { conn_trx_nest := conn.conn_trx_nest - 1,
            conn_trx_rollback := if commit = RB then 1 else conn.conn_trx_rollback } hrest
          (by simp only [hn]; push_cast; ring)
        refine ⟨r, ?_, ?_, ?_⟩
        · simp only [run_trx]
          rw [getLast?_cons_of_ne_nil _ _ (run_trx_ne_nil db RB _ rest hne), hstep]
          exact h1
        · rw [h2]
          by_cases hc : commit = RB <;> simp [hc, asks_rollback]
        · rw [h3, dropLast_cons_of_ne_nil _ _ hne]
          by_cases hc : commit = RB <;> simp [hc, asks_rollback]

/-- C12. For every properly nested sequence of `pbs_db_begin_trx` / `pbs_db_end_trx`
calls on a connection that starts at nesting depth zero, when every database command
succeeds: the last call, which is the outermost `pbs_db_end_trx`, sends `ROLLBACK` if
it or any inner `pbs_db_end_trx` of the sequence was called with `PBS_DB_ROLLBACK` and
sends `END` otherwise; and it returns `-2` when an inner level asked for the rollback,
whatever its own argument, and `0` otherwise. -/
theorem end_trx_outermost_outcome (db : Database) (PBS_DB_ROLLBACK : Int)
    (conn : pbs_db_conn_t) (calls : List trx_call)
    (hok : ∀ s, db.PQexec s = true)
    (hnested : properly_nested calls = true)
    (hdepth : conn.conn_trx_nest = 0) :
    ∃ r, (run_trx db PBS_DB_ROLLBACK conn calls).getLast? = some r ∧
      r.sent =
        [if calls.any (asks_rollback PBS_DB_ROLLBACK) = true then "ROLLBACK" else "END"] ∧
      r.rc = (if calls.dropLast.any (asks_rollback PBS_DB_ROLLBACK) = true then -2 else 0) := by
  cases calls with
  | nil => simp [properly_nested] at hnested
  | cons c rest =>
    cases c with
    | end_trx commit => simp [properly_nested] at hnested
    | begin_trx il async =>
      have hrest : nested_inner 0 rest = true := by simpa [properly_nested] using hnested
      have hne := nested_inner_ne_nil _ _ hrest
      have hstep : (trx_step db PBS_DB_ROLLBACK conn (trx_call.begin_trx il async)).conn =
          { conn_trx_nest := 1, conn_trx_rollback := 0 } := by
        simp only [trx_step, pbs_db_begin_trx, hdepth, hok, if_true, Bool.not_true,
          Bool.false_eq_true, if_false, zero_add]
        split <;> rfl
      obtain ⟨r, h1, h2, h3⟩ := nested_inner_outcome db PBS_DB_ROLLBACK hok rest 0
        { conn_trx_nest := 1, conn_trx_rollback := 0 } hrest (by simp)
      refine ⟨r, ?_, ?_, ?_⟩
      · simp only [run_trx]
        rw [getLast?_cons_of_ne_nil _ _ (run_trx_ne_nil db PBS_DB_ROLLBACK _ rest hne), hstep]
        exact h1
      · rw [h2]
        simp [asks_rollback]
      · rw [h3, dropLast_cons_of_ne_nil _ _ hne]
        simp [asks_rollback]

/-- Witness of C12: two nested transactions, the inner one ends with a rollback and
the outer one with a commit; the outer end sends `ROLLBACK` and returns `-2`. -/
theorem end_trx_outermost_outcome_witness :
    (run_trx demo_database 1 demo_conn demo_calls).getLast? =
      some { rc := -2, conn := { conn_trx_nest := 0, conn_trx_rollback := 0 },
             sent := ["ROLLBACK"] } ∧
    ∃ r, (run_trx demo_database 1 demo_conn demo_calls).getLast? = some r ∧
      r.sent = [if demo_calls.any (asks_rollback 1) = true then "ROLLBACK" else "END"] ∧
      r.rc = (if demo_calls.dropLast.any (asks_rollback 1) = true then -2 else 0) :=
  ⟨by decide,
    end_trx_outermost_outcome demo_database 1 demo_conn demo_calls (fun _ => rfl) (by decide)
      (by decide)⟩

theorem active_jobs_eq (q : pbs_queue) :
    active_jobs q =
      counted_jobs q - (q.qu_njstate JOB_STATE_MOVED + q.qu_njstate JOB_STATE_FINISHED) := by
  simp only [active_jobs, counted_jobs, job_states]
  simp
  ring

/-- C14. `status_que` never modifies the counters `qu_njstate` or `qu_numjobs`.  For a
queue whose counters sum to `qu_numjobs` and a requester with read access, the
attribute `total_jobs` it sets is `qu_numjobs` when job history is not configured and
the sum of the counters of all states other than Moved and Finished when it is
configured; and, when the status entry can be allocated, this is the queue that the
attribute encoder reads to fill the entry it appends to the reply. -/
theorem status_que_total_jobs (C : status_constants) (svr_chk_history_conf : Bool)
    (status_attrib : pbs_queue → batch_request → Bool × List (String × String))
    (malloc_ok : Bool) (pque : pbs_queue) (preq : batch_request) (pstathd : List brp_status)
    (hsum : counted_jobs pque = pque.qu_numjobs) :
    (status_que C svr_chk_history_conf status_attrib malloc_ok pque preq pstathd).2.1.qu_njstate =
        pque.qu_njstate ∧
      (status_que C svr_chk_history_conf status_attrib malloc_ok pque preq
        pstathd).2.1.qu_numjobs = pque.qu_numjobs ∧
      (preq.rq_perm &&& C.ATR_DFLAG_RDACC ≠ 0 →
        (status_que C svr_chk_history_conf status_attrib malloc_ok pque preq
            pstathd).2.1.qu_attr_TotalJobs.at_long =
          (if svr_chk_history_conf then active_jobs pque else pque.qu_numjobs) ∧
        (malloc_ok = true →
          (status_que C svr_chk_history_conf status_attrib malloc_ok pque preq pstathd).2.2 =
            pstathd ++
              [{ brp_objtype := C.MGR_OBJ_QUEUE, brp_objname := pque.qu_name,
                 brp_attr :=
                  (status_attrib
                    (status_que C svr_chk_history_conf status_attrib malloc_ok pque preq
                      pstathd).2.1 preq).2 }])) := by
  refine ⟨?_, ?_, ?_⟩
  · unfold status_que
    dsimp only
    split_ifs <;> rfl
  · unfold status_que
    dsimp only
    split_ifs <;> rfl
  · intro hperm
    have hact := active_jobs_eq pque
    rw [hsum] at hact
    constructor
    · unfold status_que
      dsimp only
      simp only [hperm, if_false]
      cases svr_chk_history_conf
      · simp only [Bool.not_false, if_true, Bool.false_eq_true, if_false]
        split_ifs <;> rfl
      · simp only [Bool.not_true, Bool.false_eq_true, if_false, if_true, hact]
        split_ifs <;> rfl
    · intro hm
      subst hm
      unfold status_que
      dsimp only
      simp only [hperm, if_false, Bool.not_true, Bool.false_eq_true]
      split_ifs <;> rfl

/-- Witness of C14: a queue of six jobs of which one is moved and two are finished;
with job history configured `total_jobs` is 3. -/
theorem status_que_total_jobs_witness :
    (status_que demo_status_constants true demo_queue_encoder true demo_queue
        demo_all_request []).2.2 =
      [{ brp_objtype := 1, brp_objname := "workq",
         brp_attr := [("total_jobs", "3"),
           ("state_count",
            "Transit:0 Queued:2 Held:0 Waiting:0 Running:1 Exiting:0 Begun:0 ")] }] ∧
    ((status_que demo_status_constants true demo_queue_encoder true demo_queue
        demo_all_request []).2.1.qu_njstate = demo_queue.qu_njstate ∧
      (status_que demo_status_constants true demo_queue_encoder true demo_queue
        demo_all_request []).2.1.qu_numjobs = demo_queue.qu_numjobs ∧
      (demo_all_request.rq_perm &&& demo_status_constants.ATR_DFLAG_RDACC ≠ 0 →
        (status_que demo_status_constants true demo_queue_encoder true demo_queue
            demo_all_request []).2.1.qu_attr_TotalJobs.at_long =
          (if true then active_jobs demo_queue else demo_queue.qu_numjobs) ∧
        (true = true →
          (status_que demo_status_constants true demo_queue_encoder true demo_queue
              demo_all_request []).2.2 =
            [] ++
              [{ brp_objtype := demo_status_constants.MGR_OBJ_QUEUE,
                 brp_objname := demo_queue.qu_name,
                 brp_attr :=
                  (demo_queue_encoder
                    (status_que demo_status_constants true demo_queue_encoder true demo_queue
                      demo_all_request []).2.1 demo_all_request).2 }]))) :=
  ⟨by decide,
    status_que_total_jobs demo_status_constants true demo_queue_encoder true demo_queue
      demo_all_request [] (by decide)⟩

/-! ## Permission-denied objects in the status requests -/

theorem stat_queues_denied (C : status_constants) (hist : Bool)
    (status_attrib : pbs_queue → batch_request → Bool × List (String × String))
    (malloc_ok : Bool) (preq : batch_request)
    (hperm : preq.rq_perm &&& C.ATR_DFLAG_RDACC = 0) :
    ∀ (queues : List pbs_queue) (reply : List brp_status),
      stat_queues C hist status_attrib malloc_ok preq queues PBSE_NONE reply =
        (PBSE_NONE, reply) := by
  intro queues
  induction queues with
  | nil => intro reply; rfl
  | cons q rest ih =>
    intro reply
    simp only [stat_queues, status_que, hperm, if_true, ne_eq]
    simpa using ih reply

theorem stat_resvs_denied (C : status_constants)
    (status_attrib : resc_resv → batch_request → Bool × List (String × String))
    (malloc_ok : Bool) (preq : batch_request)
    (hperm : preq.rq_perm &&& C.ATR_DFLAG_RDACC = 0) :
    ∀ (resvs : List resc_resv) (reply : List brp_status),
      stat_resvs C status_attrib malloc_ok preq resvs PBSE_NONE reply = (PBSE_NONE, reply) := by
  intro resvs
  induction resvs with
  | nil => intro reply; rfl
  | cons q rest ih =>
    intro reply
    simp only [stat_resvs, status_resv, hperm, if_true, ne_eq]
    simpa using ih reply

theorem stat_rescs_reported (C : status_constants)
    (encode_resc : resource_def → Bool → Option (List (String × String)))
    (RESOURCE_UNKNOWN : String) (preq : batch_request) :
    ∀ (defs : List resource_def) (reply : List brp_status),
      (∀ prd ∈ defs, encode_resc prd (extend_private preq) ≠ none) →
      stat_rescs C encode_resc true RESOURCE_UNKNOWN preq (extend_private preq) defs PBSE_NONE
          reply =
        (PBSE_NONE,
          reply ++ resc_entries C encode_resc (extend_private preq)
            (reported_rescs C RESOURCE_UNKNOWN preq defs)) := by
  intro defs
  induction defs with
  | nil => intro reply _; simp [stat_rescs, reported_rescs, resc_entries]
  | cons prd rest ih =>
    intro reply henc
    have hrest := fun reply => ih reply (fun p hp => henc p (List.mem_cons_of_mem _ hp))
    have hprd := henc prd (List.mem_cons_self _ _)
    obtain ⟨a, ha⟩ : ∃ a, encode_resc prd (extend_private preq) = some a :=
      Option.ne_none_iff_exists'.mp hprd
    by_cases hskip : (!extend_private preq && prd.rs_name == RESOURCE_UNKNOWN) = true
    · simp only [stat_rescs, hskip, if_true, hrest, reported_rescs, List.filter_cons,
        Bool.not_true, Bool.false_and, Bool.false_eq_true, if_false]
    · have hskip' : (!extend_private preq && prd.rs_name == RESOURCE_UNKNOWN) = false := by
        simpa using hskip
      by_cases hden : prd.rs_flags &&& C.ATR_DFLAG_USRD = 0 ∧
          preq.rq_perm &&& (C.ATR_DFLAG_MGRD ||| C.ATR_DFLAG_OPRD) = 0
      · have hd : resc_denied C preq prd = true := by simp [resc_denied, hden]
        simp only [stat_rescs, hskip', Bool.false_eq_true, if_false, status_resc, hden,
          and_self, if_true, hrest, reported_rescs, List.filter_cons, hd, Bool.not_true,
          Bool.and_false]
      · have hd : resc_denied C preq prd = false := by simp [resc_denied, hden]
        simp only [stat_rescs, hskip', Bool.false_eq_true, if_false, status_resc, hden,
          Bool.not_true, ha, reported_rescs, List.filter_cons, hd, Bool.not_false,
          Bool.and_self, if_true, resc_entries, List.filterMap_cons, Option.map_some']
        have h2 := hrest (reply ++
          [{ brp_objtype := C.MGR_OBJ_RSC, brp_objname := prd.rs_name, brp_attr := a }])
        simp only [reported_rescs, resc_entries] at h2
        simp only [reduceCtorEq, if_false, h2, List.append_assoc, List.singleton_append]

theorem stat_nodes_denied (K : node_constants)
    (status_nodeattrib : pbsnode → batch_request → PbsError × List (String × String))
    (malloc_ok : Bool) (preq : batch_request)
    (hperm : preq.rq_perm &&& K.ATR_DFLAG_RDACC = 0) :
    ∀ (nodes : List pbsnode) (reply : List brp_status),
      (∃ n ∈ nodes, n.nd_state &&& K.INUSE_DELETED = 0) →
      stat_nodes K status_nodeattrib malloc_ok preq nodes PBSE_NONE reply =
        (PBSE_PERM, reply) := by
  intro nodes
  induction nodes with
  | nil => intro reply h; obtain ⟨n, hn, _⟩ := h; simp at hn
  | cons n rest ih =>
    intro reply h
    by_cases hdel : n.nd_state &&& K.INUSE_DELETED = 0
    · simp [stat_nodes, status_node, hdel, hperm]
    · have hrest : ∃ m ∈ rest, m.nd_state &&& K.INUSE_DELETED = 0 := by
        obtain ⟨m, hm, hm0⟩ := h
        rcases List.mem_cons.mp hm with rfl | hm'
        · exact absurd hm0 hdel
        · exact ⟨m, hm', hm0⟩
      simp only [stat_nodes, status_node, ne_eq, hdel, not_false_eq_true, if_true,
        not_true_eq_false, if_false]
      exact ih reply hrest

/-- A status request for all nodes by a requester without read access, on a server with
one node that is not deleted, is rejected with `PBSE_PERM`; the node is not skipped. -/
theorem req_stat_node_all_permission_rejected :
    req_stat_node demo_node_constants demo_encoder true (some [demo_node 0]) 1
      (fun _ => none) demo_denied_request = BatchReply.req_reject PBSE_PERM := by
  decide

/-- C15 (divergence). In a status request for all queues, all reservations or all
resources, a permission-denied result for an object does not reject the request: the
object adds nothing, the scan goes on, and when no other error occurs the reply is
sent as success (for queues and reservations, where the permission depends on the
requester alone, the reply of a requester without read access is the empty list; for
resources the reply holds the entries of the resources that are not denied).  The scan
of all nodes alone does not do so: its loop stops at any code, and the request of a
requester without read access is rejected with `PBSE_PERM` as soon as a node that is
not deleted is reached.  For a single named object of any of the four kinds the
permission-denied result rejects the request. -/
theorem status_requests_permission_denied (C : status_constants) (K : node_constants)
    (svr_chk_history_conf malloc_ok : Bool)
    (que_attrib : pbs_queue → batch_request → Bool × List (String × String))
    (resv_attrib : resc_resv → batch_request → Bool × List (String × String))
    (status_nodeattrib : pbsnode → batch_request → PbsError × List (String × String))
    (encode_resc : resource_def → Bool → Option (List (String × String)))
    (RESOURCE_UNKNOWN : String)
    (svr_queues : List pbs_queue) (find_queuebyname : String → Option pbs_queue)
    (svr_allresvs : List resc_resv) (find_resv : String → Option resc_resv)
    (svr_resc_def : List resource_def) (find_resc_def : String → Option resource_def)
    (pbsndlist : List pbsnode) (svr_totnodes : Int)
    (find_nodebyname : String → Option pbsnode)
    (preq : batch_request) :
    (all_objects preq.rq_id = true →
      (preq.rq_perm &&& C.ATR_DFLAG_RDACC = 0 →
        req_stat_que C svr_chk_history_conf que_attrib malloc_ok svr_queues find_queuebyname
            preq = BatchReply.reply_send [] ∧
          req_stat_resv C resv_attrib malloc_ok svr_allresvs find_resv preq =
            BatchReply.reply_send []) ∧
      ((∀ prd ∈ svr_resc_def, encode_resc prd (extend_private preq) ≠ none) →
        req_stat_resc C encode_resc true RESOURCE_UNKNOWN svr_resc_def find_resc_def preq =
          BatchReply.reply_send
            (resc_entries C encode_resc (extend_private preq)
              (reported_rescs C RESOURCE_UNKNOWN preq svr_resc_def))) ∧
      (preq.rq_perm &&& K.ATR_DFLAG_RDACC = 0 → 0 < svr_totnodes →
        (∃ n ∈ pbsndlist.take svr_totnodes.toNat, n.nd_state &&& K.INUSE_DELETED = 0) →
        req_stat_node K status_nodeattrib malloc_ok (some pbsndlist) svr_totnodes
          find_nodebyname preq = BatchReply.req_reject PBSE_PERM)) ∧
    (all_objects preq.rq_id = false →
      (∀ pque, find_queuebyname preq.rq_id = some pque →
        preq.rq_perm &&& C.ATR_DFLAG_RDACC = 0 →
        req_stat_que C svr_chk_history_conf que_attrib malloc_ok svr_queues find_queuebyname
          preq = BatchReply.req_reject PBSE_PERM) ∧
      (∀ presv, find_resv preq.rq_id = some presv →
        preq.rq_perm &&& C.ATR_DFLAG_RDACC = 0 →
        req_stat_resv C resv_attrib malloc_ok svr_allresvs find_resv preq =
          BatchReply.req_reject PBSE_PERM) ∧
      (∀ prd, find_resc_def preq.rq_id = some prd → resc_denied C preq prd = true →
        req_stat_resc C encode_resc malloc_ok RESOURCE_UNKNOWN svr_resc_def find_resc_def
          preq = BatchReply.req_reject PBSE_PERM) ∧
      (∀ pnode, find_nodebyname preq.rq_id = some pnode → 0 < svr_totnodes →
        pnode.nd_state &&& K.INUSE_DELETED = 0 → preq.rq_perm &&& K.ATR_DFLAG_RDACC = 0 →
        req_stat_node K status_nodeattrib malloc_ok (some pbsndlist) svr_totnodes
          find_nodebyname preq = BatchReply.req_reject PBSE_PERM)) := by
  constructor
  · intro hall
    refine ⟨fun hperm => ⟨?_, ?_⟩, fun henc => ?_, fun hperm htot hex => ?_⟩
    · simp [req_stat_que, hall, stat_queues_denied C _ _ _ preq hperm]
    · simp [req_stat_resv, hall, stat_resvs_denied C _ _ preq hperm]
    · have h := stat_rescs_reported C encode_resc RESOURCE_UNKNOWN preq svr_resc_def [] henc
      simp only [extend_private] at h
      simp only [req_stat_resc, hall, if_true, extend_private, h]
      simp
    · have hnot : ¬ svr_totnodes ≤ 0 := by omega
      simp [req_stat_node, hall, hnot,
        stat_nodes_denied K status_nodeattrib malloc_ok preq hperm _ [] hex]
  · intro hnamed
    refine ⟨fun pque hq hperm => ?_, fun presv hr hperm => ?_, fun prd hd hden => ?_,
      fun pnode hn htot hdel hperm => ?_⟩
    · simp [req_stat_que, hnamed, hq, status_que, hperm]
    · simp [req_stat_resv, hnamed, hr, status_resv, hperm]
    · have hden' : prd.rs_flags &&& C.ATR_DFLAG_USRD = 0 ∧
          preq.rq_perm &&& (C.ATR_DFLAG_MGRD ||| C.ATR_DFLAG_OPRD) = 0 := by
        simpa [resc_denied] using hden
      simp [req_stat_resc, hnamed, hd, status_resc, hden']
    · have hnot : ¬ svr_totnodes ≤ 0 := by omega
      simp [req_stat_node, hnamed, hnot, hn, status_node, hdel, hperm]

/-- Witness of C15: requests for all objects by a requester without any access, on a
server with one queue, one reservation, one node and two resources of which one is
readable by users. -/
theorem status_requests_permission_denied_witness :
    resc_entries demo_status_constants demo_resc_encoder (extend_private demo_denied_request)
        (reported_rescs demo_status_constants "|unknown|" demo_denied_request demo_resc_defs) =
      [{ brp_objtype := 5, brp_objname := "ncpus", brp_attr := [("type", "1")] }] ∧
    (req_stat_que demo_status_constants true demo_queue_encoder true [demo_queue]
          (fun _ => none) demo_denied_request = BatchReply.reply_send [] ∧
        req_stat_resv demo_status_constants demo_resv_encoder true [demo_resv] (fun _ => none)
          demo_denied_request = BatchReply.reply_send []) ∧
    req_stat_resc demo_status_constants demo_resc_encoder true "|unknown|" demo_resc_defs
        (fun _ => none) demo_denied_request =
      BatchReply.reply_send
        (resc_entries demo_status_constants demo_resc_encoder
          (extend_private demo_denied_request)
          (reported_rescs demo_status_constants "|unknown|" demo_denied_request
            demo_resc_defs)) ∧
    req_stat_node demo_node_constants demo_encoder true (some [demo_node 0, demo_node 2]) 2
        (fun _ => none) demo_denied_request = BatchReply.req_reject PBSE_PERM :=
  have h :=
    (status_requests_permission_denied demo_status_constants demo_node_constants true true
      demo_queue_encoder demo_resv_encoder demo_encoder demo_resc_encoder "|unknown|"
      [demo_queue] (fun _ => none) [demo_resv] (fun _ => none) demo_resc_defs (fun _ => none)
      [demo_node 0, demo_node 2] 2 (fun _ => none) demo_denied_request).1 (by decide)
  ⟨by decide, h.1 (by decide), h.2.1 (fun prd _ => by simp [demo_resc_encoder]),
    h.2.2 (by decide) (by decide) ⟨demo_node 0, by decide, by decide⟩⟩

/-! ## Indirect resource values (`@`) -/

theorem get_resource_value_remove (attrn R : String) (a1 a2 : List attrl) (e : attrl)
    (huniq : ∀ a ∈ a2,
      (strcasecmp_eq a.name e.name && strcasecmp_eq a.resource e.resource) = false) :
    get_resource_value attrn R (a1 ++ e :: a2) = get_resource_value attrn R (a1 ++ a2) ∨
      ((strcasecmp_eq e.name attrn && strcasecmp_eq e.resource R) = true ∧
        get_resource_value attrn R (a1 ++ e :: a2) = some e.value ∧
        get_resource_value attrn R (a1 ++ a2) = none) := by
  rw [get_resource_value_append, get_resource_value_append]
  cases h1 : get_resource_value attrn R a1 with
  | some v => left; rfl
  | none =>
    by_cases hm : (strcasecmp_eq e.name attrn && strcasecmp_eq e.resource R) = true
    · right
      refine ⟨hm, by simp [get_resource_value, hm], ?_⟩
      simp only [Option.none_or]
      apply get_resource_value_none
      intro a ha
      have hu := huniq a ha
      simp only [Bool.and_eq_true] at hm
      by_contra hcon
      have hcon' : strcasecmp_eq a.name attrn = true ∧ strcasecmp_eq a.resource R = true := by
        simpa using hcon
      have hn : strcasecmp_eq a.name e.name = true :=
        strcasecmp_eq_trans hcon'.1 (by rw [strcasecmp_eq_symm]; exact hm.1)
      have hr : strcasecmp_eq a.resource e.resource = true :=
        strcasecmp_eq_trans hcon'.2 (by rw [strcasecmp_eq_symm]; exact hm.2)
      simp [hn, hr] at hu
    · left
      have hm' : (strcasecmp_eq e.name attrn && strcasecmp_eq e.resource R) = false := by
        simpa using hm
      simp [get_resource_value, hm']

theorem sum_a_resource_indirect (psum : consumable) (avail : Bool) (v V : String)
    (hc : psum.cons_consum = true) (hat : strchr_found v '@' = true) :
    sum_a_resource psum avail (some v) V = psum := by
  simp [sum_a_resource, hc, hat]

theorem sum_a_resource_remove (attrn : String) (a1 a2 : List attrl) (e : attrl) (V : String)
    (hat : strchr_found e.value '@' = true)
    (huniq : ∀ a ∈ a2,
      (strcasecmp_eq a.name e.name && strcasecmp_eq a.resource e.resource) = false)
    (R : String) (p : consumable) (avail : Bool)
    (hp : strcasecmp_eq e.resource R = true → p.cons_consum = true) :
    sum_a_resource p avail (get_resource_value attrn R (a1 ++ e :: a2)) V =
      sum_a_resource p avail (get_resource_value attrn R (a1 ++ a2)) V := by
  rcases get_resource_value_remove attrn R a1 a2 e huniq with h | ⟨hm, hfull, hrem⟩
  · rw [h]
  · simp only [Bool.and_eq_true] at hm
    rw [hfull, hrem, sum_a_resource_indirect p avail e.value V (hp hm.2) hat]
    rfl

theorem sum_node_remove (a1 a2 : List attrl) (e : attrl) (V : String)
    (hat : strchr_found e.value '@' = true)
    (huniq : ∀ a ∈ a2,
      (strcasecmp_eq a.name e.name && strcasecmp_eq a.resource e.resource) = false)
    (c : consumable)
    (hc : strcasecmp_eq e.resource c.cons_resource = true → c.cons_consum = true) :
    sum_node (a1 ++ e :: a2) V c = sum_node (a1 ++ a2) V c := by
  unfold sum_node
  rw [sum_a_resource_remove ATTR_rescavail a1 a2 e V hat huniq c.cons_resource c true hc]
  exact sum_a_resource_remove ATTR_rescassn a1 a2 e V hat huniq c.cons_resource _ false
    (fun h => by rw [(sum_a_resource_keeps c true _ V).2]; exact hc h)

theorem on_host_remove (H : String) (n : batch_status) (a1 a2 : List attrl) (e : attrl)
    (hn : n.attribs = a1 ++ e :: a2)
    (hhost : strcasecmp_eq e.resource "host" = false) :
    on_host H { n with attribs := a1 ++ a2 } = on_host H n := by
  have hg : get_resource_value ATTR_rescavail "host" (a1 ++ a2) =
      get_resource_value ATTR_rescavail "host" (a1 ++ e :: a2) := by
    rw [get_resource_value_append, get_resource_value_append]
    simp [get_resource_value, hhost]
  simp only [on_host, hn, hg]

theorem sum_host_remove (pre post : List batch_status) (n : batch_status)
    (a1 a2 : List attrl) (e : attrl) (H V : String)
    (hn : n.attribs = a1 ++ e :: a2)
    (hat : strchr_found e.value '@' = true)
    (hhost : strcasecmp_eq e.resource "host" = false)
    (huniq : ∀ a ∈ a2,
      (strcasecmp_eq a.name e.name && strcasecmp_eq a.resource e.resource) = false)
    (c : consumable)
    (hc : strcasecmp_eq e.resource c.cons_resource = true → c.cons_consum = true) :
    sum_host (pre ++ { n with attribs := a1 ++ a2 } :: post) H V c =
      sum_host (pre ++ n :: post) H V c := by
  unfold sum_host host_vnodes
  simp only [List.filter_append, List.filter_cons, List.foldl_append]
  have hon := on_host_remove H n a1 a2 e hn hhost
  rw [hon]
  by_cases h : on_host H n = true
  · simp only [h, if_true, List.foldl_cons]
    congr 1
    have hk := sum_fold_keeps V (List.filter (on_host H) pre) (clear_sums c)
    rw [hn]
    exact (sum_node_remove a1 a2 e V hat huniq _
      (fun hm => by
        rw [hk.2]
        rw [hk.1] at hm
        exact hc hm)).symm
  · simp only [h, Bool.false_eq_true, if_false]

theorem node_consumables_remove (a1 a2 : List attrl) (e : attrl)
    (hname : e.name = ATTR_rescavail ∨ e.name = ATTR_rescassn)
    (hat : strchr_found e.value '@' = true) (T : List consumable) :
    node_consumables (a1 ++ a2) T = node_consumables (a1 ++ e :: a2) T := by
  unfold node_consumables
  simp only [List.foldl_append, List.foldl_cons]
  congr 1
  rcases hname with h | h
  · simp [h, add_consumable_entry, hat]
  · simp [h, add_consumable_entry, hat]

theorem discovered_remove (pre post : List batch_status) (n : batch_status)
    (a1 a2 : List attrl) (e : attrl)
    (hn : n.attribs = a1 ++ e :: a2)
    (hname : e.name = ATTR_rescavail ∨ e.name = ATTR_rescassn)
    (hat : strchr_found e.value '@' = true) :
    discovered (pre ++ { n with attribs := a1 ++ a2 } :: post) = discovered (pre ++ n :: post) := by
  unfold discovered
  simp only [List.foldl_append, List.foldl_cons]
  rw [hn, node_consumables_remove a1 a2 e hname hat]

theorem collect_table_remove (pre post : List batch_status) (n : batch_status)
    (a1 a2 : List attrl) (e : attrl) (H V : String)
    (hn : n.attribs = a1 ++ e :: a2)
    (hname : e.name = ATTR_rescavail ∨ e.name = ATTR_rescassn)
    (hhost : strcasecmp_eq e.resource "host" = false) :
    collect_table (pre ++ { n with attribs := a1 ++ a2 } :: post) H V =
      collect_table (pre ++ n :: post) H V := by
  unfold collect_table
  simp only [List.foldl_append, List.foldl_cons]
  have hon := on_host_remove H n a1 a2 e hn hhost
  rw [hon]
  congr 1
  by_cases h : on_host H n = true
  · simp only [h, if_true, hn, List.foldl_append, List.foldl_cons]
    congr 1
    simp [collect_attr, hname]
  · simp only [h, Bool.false_eq_true, if_false]

theorem consum_find_of_mem (R : String) :
    ∀ (T : List consumable), distinct_resources T → ∀ c ∈ T,
      strcasecmp_eq R c.cons_resource = true → consum_find R T = some c := by
  intro T
  induction T with
  | nil => intro _ c hc; simp at hc
  | cons x rest ih =>
    intro hd c hc hm
    unfold distinct_resources at hd
    simp only [List.map_cons, List.pairwise_cons] at hd
    rcases List.mem_cons.mp hc with rfl | hc'
    · simp [consum_find, hm]
    · have hx : strcasecmp_eq R x.cons_resource = false := by
        by_contra hcon
        have hcon' : strcasecmp_eq R x.cons_resource = true := by simpa using hcon
        have h1 := hd.1 c.cons_resource (List.mem_map_of_mem _ hc')
        have h2 : strcasecmp_eq x.cons_resource c.cons_resource = true :=
          strcasecmp_eq_trans (by rw [strcasecmp_eq_symm]; exact hcon') hm
        rw [h2] at h1
        exact Bool.noConfusion h1
      have := ih hd.2 c hc' hm
      simp only [consum_find] at this ⊢
      simp only [List.find?_cons, hx]
      exact this

theorem host_aggregate_remove (pre post : List batch_status) (n : batch_status)
    (a1 a2 : List attrl) (e : attrl) (H : String)
    (hn : n.attribs = a1 ++ e :: a2)
    (hname : e.name = ATTR_rescavail ∨ e.name = ATTR_rescassn)
    (hat : strchr_found e.value '@' = true)
    (hhost : strcasecmp_eq e.resource "host" = false)
    (hcons : is_consumable e.resource (pre ++ n :: post) = true)
    (huniq : ∀ a ∈ a2,
      (strcasecmp_eq a.name e.name && strcasecmp_eq a.resource e.resource) = false) :
    host_aggregate (pre ++ { n with attribs := a1 ++ a2 } :: post) H =
      host_aggregate (pre ++ n :: post) H := by
  unfold host_aggregate build_collective
  rw [collect_table_remove pre post n a1 a2 e H VARIOUS hn hname hhost,
    discovered_remove pre post n a1 a2 e hn hname hat]
  have hsum : sum_resources (pre ++ { n with attribs := a1 ++ a2 } :: post) H
      (discovered (pre ++ n :: post)) VARIOUS =
      sum_resources (pre ++ n :: post) H (discovered (pre ++ n :: post)) VARIOUS := by
    rw [sum_resources_eq, sum_resources_eq]
    apply List.map_congr_left
    intro c hc
    apply sum_host_remove pre post n a1 a2 e H VARIOUS hn hat hhost huniq c
    intro hm
    have hfind := consum_find_of_mem e.resource _ (discovered_invariant _).1 c hc hm
    rw [(discovered_entry _ _ c hfind).2.1]
    exact hcons
  rw [hsum]

/-- Counterexample to C16: on a host of two vnodes the resource `foo` is not
consumable; the second vnode has the indirect value `@vn1` for it.  With that entry
the aggregate value of `foo` is `<various>`, without it the value is `bar`. -/
theorem stathost_indirect_string_counts :
    __pbs_stathost demo_indirect_vnodes (some "H") =
        ([{ name := "H", text := none,
            attribs := [⟨"resources_available", "host", "H"⟩,
                        ⟨"resources_available", "foo", "<various>"⟩] }], none) ∧
      __pbs_stathost demo_direct_vnodes (some "H") =
        ([{ name := "H", text := none,
            attribs := [⟨"resources_available", "host", "H"⟩,
                        ⟨"resources_available", "foo", "bar"⟩] }], none) := by
  decide

/-- C16 (amended). Let `e` be a `resources_available` or `resources_assigned` entry of
a vnode whose value contains `@`, for a resource other than `host` that is consumable
(some vnode has a `resources_assigned` entry for it that is not indirect), and let no
later entry of the same vnode name the same attribute and resource.  Then `e` adds
nothing to a sum, and removing `e` from its vnode changes neither the table of hosts
and resources nor the aggregate of any host: the reply of a query for a host with
several vnodes is the same with and without `e`. -/
theorem stathost_indirect_ignored (pre post : List batch_status) (n : batch_status)
    (a1 a2 : List attrl) (e : attrl)
    (hn : n.attribs = a1 ++ e :: a2)
    (hname : e.name = ATTR_rescavail ∨ e.name = ATTR_rescassn)
    (hat : strchr_found e.value '@' = true)
    (hhost : strcasecmp_eq e.resource "host" = false)
    (hcons : is_consumable e.resource (pre ++ n :: post) = true)
    (huniq : ∀ a ∈ a2,
      (strcasecmp_eq a.name e.name && strcasecmp_eq a.resource e.resource) = false) :
    (∀ (psum : consumable) (avail : Bool) (various : String), psum.cons_consum = true →
      sum_a_resource psum avail (some e.value) various = psum) ∧
    discovered (pre ++ { n with attribs := a1 ++ a2 } :: post) =
      discovered (pre ++ n :: post) ∧
    (∀ H : String,
      host_aggregate (pre ++ { n with attribs := a1 ++ a2 } :: post) H =
        host_aggregate (pre ++ n :: post) H) ∧
    (∀ H : String, H ≠ "" → 2 ≤ (host_vnodes H (pre ++ n :: post)).length →
      __pbs_stathost (pre ++ { n with attribs := a1 ++ a2 } :: post) (some H) =
        __pbs_stathost (pre ++ n :: post) (some H)) := by
  refine ⟨fun psum avail various hc => sum_a_resource_indirect psum avail e.value various hc hat,
    discovered_remove pre post n a1 a2 e hn hname hat,
    fun H => host_aggregate_remove pre post n a1 a2 e H hn hname hat hhost hcons huniq,
    fun H hH hmulti => ?_⟩
  have hlen : (host_vnodes H (pre ++ { n with attribs := a1 ++ a2 } :: post)).length =
      (host_vnodes H (pre ++ n :: post)).length := by
    unfold host_vnodes
    simp only [List.filter_append, List.filter_cons, on_host_remove H n a1 a2 e hn hhost,
      List.length_append]
    split <;> rfl
  rw [stathost_multi_vnode _ H hH hmulti, stathost_multi_vnode _ H hH (by rw [hlen]; exact hmulti),
    host_aggregate_remove pre post n a1 a2 e H hn hname hat hhost hcons huniq]

/-- Witness of C16: the host `H` with the vnodes `vn1` and `vn3`; the available memory
of `vn3` is the indirect value `@vn1`, and `mem` is consumable. -/
theorem stathost_indirect_ignored_witness :
    __pbs_stathost ([demo_vn1] ++ demo_vn3 :: []) (some "H") =
      ([{ name := "H", text := none,
          attribs := [⟨"comment", "", "rack 1"⟩, ⟨"resources_available", "host", "H"⟩,
                      ⟨"resources_available", "mem", "4194304kb"⟩,
                      ⟨"resources_available", "ncpus", "0"⟩,
                      ⟨"resources_assigned", "mem", "1048576kb"⟩,
                      ⟨"resources_assigned", "ncpus", "4"⟩] }], none) ∧
    ((∀ (psum : consumable) (avail : Bool) (various : String), psum.cons_consum = true →
      sum_a_resource psum avail (some "@vn1") various = psum) ∧
    discovered ([demo_vn1] ++
        { demo_vn3 with
          attribs := [⟨"resources_available", "host", "H"⟩] ++
            [⟨"resources_assigned", "mem", "0kb"⟩] } :: []) =
      discovered ([demo_vn1] ++ demo_vn3 :: []) ∧
    (∀ H : String,
      host_aggregate ([demo_vn1] ++
          { demo_vn3 with
            attribs := [⟨"resources_available", "host", "H"⟩] ++
              [⟨"resources_assigned", "mem", "0kb"⟩] } :: []) H =
        host_aggregate ([demo_vn1] ++ demo_vn3 :: []) H) ∧
    (∀ H : String, H ≠ "" → 2 ≤ (host_vnodes H ([demo_vn1] ++ demo_vn3 :: [])).length →
      __pbs_stathost ([demo_vn1] ++
          { demo_vn3 with
            attribs := [⟨"resources_available", "host", "H"⟩] ++
              [⟨"resources_assigned", "mem", "0kb"⟩] } :: []) (some H) =
        __pbs_stathost ([demo_vn1] ++ demo_vn3 :: []) (some H))) :=
  ⟨by decide,
    stathost_indirect_ignored [demo_vn1] [] demo_vn3 [⟨"resources_available", "host", "H"⟩]
      [⟨"resources_assigned", "mem", "0kb"⟩] ⟨"resources_available", "mem", "@vn1"⟩
      (by decide) (by decide) (by decide) (by decide) (by decide) (by decide)⟩

/-! ## The target of a job status request -/

/-- C17. Once the history check has passed, `req_stat_job` treats the target
according to its first character alone.  A digit: the target is read as a list of job
identifiers.  A letter: the jobs of the queue of that name are reported, and the
request is rejected with `PBSE_UNKQUE` when there is no such queue.  The empty string
or a leading `@`: all the jobs of the server are reported.  Any other first character:
the request is rejected with `PBSE_IVALREQ`.  No other target is rejected before its
jobs are looked at. -/
theorem req_stat_job_classifies_target (srv : Server) (fuel : Nat) (preq : batch_request)
    (hpass : ¬ (extend_dohistjobs preq = true ∧ srv.svr_history_enable = 0)) :
    ((first_char preq.rq_id).isDigit = true →
      req_stat_job srv fuel preq =
        (stat_jobid_list srv fuel preq (extend_dohistjobs preq) (extend_dosubjobs preq)
          (jobid_tokens preq.rq_id) (PBSE_NONE, false, [])).map
          (fun st =>
            if st.2.1 then BatchReply.reply_send st.2.2 else BatchReply.req_reject st.1)) ∧
    ((first_char preq.rq_id).isDigit = false → (first_char preq.rq_id).isAlpha = true →
      (srv.find_queuebyname preq.rq_id = none →
        req_stat_job srv fuel preq = some (BatchReply.req_reject PBSE_UNKQUE)) ∧
      (∀ pque, srv.find_queuebyname preq.rq_id = some pque →
        req_stat_job srv fuel preq =
          some (finish_scan
            (stat_job_scan srv preq (extend_dohistjobs preq) (extend_dosubjobs preq)
              pque.qu_jobs PBSE_NONE [])))) ∧
    ((first_char preq.rq_id = Char.ofNat 0 ∨ first_char preq.rq_id = '@') →
      req_stat_job srv fuel preq =
        some (finish_scan
          (stat_job_scan srv preq (extend_dohistjobs preq) (extend_dosubjobs preq)
            srv.svr_alljobs PBSE_NONE []))) ∧
    ((first_char preq.rq_id).isDigit = false → (first_char preq.rq_id).isAlpha = false →
      first_char preq.rq_id ≠ Char.ofNat 0 → first_char preq.rq_id ≠ '@' →
      req_stat_job srv fuel preq = some (BatchReply.req_reject PBSE_IVALREQ)) := by
  rw [req_stat_job_gate, if_neg hpass]
  refine ⟨fun hd => ?_, fun hd ha => ⟨fun hq => ?_, fun pque hq => ?_⟩, fun h0 => ?_,
    fun hd ha h0 h1 => ?_⟩
  · simp only [req_stat_job_target, hd, if_true]
    cases stat_jobid_list srv fuel preq (extend_dohistjobs preq) (extend_dosubjobs preq)
        (jobid_tokens preq.rq_id) (PBSE_NONE, false, []) with
    | none => rfl
    | some st =>
      simp only [Option.map_some']
      split <;> rfl
  · simp [req_stat_job_target, hd, ha, hq]
  · simp [req_stat_job_target, hd, ha, hq]
  · have hd : (first_char preq.rq_id).isDigit = false := by
      rcases h0 with h | h <;> rw [h] <;> decide
    have ha : (first_char preq.rq_id).isAlpha = false := by
      rcases h0 with h | h <;> rw [h] <;> decide
    simp [req_stat_job_target, hd, ha, h0]
  · simp [req_stat_job_target, hd, ha, h0, h1]

/-- Witness of C17: the targets `workq` (a queue), `nowhere` (no such queue), the empty
target and the target `#1`. -/
theorem req_stat_job_classifies_target_witness :
    req_stat_job demo_queue_server 1 (demo_target_request "workq") =
      some (BatchReply.reply_send
        [{ brp_objtype := 2, brp_objname := "1.svr", brp_attr := [] }]) ∧
    req_stat_job demo_queue_server 1 (demo_target_request "") =
      some (BatchReply.reply_send
        [{ brp_objtype := 2, brp_objname := "1.svr", brp_attr := [] },
         { brp_objtype := 2, brp_objname := "3.svr", brp_attr := [] }]) ∧
    req_stat_job demo_queue_server 1 (demo_target_request "#1") =
      some (BatchReply.req_reject PBSE_IVALREQ) ∧
    req_stat_job demo_queue_server 1 (demo_target_request "nowhere") =
      some (BatchReply.req_reject PBSE_UNKQUE) :=
  have h := req_stat_job_classifies_target demo_queue_server 1 (demo_target_request "nowhere")
    (by decide)
  ⟨by decide, by decide, by decide, (h.2.1 (by decide) (by decide)).1 (by simp [demo_queue_server, demo_target_request])⟩

/-! ## Size units in `sum_a_resource` -/

/-- C18 (divergence). For the unit letter `p` or `P` the amount that `sum_a_resource`
adds is the number shifted by 30 bits, as for `t`: the value `1pb` adds `2^30`
kilobytes to the sum, which is one terabyte, and not the `2^40` kilobytes of one
petabyte; the aggregate of two vnodes with `1pb` each is `2147483648kb`. -/
theorem sum_a_resource_petabyte_shift :
    (∀ amt : Int, adjust_amount amt 'p' = wrap_ll (amt * 2 ^ 30) ∧
      adjust_amount amt 'P' = wrap_ll (amt * 2 ^ 30) ∧
      adjust_amount amt 'p' = adjust_amount amt 't') ∧
    amount "1pb" = 2 ^ 30 ∧ amount "1PB" = 2 ^ 30 ∧ amount "1tb" = 2 ^ 30 ∧
    amount "1pb" ≠ 2 ^ 40 ∧
    (sum_a_resource demo_size_entry true (some "1pb") "<various>").cons_avail_sum =
      1073741824 ∧
    __pbs_stathost demo_pb_vnodes (some "H") =
      ([{ name := "H", text := none,
          attribs := [⟨"resources_available", "host", "H"⟩,
                      ⟨"resources_available", "mem", "2147483648kb"⟩,
                      ⟨"resources_assigned", "mem", "0kb"⟩] }], none) := by
  refine ⟨fun amt => ⟨?_, ?_, ?_⟩, by decide, by decide, by decide, by decide, by decide,
    by decide⟩
  · simp [adjust_amount]
  · simp [adjust_amount]
  · simp [adjust_amount]

/-! ## The dispatch table of the object store -/

/-- Counterexample to C19: the row of the server object has no delete handler, so
`pbs_db_delete_obj` for a server object calls through a `NULL` pointer; likewise a
cursor over scheduler objects and the load of a subjob. -/
theorem db_fn_arr_missing_handlers :
    (pbs_db_delete_obj demo_database { pbs_db_obj_type := PBS_DB_SVR }).isNone = true ∧
    (pbs_db_cursor_init demo_database { pbs_db_obj_type := PBS_DB_SCHED }).isNone = true ∧
    (pbs_db_load_obj demo_database { pbs_db_obj_type := PBS_DB_SUBJOB }).isNone = true ∧
    (pbs_db_update_obj demo_database { pbs_db_obj_type := PBS_DB_JOBSCR }).isNone = true ∧
    (pbs_db_cursor_next demo_database { count := 1, row := 0 }
      { pbs_db_obj_type := PBS_DB_MOMINFO_TIME }).isNone = true := by
  decide

/-- C19 (amended). The table `db_fn_arr` holds all six handlers exactly for the kinds
job, reservation, node, queue and attribute.  The server, scheduler and mominfo-time
rows hold insert, update and load only; the job-script row holds insert and load
only; the subjob row holds insert, update, find and next only.  The dispatch
functions do not test the pointer: `pbs_db_insert_obj` always finds a handler, and
each of the others finds one exactly for the kinds whose row holds it
(`pbs_db_cursor_next` dispatches only when the cursor has a row left, and otherwise
returns `1`). -/
theorem db_fn_arr_handlers (db : Database) (obj : pbs_db_obj_info_t)
    (state : pg_query_state_t) :
    object_kinds.map (fun t => handlers_present (db_fn_arr db t)) =
      [[true, true, true, true, true, true],
       [true, true, true, true, true, true],
       [true, true, false, true, false, false],
       [true, true, true, true, true, true],
       [true, true, true, true, true, true],
       [true, true, true, true, true, true],
       [true, false, false, true, false, false],
       [true, true, false, true, false, false],
       [true, true, false, false, true, true],
       [true, true, false, true, false, false]] ∧
    (∀ t, t ∈ object_kinds) ∧
    (∀ t, (handlers_present (db_fn_arr db t)).all id = true ↔
      t ∈ [PBS_DB_JOB, PBS_DB_RESV, PBS_DB_NODE, PBS_DB_QUE, PBS_DB_ATTR]) ∧
    (pbs_db_insert_obj db obj).isSome = true ∧
    ((pbs_db_update_obj db obj).isSome = true ↔ obj.pbs_db_obj_type ≠ PBS_DB_JOBSCR) ∧
    ((pbs_db_delete_obj db obj).isSome = true ↔
      obj.pbs_db_obj_type ∈ [PBS_DB_JOB, PBS_DB_RESV, PBS_DB_NODE, PBS_DB_QUE, PBS_DB_ATTR]) ∧
    ((pbs_db_load_obj db obj).isSome = true ↔ obj.pbs_db_obj_type ≠ PBS_DB_SUBJOB) ∧
    ((pbs_db_cursor_init db obj).isSome = true ↔
      obj.pbs_db_obj_type ∈
        [PBS_DB_JOB, PBS_DB_RESV, PBS_DB_NODE, PBS_DB_QUE, PBS_DB_ATTR, PBS_DB_SUBJOB]) ∧
    (state.row < state.count →
      ((pbs_db_cursor_next db state obj).isSome = true ↔
        obj.pbs_db_obj_type ∈
          [PBS_DB_JOB, PBS_DB_RESV, PBS_DB_NODE, PBS_DB_QUE, PBS_DB_ATTR, PBS_DB_SUBJOB])) ∧
    (¬ state.row < state.count → pbs_db_cursor_next db state obj = some (1, state)) := by
  obtain ⟨t⟩ := obj
  refine ⟨rfl, ?_, ?_, ?_, ?_, ?_, ?_, ?_, ?_, ?_⟩
  · intro t; cases t <;> decide
  · intro t; cases t <;> simp [handlers_present, db_fn_arr]
  · cases t <;> rfl
  · cases t <;> simp [pbs_db_update_obj, db_fn_arr]
  · cases t <;> simp [pbs_db_delete_obj, db_fn_arr]
  · cases t <;> simp [pbs_db_load_obj, db_fn_arr]
  · cases t <;> simp [pbs_db_cursor_init, db_fn_arr]
  · intro h
    cases t <;> simp [pbs_db_cursor_next, db_fn_arr, h]
  · intro h
    simp [pbs_db_cursor_next, h]

/-- Witness of C19: a cursor with a row left over node objects finds its handler. -/
theorem db_fn_arr_handlers_witness :
    (pbs_db_cursor_next demo_database { count := 1, row := 0 } demo_node_obj).isSome = true ↔
      demo_node_obj.pbs_db_obj_type ∈
        [PBS_DB_JOB, PBS_DB_RESV, PBS_DB_NODE, PBS_DB_QUE, PBS_DB_ATTR, PBS_DB_SUBJOB] :=
  (db_fn_arr_handlers demo_database demo_node_obj { count := 1, row := 0 }).2.2.2.2.2.2.2.2.1
    (by decide)

/-! ## Inserting an object -/

/-- Counterexample to C20: when the insert statement of a node succeeds without
affecting a row (`pg_db_cmd` returns `1`), `pbs_db_insert_obj` returns the failure
code `-1`, not `1`. -/
theorem pbs_db_insert_obj_node_no_rows :
    demo_no_rows_database.pg_db_cmd "STMT_INSERT_NODE" 7 = 1 ∧
      pbs_db_insert_obj demo_no_rows_database demo_node_obj = some (-1) := by
  decide

/-- C20 (amended). `pbs_db_insert_obj` returns what the insert handler of the kind of
the object returns.  For a node object the handler returns `0` when the underlying
command returns `0` and the failure code `-1` for every other result of the command,
success without a row affected (`1`) included: the result is never `1`.  The update
of a node, by contrast, returns the result of the command unchanged. -/
theorem pbs_db_insert_obj_node (db : Database) (obj : pbs_db_obj_info_t)
    (hnode : obj.pbs_db_obj_type = PBS_DB_NODE) :
    (∀ f, (db_fn_arr db obj.pbs_db_obj_type).pg_db_insert_obj = some f →
      pbs_db_insert_obj db obj = some (f obj)) ∧
    pbs_db_insert_obj db obj =
      some (if db.pg_db_cmd "STMT_INSERT_NODE" 7 = 0 then 0 else -1) ∧
    pbs_db_insert_obj db obj ≠ some 1 ∧
    (db.pg_db_cmd "STMT_INSERT_NODE" 7 = 1 → pbs_db_insert_obj db obj = some (-1)) ∧
    pbs_db_update_obj db obj = some (db.pg_db_cmd "STMT_UPDATE_NODE" 7) := by
  obtain ⟨t⟩ := obj
  simp only at hnode
  subst hnode
  refine ⟨fun f hf => by simp [pbs_db_insert_obj, hf], ?_, ?_, ?_, rfl⟩
  · simp only [pbs_db_insert_obj, db_fn_arr, Option.map_some', pg_db_insert_node]
    split_ifs <;> simp_all
  · simp only [pbs_db_insert_obj, db_fn_arr, Option.map_some', pg_db_insert_node]
    split_ifs <;> simp
  · intro h
    simp [pbs_db_insert_obj, db_fn_arr, pg_db_insert_node, h]

/-- Witness of C20: a node object on a database whose commands succeed with one row,
and on one whose commands affect no row. -/
theorem pbs_db_insert_obj_node_witness :
    pbs_db_insert_obj demo_database demo_node_obj = some 0 ∧
    pbs_db_update_obj demo_no_rows_database demo_node_obj = some 1 ∧
    ((∀ f, (db_fn_arr demo_no_rows_database demo_node_obj.pbs_db_obj_type).pg_db_insert_obj =
        some f → pbs_db_insert_obj demo_no_rows_database demo_node_obj = some (f demo_node_obj)) ∧
      pbs_db_insert_obj demo_no_rows_database demo_node_obj =
        some (if demo_no_rows_database.pg_db_cmd "STMT_INSERT_NODE" 7 = 0 then 0 else -1) ∧
      pbs_db_insert_obj demo_no_rows_database demo_node_obj ≠ some 1 ∧
      (demo_no_rows_database.pg_db_cmd "STMT_INSERT_NODE" 7 = 1 →
        pbs_db_insert_obj demo_no_rows_database demo_node_obj = some (-1)) ∧
      pbs_db_update_obj demo_no_rows_database demo_node_obj =
        some (demo_no_rows_database.pg_db_cmd "STMT_UPDATE_NODE" 7)) :=
  ⟨by decide, by decide, pbs_db_insert_obj_node demo_no_rows_database demo_node_obj rfl⟩

/-! ## Errors of `status_job` and `status_resc` that are lost -/

theorem stat_all_subjobs_succ_rc (srv : Server) (preq : batch_request) (pjob : job)
    (n : Nat) (indx : Int) (rc : PbsError) (reply : List brp_status) :
    stat_all_subjobs srv preq pjob (n + 1) indx rc reply =
      stat_all_subjobs srv preq pjob (n + 1) indx PBSE_NONE reply := by
  simp [stat_all_subjobs]

/-- C29 (divergence). Let `status_job` fail for a job that is not a subjob (and is not
skipped as history) with an error other than permission-denied.  Without the expand
flag, for a job that is not an array job, or for an array job without a subjob in its
tracking table, `do_stat_of_a_job` returns that error.  For an array job with at
least one tracked subjob and the expand flag the loop over the subjobs is entered all
the same and overwrites the code: the value returned is the one of the `status_subjob`
calls, so `PBSE_NONE` when they all succeed, and the error of `status_job` is
lost. -/
theorem do_stat_of_a_job_parent_error (srv : Server) (preq : batch_request)
    (reply : List brp_status) (pjob : job) (dh ds : Bool)
    (hsub : pjob.svflg_SubJob = false)
    (hhist : dh = true ∨
      (pjob.ji_state ≠ JOB_STATE_FINISHED ∧ pjob.ji_state ≠ JOB_STATE_MOVED))
    (herr : rc_is_error (srv.status_job pjob preq).1 = true) :
    ((ds = false ∨ pjob.svflg_ArrayJob = false ∨ pjob.ji_ajtrk = none ∨
        (∃ C : Int, pjob.ji_ajtrk = some C ∧ C ≤ 0)) →
      (do_stat_of_a_job srv preq reply pjob dh ds).1 = (srv.status_job pjob preq).1) ∧
    (∀ C : Int, ds = true → pjob.svflg_ArrayJob = true → pjob.ji_ajtrk = some C → 1 ≤ C →
      do_stat_of_a_job srv preq reply pjob dh ds =
          (((subjob_calls srv preq pjob (subjob_offsets C)).1).getD PBSE_NONE,
            reply ++ (srv.status_job pjob preq).2 ++
              (subjob_calls srv preq pjob (subjob_offsets C)).2) ∧
        ((∀ off ∈ subjob_offsets C,
            rc_is_error (srv.status_subjob pjob preq off).1 = false) →
          (do_stat_of_a_job srv preq reply pjob dh ds).1 = PBSE_NONE)) := by
  have hgate : (!dh && (pjob.ji_state == JOB_STATE_FINISHED ||
      pjob.ji_state == JOB_STATE_MOVED)) = false := by
    rcases hhist with h | ⟨h1, h2⟩
    · simp [h]
    · simp [h1, h2]
  have hperm : (srv.status_job pjob preq).1 ≠ PBSE_PERM := by
    intro h
    rw [h] at herr
    exact absurd herr (by decide)
  constructor
  · intro hno
    unfold do_stat_of_a_job
    simp only [hgate, hsub, Bool.false_eq_true, if_false, Bool.not_false, if_true]
    cases htrk : pjob.ji_ajtrk with
    | none => simp [herr]
    | some C =>
      simp only []
      by_cases hcond : (ds && pjob.svflg_ArrayJob &&
          (decide ((srv.status_job pjob preq).1 = PBSE_NONE) ||
            decide ((srv.status_job pjob preq).1 ≠ PBSE_PERM))) = true
      · have hC : C ≤ 0 := by
          rcases hno with h | h | h | ⟨C', h, hC'⟩
          · simp [h] at hcond
          · simp [h] at hcond
          · rw [htrk] at h; exact absurd h (by simp)
          · rw [htrk] at h
            cases h
            exact hC'
        have h0 : C.toNat = 0 := by omega
        simp only [hcond, if_true, h0, stat_all_subjobs, herr]
      · have hcond' : (ds && pjob.svflg_ArrayJob &&
            (decide ((srv.status_job pjob preq).1 = PBSE_NONE) ||
              decide ((srv.status_job pjob preq).1 ≠ PBSE_PERM))) = false := by
          simpa using hcond
        simp only [hcond', Bool.false_eq_true, if_false, herr, if_true]
  · intro C hds harr htrk hC
    obtain ⟨n, hn⟩ : ∃ n, C.toNat = n + 1 := ⟨C.toNat - 1, by omega⟩
    have hcalls := stat_all_subjobs_calls srv preq pjob C.toNat 0 PBSE_NONE
      (reply ++ (srv.status_job pjob preq).2) (by decide)
    have hmain : do_stat_of_a_job srv preq reply pjob dh ds =
        (((subjob_calls srv preq pjob (subjob_offsets C)).1).getD PBSE_NONE,
          reply ++ (srv.status_job pjob preq).2 ++
            (subjob_calls srv preq pjob (subjob_offsets C)).2) := by
      unfold do_stat_of_a_job
      simp only [hgate, hsub, htrk, hds, harr, hperm, Bool.false_eq_true, if_false,
        Bool.not_false, if_true, Bool.and_self, ne_eq, not_false_eq_true, decide_True,
        Bool.or_true, Bool.true_and]
      rw [hn, stat_all_subjobs_succ_rc, ← hn]
      unfold subjob_offsets
      rw [← hcalls.1, ← hcalls.2]
      split <;> rfl
    refine ⟨hmain, fun hok => ?_⟩
    rw [hmain, subjob_calls_no_error srv preq pjob _ hok]
    rfl

/-- Witness of C29: an array job of three subjobs whose own status fails with
`PBSE_SYSTEM` while the status of each subjob succeeds; with the expand flag the result
is `PBSE_NONE`, without it `PBSE_SYSTEM`. -/
theorem do_stat_of_a_job_parent_error_witness :
    (demo_parent_error_server.status_job demo_array_job demo_request).1 = PBSE_SYSTEM ∧
    do_stat_of_a_job demo_parent_error_server demo_request [] demo_array_job false true =
      (PBSE_NONE,
        [{ brp_objtype := 2, brp_objname := "0", brp_attr := [] },
         { brp_objtype := 2, brp_objname := "1", brp_attr := [] },
         { brp_objtype := 2, brp_objname := "2", brp_attr := [] }]) ∧
    (do_stat_of_a_job demo_parent_error_server demo_request [] demo_array_job false false).1 =
      (demo_parent_error_server.status_job demo_array_job demo_request).1 :=
  ⟨by decide, by decide,
    (do_stat_of_a_job_parent_error demo_parent_error_server demo_request [] demo_array_job
      false false (by decide) (Or.inr (by decide)) (by decide)).1 (Or.inl rfl)⟩

theorem stat_rescs_append (C : status_constants)
    (encode_resc : resource_def → Bool → Option (List (String × String)))
    (malloc_ok : Bool) (UNK : String) (preq : batch_request) (private_req : Bool)
    (l2 : List resource_def) :
    ∀ (l1 : List resource_def) (rc : PbsError) (reply : List brp_status),
      stat_rescs C encode_resc malloc_ok UNK preq private_req (l1 ++ l2) rc reply =
        stat_rescs C encode_resc malloc_ok UNK preq private_req l2
          (stat_rescs C encode_resc malloc_ok UNK preq private_req l1 rc reply).1
          (stat_rescs C encode_resc malloc_ok UNK preq private_req l1 rc reply).2 := by
  intro l1
  induction l1 with
  | nil => intro rc reply; rfl
  | cons prd rest ih =>
    intro rc reply
    simp only [List.cons_append, stat_rescs]
    split
    · exact ih _ _
    · exact ih _ _

/-- C30 (divergence). In a status request for all resources the code of `status_resc`
for one resource is overwritten by the code for the next one: the request is
rejected exactly when the last resource of the scan that is not skipped yields an
error other than permission-denied.  An error for an earlier resource is lost and the
reply is sent as success, without an entry for that resource. -/
theorem req_stat_resc_error_overwritten (C : status_constants)
    (encode_resc : resource_def → Bool → Option (List (String × String)))
    (malloc_ok : Bool) (RESOURCE_UNKNOWN : String) (defs : List resource_def)
    (last : resource_def) (find_resc_def : String → Option resource_def)
    (preq : batch_request)
    (hall : all_objects preq.rq_id = true)
    (hlast : (!extend_private preq && last.rs_name == RESOURCE_UNKNOWN) = false) :
    req_stat_resc C encode_resc malloc_ok RESOURCE_UNKNOWN (defs ++ [last]) find_resc_def preq =
      (if rc_is_error (status_resc C encode_resc malloc_ok last preq [] (extend_private preq)).1
        then
          BatchReply.req_reject
            (status_resc C encode_resc malloc_ok last preq [] (extend_private preq)).1
        else
          BatchReply.reply_send
            (status_resc C encode_resc malloc_ok last preq
              (stat_rescs C encode_resc malloc_ok RESOURCE_UNKNOWN preq (extend_private preq)
                defs PBSE_NONE []).2 (extend_private preq)).2) := by
  have hrc : ∀ reply : List brp_status,
      (status_resc C encode_resc malloc_ok last preq reply (extend_private preq)).1 =
        (status_resc C encode_resc malloc_ok last preq [] (extend_private preq)).1 := by
    intro reply
    unfold status_resc
    split_ifs
    · rfl
    · rfl
    · cases encode_resc last (extend_private preq) <;> rfl
  have hp : (match preq.rq_extend with
      | none => false
      | some ext => strchr_found ext 'p') = extend_private preq := rfl
  unfold req_stat_resc
  simp only [hall, if_true, hp]
  rw [stat_rescs_append]
  simp only [stat_rescs, hlast, Bool.false_eq_true, if_false, hrc]
  generalize (status_resc C encode_resc malloc_ok last preq [] (extend_private preq)).1 = rc
  cases rc <;> simp [rc_is_error]

/-- Witness of C30: two resources readable by users; the encoders fail for the first
one (`PBSE_SYSTEM`) and succeed for the second: the reply is sent as success with the
entry of the second resource only. -/
theorem req_stat_resc_error_overwritten_witness :
    (status_resc demo_status_constants demo_failing_encoder true
      { rs_name := "broken", rs_type := 99, rs_flags := 0x1 } demo_all_request [] false).1 =
      PBSE_SYSTEM ∧
    req_stat_resc demo_status_constants demo_failing_encoder true "|unknown|"
        ([{ rs_name := "broken", rs_type := 99, rs_flags := 0x1 }] ++
          [{ rs_name := "ncpus", rs_type := 1, rs_flags := 0x1 }])
        (fun _ => none) demo_all_request =
      BatchReply.reply_send
        [{ brp_objtype := 5, brp_objname := "ncpus", brp_attr := [("type", "1")] }] :=
  ⟨by decide,
    (req_stat_resc_error_overwritten demo_status_constants demo_failing_encoder true
      "|unknown|" [{ rs_name := "broken", rs_type := 99, rs_flags := 0x1 }]
      { rs_name := "ncpus", rs_type := 1, rs_flags := 0x1 } (fun _ => none) demo_all_request
      (by decide) (by decide)).trans (by decide)⟩

/-! ## The unit letter of a size -/

/-- Counterexample to C24: the vnode carries a `resources_assigned` entry for `foo`,
but its value is indirect, and `foo` is not flagged consumable. -/
theorem build_host_list_indirect_not_consumable :
    (build_host_list demo_indirect_assigned).2 =
      [{ cons_resource := "host", cons_avail_str := none, cons_avail_sum := 0,
         cons_assn_sum := 0, cons_k := false, cons_consum := false, cons_set := false },
       { cons_resource := "foo", cons_avail_str := none, cons_avail_sum := 0,
         cons_assn_sum := 0, cons_k := false, cons_consum := false, cons_set := false }] := by
  decide

/-- C24 (amended). After `build_host_list` over any node list the table of resources
has an entry for `R` (names compared ignoring case) exactly when some vnode carries a
`resources_available` or `resources_assigned` entry for `R` whose value is not
indirect, and that entry is flagged consumable exactly when some vnode carries a
`resources_assigned` entry for `R` whose value is not indirect.  The flag is the same
for every order of the vnodes, and `build_return_status` never changes the names or
the flags of the table. -/
theorem build_host_list_consumable_flag (pbs : List batch_status) (R : String) :
    ((consum_find R (build_host_list pbs).2).isSome = true ↔
      ∃ a ∈ all_attribs pbs, discovers R a = true) ∧
    (∀ c, consum_find R (build_host_list pbs).2 = some c →
      (c.cons_consum = true ↔
        ∃ a ∈ all_attribs pbs, a.name = ATTR_rescassn ∧ strchr_found a.value '@' = false ∧
          strcasecmp_eq a.resource R = true)) ∧
    (∀ pbs2 : List batch_status, pbs.Perm pbs2 →
      (consum_find R (build_host_list pbs2).2).map (fun c => c.cons_consum) =
        (consum_find R (build_host_list pbs).2).map (fun c => c.cons_consum)) ∧
    (∀ (st : stathost_state) (hname : String) (hosts : List host_list) (various : String),
      consumable_flags (build_return_status st hname hosts various).consum =
        consumable_flags st.consum) := by
  rw [build_host_list_consum]
  have hfl := discovered_flags R pbs
  refine ⟨?_, ?_, ?_, ?_⟩
  · unfold known_flags at hfl
    cases hc : consum_find R (discovered pbs) with
    | none =>
      rw [hc] at hfl
      simp only [Option.map_none'] at hfl
      split at hfl
      · rename_i he
        simp only [Option.isSome_none, Bool.false_eq_true, false_iff, not_exists, not_and]
        intro a ha hd
        have : a ∈ (all_attribs pbs).filter (discovers R) := List.mem_filter.mpr ⟨ha, hd⟩
        rw [List.isEmpty_iff.mp he] at this
        simp at this
      · simp at hfl
    | some c =>
      rw [hc] at hfl
      simp only [Option.map_some'] at hfl
      split at hfl
      · simp at hfl
      · rename_i he
        simp only [Option.isSome_some, true_iff]
        cases hl : (all_attribs pbs).filter (discovers R) with
        | nil => rw [hl] at he; simp at he
        | cons a rest =>
          have : a ∈ (all_attribs pbs).filter (discovers R) := by rw [hl]; exact List.mem_cons_self _ _
          exact ⟨a, (List.mem_filter.mp this).1, (List.mem_filter.mp this).2⟩
  · intro c hc
    rw [(discovered_entry pbs R c hc).2.1]
    unfold is_consumable
    rw [List.any_eq_true]
    constructor
    · rintro ⟨a, ha, hn⟩
      have hm := List.mem_filter.mp ha
      have hd := hm.2
      simp only [discovers, Bool.and_eq_true, Bool.or_eq_true, decide_eq_true_eq,
        Bool.not_eq_true'] at hd
      exact ⟨a, hm.1, by simpa using hn, hd.1.2, hd.2⟩
    · rintro ⟨a, ha, hn, hat, hr⟩
      refine ⟨a, List.mem_filter.mpr ⟨ha, ?_⟩, by simpa using hn⟩
      simp [discovers, hn, hat, hr]
  · intro pbs2 hperm
    rw [build_host_list_consum]
    have h1 := discovered_flags R pbs
    have h2 := discovered_flags R pbs2
    have hc := is_consumable_perm R hperm
    have he : ((all_attribs pbs2).filter (discovers R)).isEmpty =
        ((all_attribs pbs).filter (discovers R)).isEmpty :=
      (isEmpty_perm (discovers_filter_perm R hperm)).symm
    unfold known_flags at h1 h2
    rw [he, ← hc] at h2
    have h1' := congrArg (Option.map (fun (f : Bool × Bool) => f.1)) h1
    have h2' := congrArg (Option.map (fun (f : Bool × Bool) => f.1)) h2
    simp only [Option.map_map] at h1' h2'
    have hcomp : ((fun (f : Bool × Bool) => f.1) ∘ fun (c : consumable) => (c.cons_consum, c.cons_k)) =
        fun (c : consumable) => c.cons_consum := rfl
    rw [hcomp] at h1' h2'
    rw [h1', h2']
    split <;> rfl
  · intro st hname hosts various
    unfold build_return_status
    split
    · rfl
    · split
      · split <;> rfl
      · simp only [consumable_flags, sum_resources_eq, List.map_map]
        apply List.map_congr_left
        intro c _
        simp only [Function.comp, (sum_host_keeps st.bstatus hname various c).1,
          (sum_host_keeps st.bstatus hname various c).2]

/-- Witness of C24: the two vnodes of host `H`, in both orders: `mem` is flagged
consumable. -/
theorem build_host_list_consumable_flag_witness :
    (consum_find "mem" (build_host_list [demo_vn2, demo_vn1]).2).map (fun c => c.cons_consum) =
      some true ∧
    (consum_find "mem" (build_host_list [demo_vn2, demo_vn1]).2).map (fun c => c.cons_consum) =
      (consum_find "mem" (build_host_list [demo_vn1, demo_vn2]).2).map
        (fun c => c.cons_consum) :=
  ⟨by decide,
    (build_host_list_consumable_flag [demo_vn1, demo_vn2] "mem").2.2.1 [demo_vn2, demo_vn1]
      (List.Perm.swap demo_vn2 demo_vn1 [])⟩

/-! ## The order of the entries of an aggregate -/

theorem filterMap_sublist_filterMap {α β β2 γ : Type} (f : α → Option β) (f2 : α → Option β2)
    (g : β → γ) (g2 : β2 → γ)
    (h : ∀ x y, f x = some y → ∃ z, f2 x = some z ∧ g y = g2 z) :
    ∀ l : List α, ((l.filterMap f).map g).Sublist ((l.filterMap f2).map g2) := by
  intro l
  induction l with
  | nil => exact List.Sublist.slnil
  | cons x rest ih =>
    cases hf : f x with
    | none =>
      rw [List.filterMap_cons_none hf]
      cases hf2 : f2 x with
      | none => rw [List.filterMap_cons_none hf2]; exact ih
      | some z =>
        rw [List.filterMap_cons_some hf2, List.map_cons]
        exact List.Sublist.cons _ ih
    | some y =>
      obtain ⟨z, hz, hg⟩ := h x y hf
      rw [List.filterMap_cons_some hf, List.filterMap_cons_some hz, List.map_cons,
        List.map_cons, hg]
      exact List.Sublist.cons₂ _ ih

theorem filterMap_map_sublist {α β γ : Type} (f : α → Option β) (g : β → γ) (k : α → γ)
    (h : ∀ x y, f x = some y → g y = k x) (l : List α) :
    ((l.filterMap f).map g).Sublist (l.map k) := by
  have := filterMap_sublist_filterMap f (fun x => some x) g k
    (fun x y hy => ⟨x, rfl, h x y hy⟩) l
  simpa using this

theorem collect_table_names (pbs : List batch_status) (H V : String) :
    (collect_table pbs H V).map (fun e => e.1) = attr_names := by
  unfold collect_table
  rw [collect_table_eq, collect_attr_fold]
  simp only [List.map_map]
  exact List.map_id _

/-- C26. The attribute list that `build_collective` builds is made of three parts, in
this order: the entries of the table `attr_names` that received a value, in table
order; the `resources_available` entries, in the order of the table of resources
(discovery order); and the `resources_assigned` entries, in the same order.  No
`resources_available` entry follows a `resources_assigned` entry, every
`resources_assigned` entry belongs to a resource that is flagged consumable, and the
resources with a `resources_assigned` entry also have a `resources_available`
entry. -/
theorem build_collective_order (pbs : List batch_status) (hostn : String)
    (consum : List consumable) (various : String) :
    build_collective pbs hostn consum various =
        table_entries (collect_table pbs hostn various) ++ avail_entries consum ++
          assn_entries consum ∧
    ((table_entries (collect_table pbs hostn various)).map (fun a => a.name)).Sublist
        attr_names ∧
    (∀ a ∈ table_entries (collect_table pbs hostn various),
      a.name ≠ ATTR_rescavail ∧ a.name ≠ ATTR_rescassn) ∧
    (∀ a ∈ avail_entries consum, a.name = ATTR_rescavail) ∧
    ((avail_entries consum).map (fun a => a.resource)).Sublist
        (consum.map (fun c => c.cons_resource)) ∧
    (∀ a ∈ assn_entries consum, a.name = ATTR_rescassn ∧
      ∃ c ∈ consum, c.cons_resource = a.resource ∧ c.cons_consum = true) ∧
    ((assn_entries consum).map (fun a => a.resource)).Sublist
        (consum.map (fun c => c.cons_resource)) ∧
    ((assn_entries consum).map (fun a => a.resource)).Sublist
        ((avail_entries consum).map (fun a => a.resource)) ∧
    (build_collective pbs hostn consum various).Pairwise
        (fun a b => a.name = ATTR_rescassn → b.name ≠ ATTR_rescavail) := by
  have hT : ((table_entries (collect_table pbs hostn various)).map (fun a => a.name)).Sublist
      attr_names := by
    have h := filterMap_map_sublist
      (fun (e : String × Option String) =>
        e.2.map (fun v => ({ name := e.1, resource := "", value := v } : attrl)))
      (fun a => a.name) (fun e => e.1)
      (fun e y hy => by
        cases he : e.2 with
        | none => simp [he] at hy
        | some v =>
          simp only [he, Option.map_some', Option.some.injEq] at hy
          rw [← hy])
      (collect_table pbs hostn various)
    rw [collect_table_names] at h
    exact h
  have hTn : ∀ a ∈ table_entries (collect_table pbs hostn various),
      a.name ≠ ATTR_rescavail ∧ a.name ≠ ATTR_rescassn := by
    intro a ha
    apply attr_names_not_resc
    exact hT.subset (List.mem_map_of_mem (fun a => a.name) ha)
  have hA : ∀ a ∈ avail_entries consum, a.name = ATTR_rescavail := by
    intro a ha
    unfold avail_entries at ha
    rw [List.mem_filterMap] at ha
    obtain ⟨c, _, hc⟩ := ha
    split at hc
    · simp at hc
    · simp only [Option.map_eq_some'] at hc
      obtain ⟨v, _, hv⟩ := hc
      rw [← hv]
  have hS : ∀ a ∈ assn_entries consum, a.name = ATTR_rescassn ∧
      ∃ c ∈ consum, c.cons_resource = a.resource ∧ c.cons_consum = true := by
    intro a ha
    unfold assn_entries at ha
    rw [List.mem_filterMap] at ha
    obtain ⟨c, hc, hca⟩ := ha
    split at hca
    · rename_i hcond
      simp only [Option.some.injEq] at hca
      simp only [Bool.and_eq_true] at hcond
      rw [← hca]
      exact ⟨rfl, c, hc, rfl, hcond.2⟩
    · simp at hca
  have hAsub : ((avail_entries consum).map (fun a => a.resource)).Sublist
      (consum.map (fun c => c.cons_resource)) := by
    unfold avail_entries
    apply filterMap_map_sublist
    intro c y hy
    split at hy
    · simp at hy
    · simp only [Option.map_eq_some'] at hy
      obtain ⟨v, _, hv⟩ := hy
      rw [← hv]
  have hSsub : ((assn_entries consum).map (fun a => a.resource)).Sublist
      (consum.map (fun c => c.cons_resource)) := by
    unfold assn_entries
    apply filterMap_map_sublist
    intro c y hy
    split at hy
    · simp only [Option.some.injEq] at hy
      rw [← hy]
    · simp at hy
  have hSA : ((assn_entries consum).map (fun a => a.resource)).Sublist
      ((avail_entries consum).map (fun a => a.resource)) := by
    unfold assn_entries avail_entries
    apply filterMap_sublist_filterMap
    intro c y hy
    split at hy
    · rename_i hcond
      simp only [Bool.and_eq_true] at hcond
      simp only [Option.some.injEq] at hy
      refine ⟨{ name := ATTR_rescavail, resource := c.cons_resource,
                value := sum_text c.cons_avail_sum c.cons_k }, ?_, ?_⟩
      · simp [hcond.1, hcond.2]
      · rw [← hy]
    · simp at hy
  refine ⟨rfl, hT, hTn, hA, hAsub, hS, hSsub, hSA, ?_⟩
  unfold build_collective
  rw [List.pairwise_append, List.pairwise_append]
  have hne : ATTR_rescassn ≠ ATTR_rescavail := by decide
  refine ⟨⟨?_, ?_, ?_⟩, ?_, ?_⟩
  · rw [List.pairwise_iff_forall_sublist]
    intro a b hab h
    have ha : a ∈ table_entries (collect_table pbs hostn various) :=
      hab.subset (List.mem_cons_self _ _)
    exact absurd h (hTn a ha).2
  · rw [List.pairwise_iff_forall_sublist]
    intro a b hab h
    have ha : a ∈ avail_entries consum := hab.subset (List.mem_cons_self _ _)
    rw [hA a ha] at h
    exact absurd h.symm hne
  · intro a ha b _ h
    exact absurd h (hTn a ha).2
  · rw [List.pairwise_iff_forall_sublist]
    intro a b hab _
    have hb : b ∈ assn_entries consum :=
      hab.subset (List.mem_cons_of_mem _ (List.mem_cons_self _ _))
    rw [(hS b hb).1]
    exact hne
  · intro a ha b hb h
    rw [(hS b hb).1]
    exact hne

/-! ## All hosts and one host -/

/-- C28 (divergence). `sum_resources` clears the sums of the table of resources but not
the flag `cons_set`, which stays set once a host has been aggregated.  On a node list
with the hosts `A` (whose vnodes carry `ncpus`) and `B` (whose vnodes do not), the entry
of `B` in the query for all hosts reports `ncpus` with the value `0`, available and
assigned, while the query for `B` alone reports no `ncpus`. -/
theorem stathost_all_hosts_stale_resource :
    (∀ c : consumable, (clear_sums c).cons_set = c.cons_set) ∧
    entries_named "B" (__pbs_stathost demo_two_hosts none).1 =
      [{ name := "B", text := none,
         attribs := [⟨"resources_available", "host", "B"⟩,
                     ⟨"resources_available", "ncpus", "0"⟩,
                     ⟨"resources_assigned", "ncpus", "0"⟩] }] ∧
    (__pbs_stathost demo_two_hosts (some "B")).1 =
      [{ name := "B", text := none,
         attribs := [⟨"resources_available", "host", "B"⟩] }] ∧
    entries_named "B" (__pbs_stathost demo_two_hosts none).1 ≠
      (__pbs_stathost demo_two_hosts (some "B")).1 := by
  refine ⟨fun c => rfl, by decide, by decide, by decide⟩

/-! ## The table of hosts -/

theorem host_list_add_names (hostn : String) (node : Nat) :
    ∀ hl : List host_list,
      (host_list_add hostn node hl).map (fun h => h.hl_name) =
        if seen_before (hl.map (fun h => h.hl_name)) hostn then hl.map (fun h => h.hl_name)
        else hl.map (fun h => h.hl_name) ++ [hostn] := by
  intro hl
  induction hl with
  | nil => simp [host_list_add, seen_before]
  | cons h rest ih =>
    by_cases h1 : strcasecmp_eq hostn h.hl_name = true
    · simp [host_list_add, seen_before, h1]
    · have h1f : strcasecmp_eq hostn h.hl_name = false := by simpa using h1
      simp only [host_list_add, h1f, Bool.false_eq_true, if_false, List.map_cons, ih,
        seen_before, List.any_cons, Bool.false_or]
      split <;> rfl

theorem seen_before_append (s : List String) (x y : String) :
    seen_before (s ++ [x]) y = (seen_before s y || strcasecmp_eq y x) := by
  simp [seen_before, List.any_append]

theorem build_host_list_from_names :
    ∀ (pbs : List batch_status) (node : Nat) (st : List host_list × List consumable),
      (build_host_list_from node pbs st).1.map (fun h => h.hl_name) =
        st.1.map (fun h => h.hl_name) ++
          first_occurrences_from (st.1.map (fun h => h.hl_name)) (pbs.filterMap host_value) := by
  intro pbs
  induction pbs with
  | nil => intro node st; simp [build_host_list_from, first_occurrences_from]
  | cons n rest ih =>
    intro node st
    simp only [build_host_list_from]
    rw [ih]
    cases hg : get_resource_value ATTR_rescavail "host" n.attribs with
    | none =>
      have hv : host_value n = none := hg
      simp only [List.filterMap_cons, hv]
    | some hostn =>
      have hv : host_value n = some hostn := hg
      simp only [List.filterMap_cons, hv, first_occurrences_from, host_list_add_names]
      by_cases hs : seen_before (st.1.map (fun h => h.hl_name)) hostn = true
      · simp only [hs, if_true]
      · have hsf : seen_before (st.1.map (fun h => h.hl_name)) hostn = false := by
          simpa using hs
        simp only [hsf, Bool.false_eq_true, if_false, List.append_assoc, List.singleton_append]

theorem host_list_add_distinct (hostn : String) (node : Nat) (hl : List host_list)
    (hd : (hl.map (fun h => h.hl_name)).Pairwise (fun a b => strcasecmp_eq a b = false)) :
    ((host_list_add hostn node hl).map (fun h => h.hl_name)).Pairwise
      (fun a b => strcasecmp_eq a b = false) := by
  rw [host_list_add_names]
  by_cases hs : seen_before (hl.map (fun h => h.hl_name)) hostn = true
  · simp only [hs, if_true]
    exact hd
  · have hsf : seen_before (hl.map (fun h => h.hl_name)) hostn = false := by simpa using hs
    simp only [hsf, Bool.false_eq_true, if_false]
    rw [List.pairwise_append]
    refine ⟨hd, List.pairwise_singleton _ _, ?_⟩
    intro a ha b hb
    have hb' : b = hostn := by simpa using hb
    subst hb'
    simp only [seen_before, List.any_eq_false] at hsf
    have := hsf a ha
    rw [strcasecmp_eq_symm]
    simpa using this

theorem build_host_list_from_distinct :
    ∀ (pbs : List batch_status) (node : Nat) (st : List host_list × List consumable),
      (st.1.map (fun h => h.hl_name)).Pairwise (fun a b => strcasecmp_eq a b = false) →
      ((build_host_list_from node pbs st).1.map (fun h => h.hl_name)).Pairwise
        (fun a b => strcasecmp_eq a b = false) := by
  intro pbs
  induction pbs with
  | nil => intro node st h; exact h
  | cons n rest ih =>
    intro node st h
    simp only [build_host_list_from]
    apply ih
    cases get_resource_value ATTR_rescavail "host" n.attribs with
    | none => exact h
    | some hostn => exact host_list_add_distinct hostn node st.1 h

theorem host_find_of_mem :
    ∀ (hosts : List host_list),
      (hosts.map (fun h => h.hl_name)).Pairwise (fun a b => strcasecmp_eq a b = false) →
      ∀ h ∈ hosts, hosts.find? (fun x => strcasecmp_eq h.hl_name x.hl_name) = some h := by
  intro hosts
  induction hosts with
  | nil => intro _ h hh; simp at hh
  | cons x rest ih =>
    intro hd h hh
    simp only [List.map_cons, List.pairwise_cons] at hd
    rcases List.mem_cons.mp hh with rfl | hh'
    · simp [strcasecmp_eq_refl]
    · have hx : strcasecmp_eq h.hl_name x.hl_name = false := by
        have := hd.1 h.hl_name (List.mem_map_of_mem (fun h => h.hl_name) hh')
        rw [strcasecmp_eq_symm]
        exact this
      simp only [List.find?_cons, hx]
      exact ih hd.2 h hh'

theorem host_entry_node (pbs : List batch_status) (h : host_list)
    (hh : h ∈ (build_host_list pbs).1) :
    (h.hl_node.isSome = true ↔ (host_vnodes h.hl_name pbs).length = 1) ∧
      (∀ i, h.hl_node = some i →
        ∃ n, pbs.get? i = some n ∧ host_vnodes h.hl_name pbs = [n]) := by
  have hdist := build_host_list_from_distinct pbs 0 ([], []) List.Pairwise.nil
  have hfind := host_find_of_mem (build_host_list pbs).1 hdist h hh
  have hfind' : ((build_host_list_from 0 pbs ([], [])).1.find?
      (fun x => strcasecmp_eq h.hl_name x.hl_name)).map (fun x => x.hl_node) =
      some h.hl_node := by
    change ((build_host_list pbs).1.find? _).map _ = _
    rw [hfind]
    rfl
  cases hv : host_vnodes h.hl_name pbs with
  | nil =>
    have := build_host_list_from_absent h.hl_name pbs 0 ([], []) hv
    rw [hfind'] at this
    simp at this
  | cons n rest =>
    cases rest with
    | nil =>
      obtain ⟨j, hj, hget⟩ := build_host_list_from_single h.hl_name n pbs 0 ([], []) rfl hv
      rw [hfind'] at hj
      have hnode : h.hl_node = some j := by simpa using hj
      refine ⟨by simp [hnode], fun i hi => ?_⟩
      rw [hnode] at hi
      cases hi
      exact ⟨n, hget, rfl⟩
    | cons m rest2 =>
      have := build_host_list_from_multi h.hl_name pbs 0 ([], [])
        (Or.inr (Or.inr (by rw [hv]; simp)))
      rw [hfind'] at this
      have hnode : h.hl_node = none := by simpa using this
      refine ⟨by simp [hnode], fun i hi => ?_⟩
      rw [hnode] at hi
      cases hi

theorem host_nodes_distinct (pbs : List batch_status) :
    (build_host_list pbs).1.Pairwise
      (fun a b => ∀ i, a.hl_node = some i → b.hl_node ≠ some i) := by
  have hdist := build_host_list_from_distinct pbs 0 ([], []) List.Pairwise.nil
  change ((build_host_list pbs).1.map (fun h => h.hl_name)).Pairwise _ at hdist
  rw [List.pairwise_map] at hdist
  refine List.Pairwise.imp_of_mem ?_ hdist
  intro a b ha hb hab i hai hbi
  obtain ⟨n, hn, hva⟩ := (host_entry_node pbs a ha).2 i hai
  obtain ⟨m, hm, hvb⟩ := (host_entry_node pbs b hb).2 i hbi
  rw [hn] at hm
  cases hm
  have hna : n ∈ host_vnodes a.hl_name pbs := by rw [hva]; exact List.mem_cons_self _ _
  have hnb : n ∈ host_vnodes b.hl_name pbs := by rw [hvb]; exact List.mem_cons_self _ _
  have hoa := (List.mem_filter.mp hna).2
  have hob := (List.mem_filter.mp hnb).2
  unfold on_host at hoa hob
  cases hg : get_resource_value ATTR_rescavail "host" n.attribs with
  | none => simp [hg] at hoa
  | some curhn =>
    simp only [hg] at hoa hob
    have : strcasecmp_eq a.hl_name b.hl_name = true :=
      strcasecmp_eq_trans (by rw [strcasecmp_eq_symm]; exact hoa) hob
    rw [this] at hab
    exact Bool.noConfusion hab

theorem all_hosts_fold (pbs : List batch_status) (hosts : List host_list) (various : String) :
    ∀ (hs : List host_list) (st : stathost_state),
      (∀ h ∈ hs, hosts.find? (fun x => strcasecmp_eq h.hl_name x.hl_name) = some h) →
      hs.Pairwise (fun a b => ∀ i, a.hl_node = some i → b.hl_node ≠ some i) →
      (∀ h ∈ hs, ∀ i, h.hl_node = some i →
        st.bstatus.get? i = pbs.get? i ∧ ∃ n, pbs.get? i = some n) →
      ∃ new,
        (hs.foldl (fun st h => build_return_status st h.hl_name hosts various) st).curlist =
            st.curlist ++ new ∧
          List.Forall₂ (reply_for_host pbs) hs new ∧
          (hs.foldl (fun st h => build_return_status st h.hl_name hosts various) st).pbs_errno =
            st.pbs_errno := by
  intro hs
  induction hs with
  | nil => intro st _ _ _; exact ⟨[], by simp, List.Forall₂.nil, rfl⟩
  | cons h rest ih =>
    intro st hfind hpair hkeep
    have hf := hfind h (List.mem_cons_self _ _)
    have hpair' := List.pairwise_cons.mp hpair
    simp only [List.foldl_cons]
    cases hnode : h.hl_node with
    | none =>
      have hstep : build_return_status st h.hl_name hosts various =
          { st with
            consum := sum_resources st.bstatus h.hl_name st.consum various
            curlist := st.curlist ++
              [{ name := h.hl_name,
                 attribs := build_collective st.bstatus h.hl_name
                  (sum_resources st.bstatus h.hl_name st.consum various) various,
                 text := none }] } := by
        simp only [build_return_status, hf, hnode]
      obtain ⟨new, h1, h2, h3⟩ := ih (build_return_status st h.hl_name hosts various)
        (fun x hx => hfind x (List.mem_cons_of_mem _ hx)) hpair'.2
        (fun x hx i hi => by
          rw [hstep]
          exact hkeep x (List.mem_cons_of_mem _ hx) i hi)
      refine ⟨{ name := h.hl_name,
                attribs := build_collective st.bstatus h.hl_name
                  (sum_resources st.bstatus h.hl_name st.consum various) various,
                text := none } :: new, ?_, List.Forall₂.cons ?_ h2, ?_⟩
      · rw [h1, hstep]
        simp
      · simp only [reply_for_host, hnode]
        constructor <;> first | rfl | trivial
      · rw [h3, hstep]
    | some i =>
      obtain ⟨hget, n, hn⟩ := hkeep h (List.mem_cons_self _ _) i hnode
      have hstep : build_return_status st h.hl_name hosts various =
          { st with
            bstatus := st.bstatus.set i { n with attribs := [] }
            curlist := st.curlist ++ [vnode_entry n] } := by
        simp only [build_return_status, hf, hnode, hget, hn, vnode_entry]
      obtain ⟨new, h1, h2, h3⟩ := ih (build_return_status st h.hl_name hosts various)
        (fun x hx => hfind x (List.mem_cons_of_mem _ hx)) hpair'.2
        (fun x hx j hj => by
          have hne : i ≠ j := by
            intro hij
            subst hij
            exact hpair'.1 x hx i hnode hj
          have hk := hkeep x (List.mem_cons_of_mem _ hx) j hj
          rw [hstep]
          refine ⟨?_, hk.2⟩
          simp only [List.get?_eq_getElem?] at hk ⊢
          rw [List.getElem?_set_ne hne]
          exact hk.1)
      refine ⟨vnode_entry n :: new, ?_, List.Forall₂.cons ?_ h2, ?_⟩
      · rw [h1, hstep]
        simp
      · simp only [reply_for_host, hnode]
        exact ⟨n, hn, rfl⟩
      · rw [h3, hstep]

/-- C25. After `build_host_list` over any node list the table of hosts holds each
distinct `resources_available.host` value once (ignoring case), in the order of first
occurrence, a vnode without a host value adding nothing; and an entry keeps a
reference to a vnode exactly when one vnode has that host, in which case it refers to
that vnode.  The reply of a query for a host with one vnode is the entry of that
vnode, with its attribute list as it is.  The reply of a query for all hosts holds one
entry for each entry of the table of hosts, in the order of the table: the entry of
the vnode itself for a host with one vnode, and an entry named after the host
otherwise. -/
theorem build_host_list_hosts (pbs : List batch_status) :
    (build_host_list pbs).1.map (fun h => h.hl_name) =
        first_occurrences (pbs.filterMap host_value) ∧
    ((build_host_list pbs).1.map (fun h => h.hl_name)).Pairwise
        (fun a b => strcasecmp_eq a b = false) ∧
    (∀ h ∈ (build_host_list pbs).1,
      (h.hl_node.isSome = true ↔ (host_vnodes h.hl_name pbs).length = 1) ∧
        (∀ i, h.hl_node = some i →
          ∃ n, pbs.get? i = some n ∧ host_vnodes h.hl_name pbs = [n])) ∧
    (∀ (H : String) (n : batch_status), H ≠ "" → host_vnodes H pbs = [n] →
      __pbs_stathost pbs (some H) = ([vnode_entry n], none)) ∧
    List.Forall₂ (reply_for_host pbs) (build_host_list pbs).1 (__pbs_stathost pbs none).1 ∧
    (__pbs_stathost pbs none).2 = none := by
  have hnames := build_host_list_from_names pbs 0 ([], [])
  have hdist := build_host_list_from_distinct pbs 0 ([], []) List.Pairwise.nil
  have hall : List.Forall₂ (reply_for_host pbs) (build_host_list pbs).1
      (__pbs_stathost pbs none).1 ∧ (__pbs_stathost pbs none).2 = none := by
    unfold __pbs_stathost
    cases hemp : pbs.isEmpty with
    | true =>
      have : pbs = [] := List.isEmpty_iff.mp hemp
      subst this
      simp only [if_true]
      constructor
      · exact List.Forall₂.nil
      · first | rfl | trivial
    | false =>
      simp only [Bool.false_eq_true, if_false, true_or, if_true]
      obtain ⟨new, h1, h2, h3⟩ := all_hosts_fold pbs (build_host_list pbs).1 "<various>"
        (build_host_list pbs).1
        { bstatus := pbs, consum := (build_host_list pbs).2, curlist := [], pbs_errno := none }
        (host_find_of_mem _ hdist) (host_nodes_distinct pbs)
        (fun h hh i hi => by
          obtain ⟨n, hn, _⟩ := (host_entry_node pbs h hh).2 i hi
          exact ⟨rfl, n, hn⟩)
      rw [h1, h3]
      exact ⟨by simpa using h2, rfl⟩
  refine ⟨by simpa [first_occurrences] using hnames, hdist,
    fun h hh => host_entry_node pbs h hh,
    fun H n hH hone => stathost_single_vnode pbs H hH n hone, hall.1, hall.2⟩

/-- Witness of C25: the hosts `A` (two vnodes, the second spelled `a`) and `B` (one
vnode), and a vnode without host. -/
theorem build_host_list_hosts_witness :
    (build_host_list demo_three_hosts).1 =
      [{ hl_name := "A", hl_node := none }, { hl_name := "B", hl_node := some 1 }] ∧
    (__pbs_stathost demo_three_hosts none).1 =
      [{ name := "A", text := none, attribs := [⟨"resources_available", "host", "A"⟩] },
       { name := "b1", text := none,
         attribs := [⟨"resources_available", "host", "B"⟩, ⟨"comment", "", "alone"⟩] }] ∧
    (build_host_list demo_three_hosts).1.map (fun h => h.hl_name) =
      first_occurrences (demo_three_hosts.filterMap host_value) :=
  ⟨by decide, by decide, (build_host_list_hosts demo_three_hosts).1⟩

/-! ## Part 11. Theorems about `enc_RunJob.c`, `ck_job_name.c` and the connection -/

/-- C21 (divergence). `encode_DIS_Run` hands the id string, the destination string and
the unsigned argument to the writers in that order, makes no later write once a write
has failed, and returns `0` exactly when the three writes succeed; but on failure it
returns `1`, whatever DIS code the failing writer reported: with a writer that
refuses the number with the code `9` the result is `1`. -/
theorem encode_DIS_Run_failure_code (W : dis_writers) (id dest : String) (arg : Nat) :
    ((encode_DIS_Run W id dest arg).1 = 0 ↔
      (W.diswst [] id = 0 ∧ W.diswst [dis_item.dis_string id] dest = 0 ∧
        W.diswul [dis_item.dis_string id, dis_item.dis_string dest] arg = 0)) ∧
    ((encode_DIS_Run W id dest arg).1 ≠ 0 → (encode_DIS_Run W id dest arg).1 = 1) ∧
    (encode_DIS_Run W id dest arg).2 =
      (if W.diswst [] id ≠ 0 then [dis_item.dis_string id]
        else if W.diswst [dis_item.dis_string id] dest ≠ 0 then
          [dis_item.dis_string id, dis_item.dis_string dest]
        else [dis_item.dis_string id, dis_item.dis_string dest, dis_item.dis_ulong arg]) ∧
    demo_writers.diswul [dis_item.dis_string "1.svr", dis_item.dis_string "vn1"] 0 = 9 ∧
    encode_DIS_Run demo_writers "1.svr" "vn1" 0 =
      (1, [dis_item.dis_string "1.svr", dis_item.dis_string "vn1", dis_item.dis_ulong 0]) ∧
    encode_DIS_Run demo_good_writers "1.svr" "vn1" 0 =
      (0, [dis_item.dis_string "1.svr", dis_item.dis_string "vn1", dis_item.dis_ulong 0]) := by
  refine ⟨?_, ?_, ?_, by decide, by decide, by decide⟩
  · unfold encode_DIS_Run
    by_cases h1 : W.diswst [] id = 0 <;>
      by_cases h2 : W.diswst [dis_item.dis_string id] dest = 0 <;>
      by_cases h3 : W.diswul [dis_item.dis_string id, dis_item.dis_string dest] arg = 0 <;>
      simp [h1, h2, h3]
  · unfold encode_DIS_Run
    by_cases h1 : W.diswst [] id = 0 <;>
      by_cases h2 : W.diswst [dis_item.dis_string id] dest = 0 <;>
      by_cases h3 : W.diswul [dis_item.dis_string id, dis_item.dis_string dest] arg = 0 <;>
      simp [h1, h2, h3]
  · unfold encode_DIS_Run
    by_cases h1 : W.diswst [] id = 0 <;>
      by_cases h2 : W.diswst [dis_item.dis_string id] dest = 0 <;>
      by_cases h3 : W.diswul [dis_item.dis_string id, dis_item.dis_string dest] arg = 0 <;>
      simp [h1, h2, h3]

theorem check_job_name_chars_eq (cs : List Char) :
    (check_job_name_chars cs = -1 ↔ ∃ c ∈ cs, c_isgraph c = false) ∧
      (check_job_name_chars cs = 0 ∨ check_job_name_chars cs = -1) := by
  induction cs with
  | nil => simp [check_job_name_chars]
  | cons c rest ih =>
    by_cases hc : c_isgraph c = true
    · simp only [check_job_name_chars, hc, Bool.not_true, Bool.false_eq_true, if_false,
        List.mem_cons, exists_eq_or_imp, Bool.true_eq_false, false_or]
      exact ih
    · have hc' : c_isgraph c = false := by simpa using hc
      simp [check_job_name_chars, hc']

theorem isalnumspch_eq_zero (c : Char) :
    isalnumspch c = 0 ↔
      (c_isalnum c = false ∧ c ≠ '-' ∧ c ≠ '_' ∧ c ≠ '+') := by
  unfold isalnumspch
  by_cases ha : c_isalnum c = true
  · have hpos : c.toNat ≠ 0 := by
      simp only [c_isalnum, c_isalpha, c_isdigit, Bool.or_eq_true, Bool.and_eq_true,
        decide_eq_true_eq] at ha
      omega
    simp [ha, hpos]
  · have ha' : c_isalnum c = false := by simpa using ha
    simp only [ha', Bool.false_eq_true, if_false, true_and]
    by_cases hs : c = '-' ∨ c = '_' ∨ c = '+'
    · have hpos : c.toNat ≠ 0 := by
        rcases hs with h | h | h <;> subst h <;> decide
      simp only [hs, if_true]
      constructor
      · intro h; exact absurd h hpos
      · intro h
        rcases hs with h1 | h1 | h1
        · exact absurd h1 h.1
        · exact absurd h1 h.2.1
        · exact absurd h1 h.2.2
    · simp only [hs, if_false, true_iff]
      push_neg at hs
      exact hs

/-- C22. For `chk_alpha` 0 or 1, `check_job_name` returns `-2` exactly when the name
is longer than `PBS_MAXJOBNAME` characters.  For a name that is not too long it returns
`-1` exactly when the first character is not alphabetic (`chk_alpha = 1`), or is
neither alphanumeric nor one of `-`, `_`, `+` (`chk_alpha = 0`), or some character of
the name is not a visible printing character; otherwise it returns `0`.  The empty
name is rejected with `-1`, and every name accepted with `chk_alpha = 1` is accepted
with `chk_alpha = 0`. -/
theorem check_job_name_result (PBS_MAXJOBNAME : Nat) (name : String) (chk_alpha : Int)
    (hchk : chk_alpha = 0 ∨ chk_alpha = 1) :
    (check_job_name PBS_MAXJOBNAME name chk_alpha = -2 ↔
      name.data.length > PBS_MAXJOBNAME) ∧
    (name.data.length ≤ PBS_MAXJOBNAME →
      (check_job_name PBS_MAXJOBNAME name chk_alpha = -1 ↔
        ((chk_alpha = 1 ∧ c_isalpha (first_char name) = false) ∨
          (chk_alpha = 0 ∧ c_isalnum (first_char name) = false ∧ first_char name ≠ '-' ∧
            first_char name ≠ '_' ∧ first_char name ≠ '+') ∨
          ∃ c ∈ name.data, c_isgraph c = false)) ∧
      (check_job_name PBS_MAXJOBNAME name chk_alpha = 0 ∨
        check_job_name PBS_MAXJOBNAME name chk_alpha = -1)) ∧
    check_job_name PBS_MAXJOBNAME "" chk_alpha = -1 ∧
    (check_job_name PBS_MAXJOBNAME name 1 = 0 → check_job_name PBS_MAXJOBNAME name 0 = 0) := by
  have hloop := check_job_name_chars_eq name.data
  have hspch := isalnumspch_eq_zero (first_char name)
  refine ⟨?_, ?_, ?_, ?_⟩
  · unfold check_job_name
    by_cases hlen : name.data.length > PBS_MAXJOBNAME
    · rw [if_pos hlen]
      exact ⟨fun _ => hlen, fun _ => rfl⟩
    · simp only [hlen, if_false, iff_false]
      split_ifs
      · decide
      · decide
      · rcases hloop.2 with h | h <;> rw [h] <;> decide
  · intro hlen
    have hlen' : ¬ name.data.length > PBS_MAXJOBNAME := by omega
    unfold check_job_name
    simp only [hlen', if_false]
    rcases hchk with h0 | h1
    · subst h0
      simp only [zero_ne_one, false_and, if_false, true_and, false_or]
      by_cases hz : isalnumspch (first_char name) = 0
      · simp only [hz, if_true, true_iff]
        exact ⟨Or.inl (hspch.mp hz), Or.inr trivial⟩
      · simp only [hz, if_false]
        have hz' : ¬ (c_isalnum (first_char name) = false ∧ first_char name ≠ '-' ∧
            first_char name ≠ '_' ∧ first_char name ≠ '+') := fun h => hz (hspch.mpr h)
        refine ⟨?_, hloop.2⟩
        rw [hloop.1]
        constructor
        · intro h; exact Or.inr h
        · intro h
          rcases h with h | h
          · exact absurd h hz'
          · exact h
    · subst h1
      simp only [true_and, one_ne_zero, false_and, if_false, false_or]
      by_cases ha : c_isalpha (first_char name) = false
      · simp only [ha, if_true, true_iff]
        exact ⟨Or.inl trivial, Or.inr trivial⟩
      · have ha' : c_isalpha (first_char name) = true := by simpa using ha
        simp only [ha', Bool.true_eq_false, if_false, false_or]
        exact ⟨hloop.1, hloop.2⟩
  · rcases hchk with h | h <;> subst h <;> simp [check_job_name, first_char, c_isalpha, isalnumspch, c_isalnum, c_isdigit]
  · unfold check_job_name
    by_cases hlen : name.data.length > PBS_MAXJOBNAME
    · rw [if_pos hlen]
      intro h
      exact absurd h (by decide)
    · simp only [hlen, if_false, true_and, one_ne_zero, false_and, zero_ne_one]
      by_cases ha : c_isalpha (first_char name) = false
      · simp [ha]
      · have ha' : c_isalpha (first_char name) = true := by simpa using ha
        have hz : isalnumspch (first_char name) ≠ 0 := by
          intro hz
          have := (hspch.mp hz).1
          simp [c_isalnum, ha'] at this
        simp only [ha, if_false, hz]
        exact id

/-- Witness of C22: a name that starts with a digit is refused with `chk_alpha = 1`
and accepted with `chk_alpha = 0`; a name with a blank is refused; a name of more
than 15 characters is too long for `PBS_MAXJOBNAME = 15`. -/
theorem check_job_name_result_witness :
    check_job_name 15 "7up" 1 = -1 ∧ check_job_name 15 "7up" 0 = 0 ∧
    check_job_name 15 "my job" 0 = -1 ∧ check_job_name 15 "a_very_long_job_name" 0 = -2 ∧
    (check_job_name 15 "job-1" 1 = 0 → check_job_name 15 "job-1" 0 = 0) :=
  ⟨by decide, by decide, by decide, by decide,
    (check_job_name_result 15 "job-1" 1 (Or.inr rfl)).2.2.2⟩

theorem is_conn_error_code (K : db_codes) (bad : Bool) (err : String) (conn : pbs_db_link)
    (failcode : Int) :
    (is_conn_error K bad err conn failcode).1 = bad ∧
      (bad = true → (is_conn_error K bad err conn failcode).2.1 ∈ conn_error_codes K) ∧
      (bad = false → (is_conn_error K bad err conn failcode).2.1 = failcode ∧
        (is_conn_error K bad err conn failcode).2.2 = conn) ∧
      (is_conn_error K bad err conn failcode).2.2.conn_state = conn.conn_state ∧
      (is_conn_error K bad err conn failcode).2.2.conn_internal_state =
        conn.conn_internal_state ∧
      (is_conn_error K bad err conn failcode).2.2.conn_connect_time = conn.conn_connect_time := by
  cases bad
  · simp [is_conn_error]
  · simp only [is_conn_error, if_true, conn_error_codes, List.mem_cons, true_and,
      Bool.true_eq_false, false_implies, forall_const, and_true]
    split_ifs <;> simp

theorem connect_async_connecting_failed (K : db_codes) (env : connect_env)
    (conn : pbs_db_link) (failcode : Int)
    (hconn : conn.conn_state ≠ PBS_DB_CONNECT_STATE_FAILED)
    (hfailed : (connect_async_connecting K env conn failcode).2.conn_state =
      PBS_DB_CONNECT_STATE_FAILED) :
    (connect_async_connecting K env conn failcode).1 ∈ conn_error_codes K ∨
      (connect_async_connecting K env conn failcode).1 = 1 ∨
      ((connect_async_connecting K env conn failcode).1 = failcode ∧ env.check_bad = false ∧
        (env.PQsocket = -1 ∨
          (conn.conn_internal_state = PGRES_POLLING_FAILED ∧ env.poll_bad = false))) := by
  revert hfailed
  unfold connect_async_connecting
  cases hb : env.check_bad with
  | true =>
    have he := is_conn_error_code K true env.check_err conn failcode
    intro _
    left
    simp only [he.1, if_true]
    exact he.2.1 rfl
  | false =>
    have he := is_conn_error_code K false env.check_err conn failcode
    have hsame := he.2.2.1 rfl
    simp only [he.1, Bool.false_eq_true, if_false, hsame.1, hsame.2]
    by_cases hs : env.PQsocket = -1
    · intro _
      right; right
      simp [hs]
    · simp only [hs, if_false]
      cases hi : conn.conn_internal_state with
      | PGRES_POLLING_ACTIVE => intro h; exact absurd h hconn
      | PGRES_POLLING_OK => intro h; simp at h
      | PGRES_POLLING_WRITING =>
        simp only []
        split_ifs
        · intro h; exact absurd h hconn
        · intro _; right; left; rfl
        · intro h; exact absurd h hconn
      | PGRES_POLLING_READING =>
        simp only []
        split_ifs
        · intro h; exact absurd h hconn
        · intro _; right; left; rfl
        · intro h; exact absurd h hconn
      | PGRES_POLLING_FAILED =>
        intro _
        simp only []
        cases hpb : env.poll_bad with
        | true =>
          left
          exact (is_conn_error_code K true env.poll_err conn failcode).2.1 rfl
        | false =>
          right; right
          refine ⟨((is_conn_error_code K false env.poll_err conn failcode).2.2.1 rfl).1, ?_,
            Or.inr ⟨?_, ?_⟩⟩ <;> first | rfl | trivial

/-- C27 (divergence). A call of `pbs_db_connect_async` on a connection that is being
established, during which libpq reports no connection error and `PQsocket` returns
`-1`, moves the connection into the FAILED state and returns `PBS_DB_SUCCESS`: the
value of `failcode` is never changed on this path.  Apart from this path and from a
failed poll after which `PQstatus` is not `CONNECTION_BAD`, every call that moves a
connection into the FAILED state returns one of the failure codes of `is_conn_error`
or `1`. -/
theorem connect_async_no_socket (K : db_codes) (env : connect_env) (conn : pbs_db_link)
    (hstate : conn.conn_state = PBS_DB_CONNECT_STATE_CONNECTING)
    (hcheck : env.check_bad = false) (hsock : env.PQsocket = -1) :
    (pbs_db_connect_async K env conn).1 = K.PBS_DB_SUCCESS ∧
      (pbs_db_connect_async K env conn).2.conn_state = PBS_DB_CONNECT_STATE_FAILED ∧
      (∀ (env1 : connect_env) (conn1 : pbs_db_link),
        conn1.conn_state ≠ PBS_DB_CONNECT_STATE_FAILED →
        (pbs_db_connect_async K env1 conn1).2.conn_state = PBS_DB_CONNECT_STATE_FAILED →
        (pbs_db_connect_async K env1 conn1).1 ∈ conn_error_codes K ∨
          (pbs_db_connect_async K env1 conn1).1 = 1 ∨
          ((pbs_db_connect_async K env1 conn1).1 = K.PBS_DB_SUCCESS ∧
            (env1.PQsocket = -1 ∨ env1.poll_bad = false))) := by
  refine ⟨?_, ?_, ?_⟩
  · simp [pbs_db_connect_async, hstate, connect_async_connecting, is_conn_error, hcheck, hsock]
  · simp [pbs_db_connect_async, hstate, connect_async_connecting, is_conn_error, hcheck, hsock]
  · intro env1 conn1 hne hfailed
    revert hfailed
    unfold pbs_db_connect_async
    cases hs : conn1.conn_state with
    | PBS_DB_CONNECT_STATE_FAILED => exact absurd hs hne
    | PBS_DB_CONNECT_STATE_CONNECTED => intro h; simp [hs] at h
    | PBS_DB_CONNECT_STATE_CONNECTING =>
      simp only []
      intro h
      rcases connect_async_connecting_failed K env1 conn1 K.PBS_DB_SUCCESS hne h with
        h1 | h1 | h1
      · exact Or.inl h1
      · exact Or.inr (Or.inl h1)
      · refine Or.inr (Or.inr ⟨h1.1, ?_⟩)
        rcases h1.2.2 with h2 | h2
        · exact Or.inl h2
        · exact Or.inr h2.2
    | PBS_DB_CONNECT_STATE_NOT_CONNECTED =>
      simp only []
      cases hb : env1.start_bad with
      | true =>
        have he := is_conn_error_code K true env1.start_err conn1 K.PBS_DB_SUCCESS
        intro _
        left
        simp only [he.1, if_true]
        exact he.2.1 rfl
      | false =>
        have he := is_conn_error_code K false env1.start_err conn1 K.PBS_DB_SUCCESS
        have hsame := he.2.2.1 rfl
        simp only [he.1, Bool.false_eq_true, if_false, hsame.1, hsame.2]
        intro h
        rcases connect_async_connecting_failed K env1 _ K.PBS_DB_SUCCESS (by simp) h with
          h1 | h1 | h1
        · exact Or.inl h1
        · exact Or.inr (Or.inl h1)
        · refine Or.inr (Or.inr ⟨h1.1, ?_⟩)
          rcases h1.2.2 with h2 | h2
          · exact Or.inl h2
          · exact Or.inr h2.2

/-- Witness of C27: a connecting connection and a call during which `PQsocket` returns
`-1`; for comparison, a call that runs into the timeout returns `1`. -/
theorem connect_async_no_socket_witness :
    pbs_db_connect_async demo_db_codes demo_timeout_env demo_link =
      (1, { demo_link with conn_state := PBS_DB_CONNECT_STATE_FAILED }) ∧
    pbs_db_connect_async demo_db_codes demo_no_socket_env demo_link =
      (0, { demo_link with conn_state := PBS_DB_CONNECT_STATE_FAILED }) ∧
    (pbs_db_connect_async demo_db_codes demo_no_socket_env demo_link).1 =
      demo_db_codes.PBS_DB_SUCCESS ∧
    (pbs_db_connect_async demo_db_codes demo_no_socket_env demo_link).2.conn_state =
      PBS_DB_CONNECT_STATE_FAILED :=
  have h := connect_async_no_socket demo_db_codes demo_no_socket_env demo_link rfl rfl rfl
  ⟨by decide, by decide, h.1, h.2.1⟩
end PbsPro
